import Mathlib

/-!
# fastforward: forward proxies, reverse tunnel and HTTP/2 dialer pool

A shallow embedding of `HTTPForwardHandler.ServeHTTP`, `HTTPForwardHandler.GetAuthInfo`
(`handler_http_forward.go`), `SocksHandler.ServeConn` (`handler_socks.go`),
`HTTPTunnelHandler.ServeHTTP` (`handler_http_tunnel.go`), the reconnect delay and dial
port of `TunnelHandler` (`handler_tunnel.go`), the slot pool of
`HTTP2Dialer.DialContext` (`dialer_http2.go`), the merge of `NewConfig` (`config.go`),
the `expandDomains` helpers of the two forward handlers, and the helpers
`AppendSplitLines`, `MirrorHeaderConn`, `ConnWithData`, `IsReservedIP` and `WildcardMatch`
(`helpers.go`).

Conventions of the embedding:

* a Go `string` holding template text is a Lean `String`; a Go `string` built from wire
  bytes is the list of its bytes (`Bytes`);
* `time.Time` is an `Int`, the number of nanoseconds since the zero `Time`;
  `time.Duration` is an `Int` wrapped to 64 bits (`wrapInt64`);
* `int`, `int64` values that the code only compares are `Int`;
* everything outside the process (template execution, the auth command, the JSON decoder,
  the public-suffix list, the peer of a connection) is an explicit parameter;
* concurrent calls are a step function on a shared state, run along a schedule.
-/

namespace FastForward

/-! ## Library functions -/

/-- Go `unicode.IsSpace`: the code points with the Unicode White_Space property. -/
def isSpace (c : Char) : Bool :=
  let n := c.toNat
  n == 0x09 || n == 0x0A || n == 0x0B || n == 0x0C || n == 0x0D || n == 0x20 ||
  n == 0x85 || n == 0xA0 || n == 0x1680 || (0x2000 ≤ n && n ≤ 0x200A) ||
  n == 0x2028 || n == 0x2029 || n == 0x202F || n == 0x205F || n == 0x3000

/-- Go `strings.TrimLeftFunc(s, unicode.IsSpace)` on the runes of `s`. -/
def trimLeft (l : List Char) : List Char := l.dropWhile isSpace

/-- Go `strings.TrimRightFunc(s, unicode.IsSpace)` on the runes of `s`. -/
def trimRight (l : List Char) : List Char := (l.reverse.dropWhile isSpace).reverse

/-- Go `strings.TrimSpace`: leading white space is cut first, then trailing white space. -/
def TrimSpace (s : String) : String := String.mk (trimRight (trimLeft s.data))

/-- Two's-complement wrap of an integer to a signed 64-bit value (Go `int64` arithmetic). -/
def wrapInt64 (x : Int) : Int := (x + 2 ^ 63) % 2 ^ 64 - 2 ^ 63

/-- Go `time.Second`, in nanoseconds. -/
def Second : Int := 1000000000

/-- Go `time.Hour`, in nanoseconds. -/
def Hour : Int := 3600 * Second

/-- Go `Time.After`: `t.After(u)` reports whether `t` is strictly later than `u`. -/
def After (t u : Int) : Bool := decide (u < t)

/-- Modelled from the spec: the `StringSet` type (its declaration is not among the sources):
a set of strings built by `NewStringSet` from a list, with `Empty` and `Contains`. -/
structure StringSet where
  members : List String
deriving DecidableEq, Repr

/-- Modelled from the spec: `NewStringSet` makes the set of the listed strings. -/
def NewStringSet (l : List String) : StringSet := ⟨l⟩

/-- Modelled from the spec: `StringSet.Empty` holds when the set has no member. -/
def StringSet.Empty (s : StringSet) : Bool := s.members.isEmpty

/-- Modelled from the spec: `StringSet.Contains` is membership. -/
def StringSet.Contains (s : StringSet) (x : String) : Bool := decide (x ∈ s.members)

/-- The `shardmap.Map` of the handler, keyed by strings: at most one value per key. -/
structure ShardMap (V : Type) where
  entries : List (String × V)
deriving DecidableEq, Repr

/-- The value stored under `k`, if any (`shardmap.Map.Get`). -/
def ShardMap.Get {V : Type} (m : ShardMap V) (k : String) : Option V :=
  (m.entries.find? (fun e => e.1 == k)).map (fun e => e.2)

/-- Removes the entry of `k` (`shardmap.Map.Delete`). -/
def ShardMap.Delete {V : Type} (m : ShardMap V) (k : String) : ShardMap V :=
  ⟨m.entries.filter (fun e => e.1 != k)⟩

/-- Stores `v` under `k`, replacing an earlier value (`shardmap.Map.Set`). -/
def ShardMap.Set {V : Type} (m : ShardMap V) (k : String) (v : V) : ShardMap V :=
  ⟨(k, v) :: (m.Delete k).entries⟩

/-! ## Data model of the HTTP forward handler -/

/-- Go `ForwardAuthInfo` (handler_http_forward.go:431). -/
structure ForwardAuthInfo where
  deadline : Int
  Username : String
  SpeedLimit : Int
  VIP : Int
  Error : String
  TTL : Int
deriving DecidableEq, Repr

/-- The zero value of `ForwardAuthInfo` (`var ai ForwardAuthInfo`). -/
def ForwardAuthInfo.zero : ForwardAuthInfo := ⟨0, "", 0, 0, "", 0⟩

/-- What the JSON decoder writes into a `ForwardAuthInfo`: only the exported fields that
occur in the document are assigned; `deadline` is unexported and cannot be set. -/
structure AuthJSON where
  Username : Option String
  SpeedLimit : Option Int
  VIP : Option Int
  Error : Option String
  TTL : Option Int
deriving DecidableEq, Repr

/-- The effect of `json.NewDecoder(&b).Decode(&ai)` on the current value of `ai`. -/
def AuthJSON.apply (p : AuthJSON) (ai : ForwardAuthInfo) : ForwardAuthInfo :=
  { deadline := ai.deadline
    Username := p.Username.getD ai.Username
    SpeedLimit := p.SpeedLimit.getD ai.SpeedLimit
    VIP := p.VIP.getD ai.VIP
    Error := p.Error.getD ai.Error
    TTL := p.TTL.getD ai.TTL }

/-- The part of `*http.Request` and of its `RequestInfo` that the handler inspects itself;
`Ctx` stands for everything else a template can see (headers, URL, client hello). -/
structure Request where
  Method : String
  Host : String
  RemoteIP : String
  Ctx : String
deriving DecidableEq, Repr

/-- The collaborators of the HTTP forward handler outside the process. -/
structure Sys where
  /-- Go `net.SplitHostPort`: the host part, when the input splits. -/
  SplitHostPort : String → Option String
  /-- Go `net.ParseIP(s) != nil`. -/
  ParseIP : String → Bool
  /-- Go `publicsuffix.EffectiveTLDPlusOne`, `none` on error. -/
  EffectiveTLDPlusOne : String → Option String
  /-- Repository function `SplitCommandLine` (not among the sources), taken as given. -/
  SplitCommandLine : String → Except String (String × List String)
  /-- Running the auth command (`cmd.Run`): its combined output, or the run error. -/
  runCommand : String → List String → Except String String
  /-- Decoding the command output: the fields assigned, and the decode error if any. -/
  jsonDecode : String → AuthJSON × Option String

/-- The values returned by the calls of `timeNow()` during one request. -/
structure Clock where
  /-- The call in the `allow_ip` case (line 227). -/
  policy : Int
  /-- The call when the allow-IP cache is read (line 234). -/
  allowIP : Int
  /-- The call when the auth cache is read (line 455). -/
  authLookup : Int
  /-- The call when the auth result is stored (line 494). -/
  authStore : Int
deriving DecidableEq, Repr

/-- Go `HTTPForwardHandler` (handler_http_forward.go:25): the fields the decision
pipeline reads. A template is the function from a request to the result of `Execute`. -/
structure HTTPForwardHandler where
  ForwardPolicy : String
  ForwardSpeedLimit : Int
  ServerNames : StringSet
  AllowDomains : StringSet
  DenyDomains : StringSet
  PolicyTemplate : Option (Request → Except String String)
  AuthTemplate : Option (Request → Except String String)
  UpstreamTemplate : Option (Request → ForwardAuthInfo → Except String String)
  AuthCache : ShardMap ForwardAuthInfo
  AllowIPCache : ShardMap Int

/-- How `ServeHTTP` ends for the client. -/
inductive Response where
  /-- `h.Next.ServeHTTP(rw, req)`: the request is delegated to the next handler. -/
  | next
  /-- `RejectRequest`: a delayed `400 Bad Request`. -/
  | reject
  /-- The connection is hijacked and closed without a response. -/
  | reset
  /-- A `401`/`407` challenge with the given status code and header name. -/
  | authRequired (code : Nat) (header : String)
  /-- The request reaches the dispatch on the method (line 287) with these values. -/
  | forward (upstream : String) (ai : ForwardAuthInfo) (domain : String) (bypassAuth : Bool)
deriving DecidableEq, Repr

/-- Result of the policy step (lines 160-230). -/
inductive PolicyOutcome where
  /-- The handler returned inside the policy step. -/
  | done (r : Response)
  /-- The handler goes on with this `bypassAuth` and this allow-IP cache. -/
  | cont (bypassAuth : Bool) (allowIP : ShardMap Int)
deriving DecidableEq, Repr

/-- The policy step of `ServeHTTP` (lines 160-230). -/
def policyStep (h : HTTPForwardHandler) (req : Request) (now : Int) : PolicyOutcome :=
  match h.PolicyTemplate with
  | none => .cont false h.AllowIPCache
  | some t =>
    match t req with
    | .error _ => .done .next
    | .ok out =>
      let output := TrimSpace out
      if output = "" ∨ output = "proxy_pass" then .done .next
      else if output = "reject" ∨ output = "deny" then .done .reject
      else if output = "reset" ∨ output = "close" then .done .reset
      else if output = "require_auth" ∨ output = "require_proxy_auth"
          ∨ output = "require_www_auth" then
        if output = "require_www_auth" then .done (.authRequired 401 "www-authenticate")
        else .done (.authRequired 407 "proxy-authenticate")
      else if output = "bypass_auth" then .cont true h.AllowIPCache
      else if output = "allow_ip" then
        .cont true (h.AllowIPCache.Set req.RemoteIP (now + 6 * Hour))
      else .cont false h.AllowIPCache

/-- The allow-IP step of `ServeHTTP` (lines 232-240): the new `bypassAuth` and cache. -/
def allowIPStep (bypassAuth : Bool) (cache : ShardMap Int) (remoteIP : String) (now : Int) :
    Bool × ShardMap Int :=
  if bypassAuth then (bypassAuth, cache)
  else
    match cache.Get remoteIP with
    | some v => if After now v then (true, cache) else (false, cache.Delete remoteIP)
    | none => (false, cache)

/-- What `GetAuthInfo` returns and does: the two results, the auth cache afterwards and
whether the auth command was started. -/
structure AuthResult where
  ai : ForwardAuthInfo
  err : Option String
  cache : ShardMap ForwardAuthInfo
  ranCommand : Bool
deriving DecidableEq, Repr

/-- The tail of `GetAuthInfo` after the cache lookup (lines 461-498), starting from the
current value `ai` of the named result and the current cache. -/
def runAuthCommand (sys : Sys) (storeNow : Int) (commandLine : String)
    (ai : ForwardAuthInfo) (cache : ShardMap ForwardAuthInfo) : AuthResult :=
  match sys.SplitCommandLine commandLine with
  | .error e => ⟨ai, some e, cache, false⟩
  | .ok (command, arguments) =>
    match sys.runCommand command arguments with
    | .error e => ⟨ai, some e, cache, true⟩
    | .ok output =>
      let decoded := sys.jsonDecode output
      let ai1 := decoded.1.apply ai
      let err := if ai1.Error ≠ "" then some ai1.Error else decoded.2
      match err with
      | some e => ⟨ai1, some e, cache, true⟩
      | none =>
        if ai1.TTL > 0 then
          let ai2 := { ai1 with deadline := storeNow + wrapInt64 (ai1.TTL * Second) }
          ⟨ai2, none, cache.Set commandLine ai2, true⟩
        else ⟨ai1, none, cache, true⟩

/-- Go `HTTPForwardHandler.GetAuthInfo` (handler_http_forward.go:440). The caller
guarantees a non-nil auth template; a nil one is reported as an error here. -/
def GetAuthInfo (sys : Sys) (clock : Clock) (h : HTTPForwardHandler) (req : Request) :
    AuthResult :=
  match h.AuthTemplate with
  | none => ⟨ForwardAuthInfo.zero, some "nil template", h.AuthCache, false⟩
  | some t =>
    match t req with
    | .error e => ⟨ForwardAuthInfo.zero, some e, h.AuthCache, false⟩
    | .ok out =>
      let commandLine := TrimSpace out
      match h.AuthCache.Get commandLine with
      | some v =>
        if After v.deadline clock.authLookup then ⟨v, none, h.AuthCache, false⟩
        else runAuthCommand sys clock.authStore commandLine v (h.AuthCache.Delete commandLine)
      | none => runAuthCommand sys clock.authStore commandLine ForwardAuthInfo.zero h.AuthCache

/-- Result of the authentication step of `ServeHTTP` (lines 242-250). -/
inductive AuthOutcome where
  /-- `GetAuthInfo` failed and the request was rejected. -/
  | rejected (cache : ShardMap ForwardAuthInfo)
  /-- The handler goes on with this auth info. -/
  | cont (ai : ForwardAuthInfo) (cache : ShardMap ForwardAuthInfo)
deriving DecidableEq, Repr

/-- The authentication step of `ServeHTTP` (lines 242-250). -/
def authStep (sys : Sys) (clock : Clock) (h : HTTPForwardHandler) (req : Request)
    (bypassAuth : Bool) : AuthOutcome :=
  if h.AuthTemplate.isSome ∧ bypassAuth = false then
    let r := GetAuthInfo sys clock h req
    match r.err with
    | some _ => .rejected r.cache
    | none => .cont r.ai r.cache
  else .cont ForwardAuthInfo.zero h.AuthCache

/-- The domain filter of `ServeHTTP` (lines 253-262): whether the request is rejected. -/
def domainRejected (h : HTTPForwardHandler) (domain : String) : Bool :=
  if !h.AllowDomains.Empty || !h.DenyDomains.Empty then
    if !h.AllowDomains.Empty && !h.AllowDomains.Contains domain then true
    else if h.DenyDomains.Contains domain then true
    else false
  else false

/-- The domain filter and speed-limit step of `ServeHTTP` (lines 252-266): `none` when the
request is rejected, otherwise the auth info used from here on. -/
def filterStep (h : HTTPForwardHandler) (ai : ForwardAuthInfo) (domain : String) :
    Option ForwardAuthInfo :=
  if ai.VIP > 0 then
    if domainRejected h domain then none
    else if ai.SpeedLimit = 0 ∧ h.ForwardSpeedLimit > 0 then
      some { ai with SpeedLimit := h.ForwardSpeedLimit }
    else some ai
  else some ai

/-- The upstream step of `ServeHTTP` (lines 268-282): the trimmed name of the dialer, or
`none` when the template fails. -/
def upstreamStep (h : HTTPForwardHandler) (req : Request) (ai : ForwardAuthInfo) :
    Option String :=
  match h.UpstreamTemplate with
  | none => some ""
  | some t =>
    match t req ai with
    | .error _ => none
    | .ok out => some (TrimSpace out)

/-- What `ServeHTTP` answers, and the two caches afterwards. -/
structure HTTPResult where
  response : Response
  allowIP : ShardMap Int
  authCache : ShardMap ForwardAuthInfo
deriving DecidableEq, Repr

/-- The part of `ServeHTTP` after the policy step (lines 232-287), entered with the
`bypassAuth` and the allow-IP cache the policy step left. -/
def afterPolicy (sys : Sys) (clock : Clock) (h : HTTPForwardHandler) (req : Request)
    (domain : String) (bypass0 : Bool) (ipc0 : ShardMap Int) : HTTPResult :=
  let a := allowIPStep bypass0 ipc0 req.RemoteIP clock.allowIP
  match authStep sys clock h req a.1 with
  | .rejected ac => ⟨.reject, a.2, ac⟩
  | .cont ai ac =>
    match filterStep h ai domain with
    | none => ⟨.reject, a.2, ac⟩
    | some ai1 =>
      match upstreamStep h req ai1 with
      | none => ⟨.next, a.2, ac⟩
      | some upstream => ⟨.forward upstream ai1 domain a.1, a.2, ac⟩

/-- The `host` of `ServeHTTP` (lines 136-139): `req.Host` without its port. -/
def hostOf (sys : Sys) (req : Request) : String :=
  (sys.SplitHostPort req.Host).getD req.Host

/-- The `domain` of `ServeHTTP` (lines 148-153). -/
def domainOf (sys : Sys) (req : Request) : String :=
  if sys.ParseIP (hostOf sys req) then hostOf sys req
  else (sys.EffectiveTLDPlusOne (hostOf sys req)).getD (hostOf sys req)

/-- Go `HTTPForwardHandler.ServeHTTP` (handler_http_forward.go:132) up to the dispatch on
the request method. -/
def ServeHTTP (sys : Sys) (clock : Clock) (h : HTTPForwardHandler) (req : Request) :
    HTTPResult :=
  if h.ServerNames.Contains (hostOf sys req) ∧ req.Method ≠ "CONNECT" then
    ⟨.next, h.AllowIPCache, h.AuthCache⟩
  else if h.ForwardPolicy = "" then ⟨.next, h.AllowIPCache, h.AuthCache⟩
  else
    match policyStep h req clock.policy with
    | .done r => ⟨r, h.AllowIPCache, h.AuthCache⟩
    | .cont bypass0 ipc0 => afterPolicy sys clock h req (domainOf sys req) bypass0 ipc0

/-! ## SOCKS handler: wire data and connection -/

/-- A sequence of bytes, each a value below 256: a `[]byte`, or a Go string read off the
wire. -/
abbrev Bytes := List Nat

/-- Modelled from the spec: the constant `VersionSocks5` (replies start with `05`). -/
def VersionSocks5 : Nat := 0x05

/-- Modelled from the spec: the constant `Socks5AuthMethodNone` (the `05 00` reply). -/
def Socks5AuthMethodNone : Nat := 0x00

/-- Modelled from the spec: the constant `Socks5AuthMethodPassword`, method `0x02`. -/
def Socks5AuthMethodPassword : Nat := 0x02

/-- Modelled from the spec: the constant `Socks5StatusRequestGranted`, status `0x00`. -/
def Socks5StatusRequestGranted : Nat := 0x00

/-- Modelled from the spec: the constant `Socks5StatusGeneralFailure` (the `05 01` reply). -/
def Socks5StatusGeneralFailure : Nat := 0x01

/-- Modelled from the spec: the constant `Socks5StatusConnectionNotAllowedByRuleset`,
status `0x02` (connection not allowed). -/
def Socks5StatusConnectionNotAllowedByRuleset : Nat := 0x02

/-- Modelled from the spec: the constant `Socks5StatusNetworkUnreachable`, status `0x03` of
RFC 1928. -/
def Socks5StatusNetworkUnreachable : Nat := 0x03

/-- Modelled from the spec: the constant `Socks5IPv4Address`, address type `0x01` of
RFC 1928. -/
def Socks5IPv4Address : Nat := 0x01

/-- Modelled from the spec: the constant `Socks5DomainName`, address type `0x03` of
RFC 1928. -/
def Socks5DomainName : Nat := 0x03

/-- Modelled from the spec: the constant `Socks5IPv6Address`, address type `0x04` of
RFC 1928. -/
def Socks5IPv6Address : Nat := 0x04

/-- The Go slice expression `b[lo:hi]` on an array: `none` is the run-time panic
"slice bounds out of range". -/
def slice (b : Bytes) (lo hi : Nat) : Option Bytes :=
  if lo ≤ hi ∧ hi ≤ b.length then some ((b.drop lo).take (hi - lo)) else none

/-- The Go index expression `b[i]` for an index known to be in range. -/
def byteAt (b : Bytes) (i : Nat) : Nat := b.getD i 0

/-- Go `ubtoa` of package net: the decimal digits of a byte, in ASCII. -/
def ubtoa (v : Nat) : Bytes :=
  if v < 10 then [48 + v]
  else if v < 100 then [48 + v / 10, 48 + v % 10]
  else [48 + v / 100, 48 + v / 10 % 10, 48 + v % 10]

/-- The dotted-decimal text of four address bytes. -/
def dottedDecimal (p : Bytes) : Bytes :=
  ubtoa (byteAt p 0) ++ [46] ++ ubtoa (byteAt p 1) ++ [46] ++ ubtoa (byteAt p 2) ++ [46]
    ++ ubtoa (byteAt p 3)

/-- The ASCII code of the lower-case hexadecimal digit `d`. -/
def hexDigit (d : Nat) : Nat := if d < 10 then 48 + d else 87 + d

/-- Go `appendHex` of package net: a 16-bit group in hexadecimal without leading zeros. -/
def hexGroup (v : Nat) : Bytes :=
  if v = 0 then [48]
  else ([v / 4096 % 16, v / 256 % 16, v / 16 % 16, v % 16].dropWhile (fun d => d == 0)).map hexDigit

/-- The eight 16-bit groups of sixteen address bytes. -/
def groupsOf (p : Bytes) : List Nat :=
  (List.range 8).map (fun i => byteAt p (2 * i) * 256 + byteAt p (2 * i + 1))

/-- The first longest run of zero groups, as (start, length). -/
def longestZeroRun (g : List Nat) : Nat × Nat :=
  (List.range g.length).foldl
    (fun best i =>
      let l := ((g.drop i).takeWhile (fun x => x == 0)).length
      if l > best.2 then (i, l) else best)
    (0, 0)

/-- The groups written in hexadecimal and joined by colons. -/
def joinGroups (g : List Nat) : Bytes := [58].intercalate (g.map hexGroup)

/-- The IPv6 text of sixteen address bytes: a longest run of two or more zero groups is
written `::`. -/
def ipv6Text (p : Bytes) : Bytes :=
  let g := groupsOf p
  let run := longestZeroRun g
  if run.2 < 2 then joinGroups g
  else joinGroups (g.take run.1) ++ [58, 58] ++ joinGroups (g.drop (run.1 + run.2))

/-- Go `net.IP(p).String()` for a slice of 4 or 16 bytes: an IPv4 address, also one held
in 16 bytes as `::ffff:a.b.c.d`, is dotted decimal; any other is IPv6 text. -/
def ipString (p : Bytes) : Bytes :=
  if p.length = 4 then dottedDecimal p
  else if (p.take 10).all (fun x => x == 0) ∧ byteAt p 10 = 0xff ∧ byteAt p 11 = 0xff then
    dottedDecimal (p.drop 12)
  else ipv6Text p

/-- The client side of a connection and the record of what the handler sent: `input` are
the results of the successive `conn.Read` calls (`none` is a read error or the end of the
stream), `output` the arguments of the `conn.Write` calls so far, `writeOK` whether a
write reports success. -/
structure Conn where
  input : List (Option Bytes)
  output : List Bytes
  writeOK : Bool
deriving DecidableEq, Repr

/-- Go `conn.Write(p)`: the connection afterwards, and whether the write succeeded. -/
def Conn.Write (c : Conn) (p : Bytes) : Conn × Bool :=
  ({ c with output := c.output ++ [p] }, c.writeOK)

/-- What `io.ReadAtLeast` returns and leaves behind: the count `n`, whether `err == nil`,
the buffer and the reads still pending. -/
structure ReadResult where
  n : Nat
  ok : Bool
  buf : Bytes
  rest : List (Option Bytes)
deriving DecidableEq, Repr

/-- The loop of Go `io.ReadAtLeast(conn, buf, min)`: reads go to `buf[n:]` until `min`
bytes are in or a read fails; a read never takes more than the room left. -/
def readLoop (min : Nat) : List (Option Bytes) → Bytes → Nat → ReadResult
  | [], buf, n => ⟨n, false, buf, []⟩
  | none :: rest, buf, n => ⟨n, false, buf, rest⟩
  | some chunk :: rest, buf, n =>
    let got := chunk.take (buf.length - n)
    let left := chunk.drop (buf.length - n)
    let buf1 := buf.take n ++ got ++ buf.drop (n + got.length)
    let n1 := n + got.length
    if left ≠ [] then ⟨n1, decide (min ≤ n1), buf1, some left :: rest⟩
    else if min ≤ n1 then ⟨n1, true, buf1, rest⟩
    else readLoop min rest buf1 n1

/-- Go `io.ReadAtLeast(conn, b[:], min)`. -/
def ReadAtLeast (input : List (Option Bytes)) (buf : Bytes) (min : Nat) : ReadResult :=
  if buf.length < min then ⟨0, false, buf, input⟩ else readLoop min input buf 0

/-- Go `WriteSocks5Status` (handler_socks.go:343). -/
def WriteSocks5Status (conn : Conn) (status : Nat) : Conn × Bool :=
  conn.Write [VersionSocks5, status, 0x00, 0x01, 0x00, 0x00, 0x00, 0x00, 0x00, 0x00]

/-! ## SOCKS handler -/

/-- Go `SocksRequest` (handler_socks.go:22), without the trace id. -/
structure SocksRequest where
  RemoteAddr : String
  RemoteIP : String
  ServerAddr : String
  Version : Nat
  SupportAuth : Bool
  Username : Bytes
  Password : Bytes
  Host : Bytes
  Port : Nat
deriving DecidableEq, Repr

/-- A row `username, password, speedlimit, vip` of the auth table. -/
structure AuthRow where
  Username : String
  Password : Bytes
  SpeedLimit : Int
  VIP : Int
deriving DecidableEq, Repr

/-- Go `SocksHandler` (handler_socks.go:35): the fields `ServeConn` reads. `AuthDB` is the
query `SELECT ... WHERE username=? LIMIT 1` of the table; `Upstreams` are the names of the
configured dialers. -/
structure SocksHandler where
  SpeedLimit : Int
  AllowDomains : StringSet
  DenyDomains : StringSet
  PolicyTemplate : Option (SocksRequest → Except String String)
  AuthDB : Option (Bytes → Except String AuthRow)
  UpstreamTemplate : Option (SocksRequest → Except String String)
  Upstreams : List String

/-- The collaborators of the SOCKS handler outside the process. -/
structure SocksSys where
  /-- Go `publicsuffix.EffectiveTLDPlusOne` of a host, `none` on error. -/
  EffectiveTLDPlusOne : Bytes → Option String
  /-- Whether dialing `host:port` through the named dialer (`""` is the local one)
  succeeds. -/
  dial : String → Bytes → Nat → Bool

/-- How `ServeConn` ends. -/
inductive SocksEnd where
  /-- The handler returned without dialing; the connection is closed. -/
  | closed
  /-- A run-time panic (slice bounds out of range). -/
  | panicked
  /-- The dial to the target failed. -/
  | dialFailed (upstream : String) (host : Bytes) (port : Nat)
  /-- The target was dialed and the relay ran with this speed limit. -/
  | relayed (upstream : String) (host : Bytes) (port : Nat) (speedLimit : Int)
deriving DecidableEq, Repr

/-- The local variables of `ServeConn`: the connection, the 512-byte buffer `b`, the
request and the auth info. -/
structure SocksState where
  conn : Conn
  b : Bytes
  req : SocksRequest
  ai : ForwardAuthInfo
deriving DecidableEq, Repr

/-- The end of a run of `ServeConn` with the final values of its variables. -/
structure SocksResult where
  outcome : SocksEnd
  state : SocksState
deriving DecidableEq, Repr

/-- Either `ServeConn` has returned, or it goes on from a state. -/
inductive SocksStep where
  | stop (r : SocksResult)
  | go (s : SocksState)
deriving DecidableEq, Repr

/-- Go `SocksHandler.GetAuthInfo` (handler_socks.go:327). -/
def SocksHandler.GetAuthInfo (db : Bytes → Except String AuthRow) (req : SocksRequest) :
    Except String ForwardAuthInfo :=
  match db req.Username with
  | .error e => .error e
  | .ok row =>
    if row.Password ≠ req.Password then .error "wrong username or password"
    else .ok { ForwardAuthInfo.zero with
      Username := row.Username, SpeedLimit := row.SpeedLimit, VIP := row.VIP }

/-- The method scan of `ServeConn` (lines 146-151): whether one of the `b[1]` method bytes
is `0x02`. -/
def supportAuth (b : Bytes) : Bool :=
  (List.range (byteAt b 1)).any (fun i => byteAt b (i + 2) == Socks5AuthMethodPassword)

/-- The greeting step of `ServeConn` (lines 132-151). -/
def greetingStep (remoteAddr remoteIP serverAddr : String) (conn : Conn) : SocksStep :=
  let req0 : SocksRequest := ⟨remoteAddr, remoteIP, serverAddr, 0, false, [], [], [], 0⟩
  let r := ReadAtLeast conn.input (List.replicate 512 0) 2
  let conn1 := { conn with input := r.rest }
  if r.ok = false ∨ r.n = 0 then .stop ⟨.closed, ⟨conn1, r.buf, req0, ForwardAuthInfo.zero⟩⟩
  else
    .go ⟨conn1, r.buf,
      { req0 with Version := byteAt r.buf 0, SupportAuth := supportAuth r.buf },
      ForwardAuthInfo.zero⟩

/-- The first policy evaluation of `ServeConn` (lines 153-177): `none` when the handler
returns, otherwise the value of `bypassAuth`. -/
def firstPolicy (h : SocksHandler) (req : SocksRequest) : Option Bool :=
  match h.PolicyTemplate with
  | none => some false
  | some t =>
    match t req with
    | .error _ => none
    | .ok out =>
      let output := TrimSpace out
      if output = "reject" ∨ output = "deny" then none
      else if output = "require_auth" ∨ output = "require_socks_auth" then some false
      else if output = "bypass_auth" then some true
      else some false

/-- The authentication step of `ServeConn` (lines 179-203). -/
def socksAuthStep (h : SocksHandler) (bypassAuth : Bool) (s : SocksState) : SocksStep :=
  if bypassAuth then .go s
  else if s.req.SupportAuth = false then .stop ⟨.closed, s⟩
  else
    let conn1 := (s.conn.Write [VersionSocks5, Socks5AuthMethodPassword]).1
    let r := ReadAtLeast conn1.input s.b 4
    let s1 : SocksState := { s with conn := { conn1 with input := r.rest }, b := r.buf }
    if r.ok = false ∨ r.n = 0 then .stop ⟨.closed, s1⟩
    else
      let b := s1.b
      match slice b 2 (2 + byteAt b 1) with
      | none => .stop ⟨.panicked, s1⟩
      | some username =>
        let s2 : SocksState := { s1 with req := { s1.req with Username := username } }
        match slice b (3 + byteAt b 1) (3 + byteAt b 1 + byteAt b (2 + byteAt b 1)) with
        | none => .stop ⟨.panicked, s2⟩
        | some password =>
          let s3 : SocksState := { s2 with req := { s2.req with Password := password } }
          match h.AuthDB with
          | none => .go s3
          | some db =>
            match SocksHandler.GetAuthInfo db s3.req with
            | .error _ =>
              .stop ⟨.closed, { s3 with
                conn := (s3.conn.Write [VersionSocks5, Socks5StatusGeneralFailure]).1 }⟩
            | .ok ai => .go { s3 with ai := ai }

/-- The address decoding of `ServeConn` (lines 218-227) on the buffer `b` holding the `n`
bytes just read: `none` is a run-time panic, otherwise the new `Host` and `Port`. -/
def decodeAddress (b : Bytes) (n : Nat) (host : Bytes) : Option (Bytes × Nat) :=
  let addressType := byteAt b 3
  let port := (byteAt b (n - 2)) <<< 8 ||| byteAt b (n - 1)
  if addressType = Socks5IPv4Address then (slice b 4 8).map (fun p => (ipString p, port))
  else if addressType = Socks5DomainName then
    (slice b 5 (5 + byteAt b 4)).map (fun p => (p, port))
  else if addressType = Socks5IPv6Address then
    (slice b 4 20).map (fun p => (ipString p, port))
  else some (host, port)

/-- The domain filter of `ServeConn` (lines 229-241): whether the request is refused. -/
def socksDomainRejected (sys : SocksSys) (h : SocksHandler) (addressType : Nat)
    (host : Bytes) : Bool :=
  if addressType = Socks5DomainName ∧ (!h.AllowDomains.Empty || !h.DenyDomains.Empty) then
    match sys.EffectiveTLDPlusOne host with
    | some s =>
      if !h.AllowDomains.Empty && !h.AllowDomains.Contains s then true
      else if h.DenyDomains.Contains s then true
      else false
    | none => false
  else false

/-- The end of `ServeConn` (lines 271-325): dialer selection, dial, reply and relay. -/
def dialStep (sys : SocksSys) (h : SocksHandler) (s : SocksState) : SocksResult :=
  let dialWith (upstream : String) : SocksResult :=
    if sys.dial upstream s.req.Host s.req.Port then
      ⟨.relayed upstream s.req.Host s.req.Port s.ai.SpeedLimit,
        { s with conn := (WriteSocks5Status s.conn Socks5StatusRequestGranted).1 }⟩
    else
      ⟨.dialFailed upstream s.req.Host s.req.Port,
        { s with conn := (WriteSocks5Status s.conn Socks5StatusNetworkUnreachable).1 }⟩
  match h.UpstreamTemplate with
  | none => dialWith ""
  | some t =>
    match t s.req with
    | .error _ =>
      ⟨.closed, { s with conn := (WriteSocks5Status s.conn Socks5StatusGeneralFailure).1 }⟩
    | .ok out =>
      let upstream := TrimSpace out
      if upstream ≠ "" ∧ upstream ∉ h.Upstreams then ⟨.closed, s⟩
      else dialWith upstream

/-- The second policy evaluation of `ServeConn` (lines 247-269) and what follows it. -/
def secondPolicy (sys : SocksSys) (h : SocksHandler) (s : SocksState) : SocksResult :=
  match h.PolicyTemplate with
  | none => dialStep sys h s
  | some t =>
    match t s.req with
    | .error _ => ⟨.closed, s⟩
    | .ok out =>
      let output := TrimSpace out
      if output = "reject" ∨ output = "deny" then
        ⟨.closed, { s with
          conn := (WriteSocks5Status s.conn Socks5StatusConnectionNotAllowedByRuleset).1 }⟩
      else if output = "require_auth" ∨ output = "require_socks_auth" then
        ⟨.closed, { s with
          conn := (WriteSocks5Status s.conn Socks5StatusConnectionNotAllowedByRuleset).1 }⟩
      else dialStep sys h s

/-- The request step of `ServeConn` (lines 205-245) and what follows it, entered once the
authentication is through. -/
def requestStep (sys : SocksSys) (h : SocksHandler) (s : SocksState) : SocksResult :=
  let w := s.conn.Write [VersionSocks5, Socks5AuthMethodNone]
  if w.2 = false then ⟨.closed, { s with conn := w.1 }⟩
  else
    let r := ReadAtLeast w.1.input s.b 8
    let s1 : SocksState := { s with conn := { w.1 with input := r.rest }, b := r.buf }
    if r.ok = false ∨ r.n = 0 then ⟨.closed, s1⟩
    else
      match decodeAddress s1.b r.n s1.req.Host with
      | none => ⟨.panicked, s1⟩
      | some hp =>
        let s2 : SocksState := { s1 with req := { s1.req with Host := hp.1, Port := hp.2 } }
        if s2.ai.VIP > 0 then
          if socksDomainRejected sys h (byteAt s2.b 3) s2.req.Host then
            ⟨.closed, { s2 with
              conn := (WriteSocks5Status s2.conn Socks5StatusConnectionNotAllowedByRuleset).1 }⟩
          else if s2.ai.SpeedLimit = 0 ∧ h.SpeedLimit > 0 then
            secondPolicy sys h { s2 with ai := { s2.ai with SpeedLimit := h.SpeedLimit } }
          else secondPolicy sys h s2
        else secondPolicy sys h s2

/-- Go `SocksHandler.ServeConn` (handler_socks.go:129). -/
def ServeConn (sys : SocksSys) (h : SocksHandler) (remoteAddr remoteIP serverAddr : String)
    (conn : Conn) : SocksResult :=
  match greetingStep remoteAddr remoteIP serverAddr conn with
  | .stop r => r
  | .go s =>
    match firstPolicy h s.req with
    | none => ⟨.closed, s⟩
    | some bypassAuth =>
      match socksAuthStep h bypassAuth s with
      | .stop r => r
      | .go s1 => requestStep sys h s1

/-! ## Concrete handlers and requests -/

/-- A system in which hosts carry no port, no host is an IP literal, every host is its own
registrable domain, a command line is a bare command, the auth command fails. -/
def sysPlain : Sys :=
  { SplitHostPort := fun _ => none
    ParseIP := fun _ => false
    EffectiveTLDPlusOne := fun s => some s
    SplitCommandLine := fun s => .ok (s, [])
    runCommand := fun _ _ => .error "exit status 1"
    jsonDecode := fun _ => (⟨none, none, none, none, none⟩, none) }

/-- A `CONNECT example.com:443` request from 10.0.0.1. -/
def reqConnect : Request := ⟨"CONNECT", "example.com", "10.0.0.1", ""⟩

/-- A handler whose policy template always prints the given text; nothing else is
configured. -/
def handlerWithPolicy (output : String) : HTTPForwardHandler :=
  { ForwardPolicy := "policy"
    ForwardSpeedLimit := 0
    ServerNames := NewStringSet []
    AllowDomains := NewStringSet []
    DenyDomains := NewStringSet []
    PolicyTemplate := some (fun _ => .ok output)
    AuthTemplate := none
    UpstreamTemplate := none
    AuthCache := ⟨[]⟩
    AllowIPCache := ⟨[]⟩ }

/-- A handler that asks every request for authentication (policy output `auth`, auth
command `check-user`) and has 10.0.0.1 in its allow-IP cache until time 1000. -/
def handlerAllowIP : HTTPForwardHandler :=
  { handlerWithPolicy "auth" with
    AuthTemplate := some (fun _ => .ok "check-user")
    AllowIPCache := ⟨[("10.0.0.1", 1000)]⟩ }

/-- All clock readings of a request are `t`. -/
def clockAt (t : Int) : Clock := ⟨t, t, t, t⟩


/-- The decision keywords the policy step of `ServeHTTP` recognises (§3 and §4.2 of the
specification), the empty output included. -/
def recognisedDecisions : List String :=
  ["", "proxy_pass", "reject", "deny", "reset", "close", "require_auth",
    "require_proxy_auth", "require_www_auth", "bypass_auth", "allow_ip"]

/-- A SOCKS handler without policy, auth table, upstream template or domain sets. -/
def socksPlain : SocksHandler :=
  { SpeedLimit := 0
    AllowDomains := NewStringSet []
    DenyDomains := NewStringSet []
    PolicyTemplate := none
    AuthDB := none
    UpstreamTemplate := none
    Upstreams := [] }

/-- A SOCKS environment in which every host is its own registrable domain and every dial
succeeds. -/
def socksSysPlain : SocksSys :=
  { EffectiveTLDPlusOne := fun host => some (String.mk (host.map Char.ofNat))
    dial := fun _ _ _ => true }

/-- The system `sysPlain`, but the auth command succeeds and its output decodes to the
user `u` of VIP tier 1 with the given TTL. -/
def sysTTL (ttl : Int) : Sys :=
  { sysPlain with
    runCommand := fun _ _ => .ok "json"
    jsonDecode := fun _ => (⟨some "u", none, some 1, none, some ttl⟩, none) }

/-- A handler that asks every request for authentication with the command `check-user`. -/
def handlerAuth : HTTPForwardHandler :=
  { handlerWithPolicy "auth" with AuthTemplate := some (fun _ => .ok "check-user") }

/-- A handler whose auth template fails to execute. -/
def handlerAuthBroken : HTTPForwardHandler :=
  { handlerWithPolicy "auth" with AuthTemplate := some (fun _ => .error "template error") }

/-- A handler whose policy template fails to execute. -/
def handlerPolicyBroken : HTTPForwardHandler :=
  { handlerWithPolicy "auth" with PolicyTemplate := some (fun _ => .error "template error") }

/-- A handler with a global speed limit of 1000 bytes per second and no authentication. -/
def handlerGlobalLimit : HTTPForwardHandler :=
  { handlerWithPolicy "auth" with ForwardSpeedLimit := 1000 }

/-- A handler with authentication, a global speed limit of 1000 bytes per second and
`blocked.test` in its deny set. -/
def handlerDeny : HTTPForwardHandler :=
  { handlerAuth with ForwardSpeedLimit := 1000, DenyDomains := NewStringSet ["blocked.test"] }

/-- A `CONNECT blocked.test:443` request from 10.0.0.1. -/
def reqBlocked : Request := ⟨"CONNECT", "blocked.test", "10.0.0.1", ""⟩

/-- The auth info of the user `u` (VIP tier 1, no speed limit of its own) as stored at time
0 with a TTL of 60 s. -/
def aiUser : ForwardAuthInfo := ⟨60000000000, "u", 0, 1, "", 60⟩

/-- The target of a SOCKS5 request as the client means it: four address bytes, a domain
name, or sixteen address bytes. -/
inductive SocksAddr where
  | ipv4 (a b c d : Nat)
  | domain (name : Bytes)
  | ipv6 (addr : Bytes)
deriving DecidableEq, Repr

/-- The `ATYP ADDR` part of the wire form of a target (RFC 1928): type 1 and 4 bytes, type 3
with a length byte and the name, type 4 and 16 bytes. -/
def SocksAddr.wire : SocksAddr → Bytes
  | .ipv4 a b c d => [0x01, a, b, c, d]
  | .domain name => 0x03 :: name.length :: name
  | .ipv6 p => 0x04 :: p

/-- The wire form `05 CMD 00 ATYP ADDR PORT` of a SOCKS5 request (RFC 1928), the port
big-endian. -/
def encodeRequest (cmd : Nat) (addr : SocksAddr) (port : Nat) : Bytes :=
  [0x05, cmd, 0x00] ++ addr.wire ++ [port / 256, port % 256]

/-- A target that the wire form can carry: address bytes below 256, a name of 1 to 255
bytes, an IPv6 address of 16 bytes. -/
def SocksAddr.WellFormed : SocksAddr → Prop
  | .ipv4 a b c d => a < 256 ∧ b < 256 ∧ c < 256 ∧ d < 256
  | .domain name => 1 ≤ name.length ∧ name.length ≤ 255 ∧ ∀ x ∈ name, x < 256
  | .ipv6 p => p.length = 16 ∧ ∀ x ∈ p, x < 256

instance (a : SocksAddr) : Decidable a.WellFormed := by
  cases a <;> unfold SocksAddr.WellFormed <;> infer_instance

/-- The host a target stands for: the dotted-decimal form of an IPv4 address, the name
itself, the textual form of an IPv6 address. -/
def SocksAddr.host : SocksAddr → Bytes
  | .ipv4 a b c d => dottedDecimal [a, b, c, d]
  | .domain name => name
  | .ipv6 p => ipString p

/-- The bytes of an ASCII text. -/
def ascii (s : String) : Bytes := s.data.map Char.toNat

/-- A SOCKS handler with `blocked.test` in its deny set. -/
def socksDeny : SocksHandler :=
  { socksPlain with DenyDomains := NewStringSet ["blocked.test"] }

/-- A SOCKS handler with `blocked.test` in its deny set and the user `u`, password `p`, of
VIP tier 1 in its auth table. -/
def socksDenyAuth : SocksHandler :=
  { socksDeny with
    AuthDB := some (fun username =>
      if username = [117] then .ok ⟨"u", [112], 0, 1⟩ else .error "no rows") }

/-- A SOCKS handler whose policy asks clients that offer username/password for
authentication and rejects the others; the policy does not look at the version. -/
def socksPolicyOnAuth : SocksHandler :=
  { socksPlain with
    PolicyTemplate := some (fun r => .ok (if r.SupportAuth then "require_auth" else "reject")) }

/-- Two buffers that differ at most in their first byte. -/
def bufSim (b1 b2 : Bytes) : Prop := ∃ x y t, b1 = x :: t ∧ b2 = y :: t

/-- Two requests that differ at most in their `Version`. -/
def reqSim (r1 r2 : SocksRequest) : Prop :=
  { r1 with Version := 0 } = { r2 with Version := 0 }

/-- Two states of `ServeConn` that differ at most in the first byte of the buffer and in
the `Version` of the request. -/
def stateSim (s1 s2 : SocksState) : Prop :=
  s1.conn = s2.conn ∧ s1.ai = s2.ai ∧ reqSim s1.req s2.req ∧ bufSim s1.b s2.b

/-- Two runs that end the same way in states that differ at most as in `stateSim`. -/
def resultSim (r1 r2 : SocksResult) : Prop :=
  r1.outcome = r2.outcome ∧ stateSim r1.state r2.state

/-- Two steps that both stop, with `resultSim`, or both go on, with `stateSim`. -/
def stepSim : SocksStep → SocksStep → Prop
  | .stop r1, .stop r2 => resultSim r1 r2
  | .go s1, .go s2 => stateSim s1 s2
  | _, _ => False

/-! ## Reverse-tunnel server handler: library functions -/

/-- Go `strings.Cut(s, sep)` for a one-character separator, on the runes of `s`: the text
before the first `sep`, the text after it, and whether `sep` occurs. -/
def cutRunes (sep : Char) : List Char → List Char × List Char × Bool
  | [] => ([], [], false)
  | c :: cs =>
    if c = sep then ([], cs, true)
    else ((c :: (cutRunes sep cs).1), (cutRunes sep cs).2.1, (cutRunes sep cs).2.2)

/-- Go `strings.Cut(s, sep)` for a one-character separator. -/
def Cut (s : String) (sep : Char) : String × String × Bool :=
  (String.mk (cutRunes sep s.data).1, String.mk (cutRunes sep s.data).2.1,
    (cutRunes sep s.data).2.2)

/-- Go `strings.Split(s, sep)` for a one-character separator, on the runes of `s`. -/
def splitRunes (sep : Char) : List Char → List (List Char)
  | [] => [[]]
  | c :: cs =>
    if c = sep then [] :: splitRunes sep cs
    else
      match splitRunes sep cs with
      | [] => [[c]]
      | part :: parts => (c :: part) :: parts

/-- Go `strings.Split(s, sep)` for a one-character separator. -/
def Split (s : String) (sep : Char) : List String := (splitRunes sep s.data).map String.mk

/-- Go `net.JoinHostPort`: a host with a colon is put in brackets. -/
def JoinHostPort (host port : String) : String :=
  if ':' ∈ host.data then "[" ++ host ++ "]:" ++ port else host ++ ":" ++ port

/-- The UTF-8 encoding of a code point. -/
def utf8Char (c : Char) : Bytes :=
  if c.toNat < 0x80 then [c.toNat]
  else if c.toNat < 0x800 then [0xC0 + c.toNat / 64, 0x80 + c.toNat % 64]
  else if c.toNat < 0x10000 then
    [0xE0 + c.toNat / 4096, 0x80 + c.toNat / 64 % 64, 0x80 + c.toNat % 64]
  else
    [0xF0 + c.toNat / 262144, 0x80 + c.toNat / 4096 % 64, 0x80 + c.toNat / 64 % 64,
      0x80 + c.toNat % 64]

/-- The bytes of a Go string: `[]byte(s)`. -/
def utf8 (s : String) : Bytes := s.data.flatMap utf8Char

/-- Rotation to the left of a 32-bit word. -/
def rotl32 (x k : Nat) : Nat := ((x <<< k) ||| (x >>> (32 - k))) % 4294967296

/-- The padding of SHA-1 (FIPS 180-4): a `0x80` byte, zeros, and the bit length in 8
bytes, up to a multiple of 64 bytes. -/
def sha1Pad (msg : Bytes) : Bytes :=
  msg ++ [0x80] ++ List.replicate ((119 - msg.length % 64) % 64) 0 ++
    [8 * msg.length / 2 ^ 56 % 256, 8 * msg.length / 2 ^ 48 % 256,
      8 * msg.length / 2 ^ 40 % 256, 8 * msg.length / 2 ^ 32 % 256,
      8 * msg.length / 2 ^ 24 % 256, 8 * msg.length / 2 ^ 16 % 256,
      8 * msg.length / 2 ^ 8 % 256, 8 * msg.length % 256]

/-- The big-endian 32-bit words of a byte sequence. -/
def wordsOf : Bytes → List Nat
  | a :: b :: c :: d :: rest => (a * 16777216 + b * 65536 + c * 256 + d) :: wordsOf rest
  | _ => []

/-- The message schedule of SHA-1, most recent word first: `k` more words, each the
rotation of `w[t-3] ^ w[t-8] ^ w[t-14] ^ w[t-16]`. -/
def sha1Schedule : Nat → List Nat → List Nat
  | 0, w => w
  | k + 1, w =>
    sha1Schedule k
      (rotl32 (Nat.xor (Nat.xor (Nat.xor (w.getD 2 0) (w.getD 7 0)) (w.getD 13 0))
        (w.getD 15 0)) 1 :: w)

/-- The five working words of SHA-1. -/
structure Sha1State where
  a : Nat
  b : Nat
  c : Nat
  d : Nat
  e : Nat
deriving DecidableEq, Repr

/-- Round `t` of SHA-1 with the schedule word `w`. -/
def sha1Round (t : Nat) (s : Sha1State) (w : Nat) : Sha1State :=
  ⟨(rotl32 s.a 5 +
      (if t < 20 then Nat.lor (Nat.land s.b s.c) (Nat.land (Nat.xor s.b 4294967295) s.d)
        else if t < 40 then Nat.xor (Nat.xor s.b s.c) s.d
        else if t < 60 then
          Nat.lor (Nat.lor (Nat.land s.b s.c) (Nat.land s.b s.d)) (Nat.land s.c s.d)
        else Nat.xor (Nat.xor s.b s.c) s.d) +
      s.e +
      (if t < 20 then 0x5A827999 else if t < 40 then 0x6ED9EBA1
        else if t < 60 then 0x8F1BBCDC else 0xCA62C1D6) +
      w) % 4294967296,
    s.a, rotl32 s.b 30, s.c, s.d⟩

/-- The rounds of SHA-1 over the schedule, from round `t` on. -/
def sha1Rounds : Nat → List Nat → Sha1State → Sha1State
  | _, [], s => s
  | t, w :: ws, s => sha1Rounds (t + 1) ws (sha1Round t s w)

/-- One 64-byte block of SHA-1 added to the hash value. -/
def sha1Block (h : Sha1State) (block : Bytes) : Sha1State :=
  let s := sha1Rounds 0 (sha1Schedule 64 (wordsOf block).reverse).reverse h
  ⟨(h.a + s.a) % 4294967296, (h.b + s.b) % 4294967296, (h.c + s.c) % 4294967296,
    (h.d + s.d) % 4294967296, (h.e + s.e) % 4294967296⟩

/-- The blocks of a padded message, `k` of them, folded into the hash value. -/
def sha1Blocks : Nat → Sha1State → Bytes → Sha1State
  | 0, h, _ => h
  | k + 1, h, data => sha1Blocks k (sha1Block h (data.take 64)) (data.drop 64)

/-- The four bytes of a 32-bit word, big-endian. -/
def wordBytes (x : Nat) : Bytes := [x / 16777216 % 256, x / 65536 % 256, x / 256 % 256, x % 256]

/-- Go `sha1.Sum`: the 20 bytes of the SHA-1 digest. -/
def sha1Sum (msg : Bytes) : Bytes :=
  let h := sha1Blocks ((sha1Pad msg).length / 64)
    ⟨0x67452301, 0xEFCDAB89, 0x98BADCFE, 0x10325476, 0xC3D2E1F0⟩ (sha1Pad msg)
  wordBytes h.a ++ wordBytes h.b ++ wordBytes h.c ++ wordBytes h.d ++ wordBytes h.e

/-- The alphabet of the standard base64 encoding (RFC 4648). -/
def base64Alphabet : List Char :=
  "ABCDEFGHIJKLMNOPQRSTUVWXYZabcdefghijklmnopqrstuvwxyz0123456789+/".data

/-- The base64 character of a 6-bit value. -/
def base64Char (i : Nat) : Char := base64Alphabet.getD i 'A'

/-- The standard base64 encoding with padding, three bytes to four characters. -/
def encodeRunes : Bytes → List Char
  | a :: b :: c :: rest =>
    base64Char (a / 4) :: base64Char (a % 4 * 16 + b / 16) :: base64Char (b % 16 * 4 + c / 64)
      :: base64Char (c % 64) :: encodeRunes rest
  | [a, b] => [base64Char (a / 4), base64Char (a % 4 * 16 + b / 16), base64Char (b % 16 * 4), '=']
  | [a] => [base64Char (a / 4), base64Char (a % 4 * 16), '=', '=']
  | [] => []

/-- Go `base64.StdEncoding.EncodeToString`. -/
def EncodeToString (src : Bytes) : String := String.mk (encodeRunes src)

/-- Go `cmp.Compare` on strings: -1, 0 or +1, by the lexicographic order of the
characters (the order of Go on the UTF-8 bytes). -/
def Compare (a b : String) : Int := if a.data < b.data then -1 else if a = b then 0 else 1

/-! ## Reverse-tunnel server handler -/

/-- A value of the attribute map (`map[string]any`): a string, or a value of another
type. -/
inductive AttrValue where
  | str (s : String)
  | other
deriving DecidableEq, Repr

/-- Modelled from the spec: the `UserInfo` record (its declaration is not among the
sources): username, password and attribute map as loaded from the CSV table, and the
`AuthError` the handler sets. -/
structure UserInfo where
  Username : String
  Password : String
  Attrs : List (String × AttrValue)
  AuthError : Option String
deriving DecidableEq, Repr

/-- The loop of Go `slices.BinarySearchFunc`: with `cmp(x[k], target) < 0` below `i` and
`>= 0` from `j` on, it halves `[i, j)` until `i = j`. `fuel` bounds the iterations. -/
def binarySearchLoop (x : List UserInfo) (target : UserInfo)
    (cmp : UserInfo → UserInfo → Int) : Nat → Nat → Nat → Nat
  | 0, i, _ => i
  | fuel + 1, i, j =>
    if i < j then
      match x[(i + j) / 2]? with
      | some e =>
        if cmp e target < 0 then binarySearchLoop x target cmp fuel ((i + j) / 2 + 1) j
        else binarySearchLoop x target cmp fuel i ((i + j) / 2)
      | none => i
    else i

/-- Go `slices.BinarySearchFunc(x, target, cmp)`: the position found and whether the
element there compares equal to the target. The interval shrinks in every iteration, so
`len(x)` iterations are enough. -/
def BinarySearchFunc (x : List UserInfo) (target : UserInfo)
    (cmp : UserInfo → UserInfo → Int) : Nat × Bool :=
  (binarySearchLoop x target cmp x.length 0 x.length,
    match x[binarySearchLoop x target cmp x.length 0 x.length]? with
    | some e => decide (cmp e target = 0)
    | none => false)

/-- The request headers and the path `HTTPTunnelHandler.ServeHTTP` reads; a header that
is absent is the empty string, as `Header.Get` returns it. -/
structure TunnelRequest where
  Authorization : String
  Connection : String
  Upgrade : String
  SecWebSocketKey : String
  Path : String
deriving DecidableEq, Repr

/-- The collaborators of the reverse-tunnel server handler outside the process. -/
structure TunnelSys where
  /-- Go `base64.StdEncoding.DecodeString` read as a string, `none` on error. -/
  DecodeString : String → Option String
  /-- Whether `Listen` on the address succeeds. -/
  listenOK : String → Bool
  /-- Whether the response writer is an `http.Hijacker`. -/
  isHijacker : Bool
  /-- Whether `Hijack` returns a connection (and no error). -/
  hijackOK : Bool
  /-- Whether writing the response to the connection succeeds. -/
  writeOK : Bool
  /-- Whether `yamux.Client` returns a session. -/
  yamuxOK : Bool

/-- The credentials `ServeHTTP` takes from the `authorization` header (lines 49-57): the
username and the password, both empty unless the header is `Basic` with a decodable
value. -/
def basicCredentials (sys : TunnelSys) (authorization : String) : String × String :=
  if authorization ≠ "" then
    if (Cut authorization ' ').1 = "Basic" then
      match sys.DecodeString (Cut authorization ' ').2.1 with
      | some b => ((Cut b ':').1, (Cut b ':').2.1)
      | none => ("", "")
    else ("", "")
  else ("", "")

/-- How the authorization part of `ServeHTTP` (lines 49-93) ends. -/
inductive TunnelAuth where
  /-- `http.Error` with status 401 and this text. -/
  | unauthorized (text : String)
  /-- `http.Error` with status 403. -/
  | forbidden
  /-- The handler goes on as this user. -/
  | allowed (user : UserInfo)
deriving DecidableEq, Repr

/-- The value of `user.Attrs["allow_tunnel"].(string)` (line 89): the string stored under
the key, and the empty string when the key is absent or holds another type. -/
def allowTunnel (user : UserInfo) : String :=
  match user.Attrs.lookup "allow_tunnel" with
  | some (.str s) => s
  | _ => ""

/-- The authorization part of `ServeHTTP` (lines 49-93) against the loaded table. -/
def tunnelAuthorize (sys : TunnelSys) (records : List UserInfo) (req : TunnelRequest) :
    TunnelAuth :=
  let user0 : UserInfo :=
    ⟨(basicCredentials sys req.Authorization).1, (basicCredentials sys req.Authorization).2,
      [], none⟩
  if user0.Username = "" ∨ user0.Password = "" then .unauthorized "Authorization Required"
  else
    let found := BinarySearchFunc records user0 (fun a b => Compare a.Username b.Username)
    let user : UserInfo :=
      if found.2 = false then
        { user0 with AuthError := some ("invalid username: " ++ user0.Username) }
      else
        match records[found.1]? with
        | some r =>
          if user0.Password ≠ r.Password then
            { user0 with AuthError := some ("wrong password: " ++ user0.Username) }
          else r
        | none => user0
    match user.AuthError with
    | some e => .unauthorized e
    | none => if allowTunnel user ≠ "1" then .forbidden else .allowed user

/-- The bind address `ServeHTTP` takes from the path (lines 97-98): the third and the
second segment from the end; `none` is the run-time panic of an index out of range. -/
def bindAddress (path : String) : Option String :=
  let parts := Split path '/'
  if parts.length < 3 then none
  else
    match parts[parts.length - 3]?, parts[parts.length - 2]? with
    | some host, some port => some (JoinHostPort host port)
    | _, _ => none

/-- The GUID of RFC 6455 that is appended to the websocket key. -/
def websocketGUID : String := "258EAFA5-E914-47DA-95CA-C5AB0DC85B11"

/-- The `sec-websocket-accept` value of `ServeHTTP` (lines 138-139). -/
def websocketAccept (key : String) : String :=
  EncodeToString (sha1Sum (utf8 (key ++ websocketGUID)))

/-- The response `ServeHTTP` builds for the hijacked connection (lines 132-149). -/
def upgradeResponse (req : TunnelRequest) : String :=
  if req.Connection = "upgrade" ∨ req.Connection = "Upgrade" then
    "HTTP/1.1 101 Switching Protocols\r\n" ++
      (if req.Upgrade = "websocket" then
        "sec-websocket-accept: " ++ websocketAccept req.SecWebSocketKey ++ "\r\n"
          ++ "connection: Upgrade\r\n" ++ "upgrade: websocket\r\n"
      else if req.Upgrade = "reverse" then "connection: Upgrade\r\n" ++ "upgrade: reverse\r\n"
      else "") ++
      "\r\n"
  else "HTTP/1.1 200 OK\r\n\r\n"

/-- What a run of `HTTPTunnelHandler.ServeHTTP` has done when the session starts or the
handler returns: the `http.Error` status sent, the address listened on, the bytes written
to the hijacked connection, whether the yamux session was started, whether the handler
panicked. -/
structure TunnelResult where
  status : Option (Nat × String)
  listened : Option String
  written : Option String
  session : Bool
  panicked : Bool
deriving DecidableEq, Repr

/-- Go `HTTPTunnelHandler.ServeHTTP` (handler_http_tunnel.go:46) up to the start of the
yamux session. The tests `if !ok` at lines 125 and 152 read the `ok` of the type assertion
at line 117, which is true there, so their branches are never taken; a failed `Hijack`
leaves `conn` nil and the write at line 151 panics. -/
def TunnelServeHTTP (sys : TunnelSys) (records : List UserInfo) (req : TunnelRequest) :
    TunnelResult :=
  match tunnelAuthorize sys records req with
  | .unauthorized text => ⟨some (401, text), none, none, false, false⟩
  | .forbidden => ⟨some (403, "permission denied"), none, none, false, false⟩
  | .allowed _ =>
    match bindAddress req.Path with
    | none => ⟨none, none, none, false, true⟩
    | some addr =>
      if sys.listenOK addr = false then ⟨some (500, "listen error"), none, none, false, false⟩
      else if sys.isHijacker = false then
        ⟨some (500, "Hijack request failed"), some addr, none, false, false⟩
      else if sys.hijackOK = false then ⟨none, some addr, none, false, true⟩
      else if sys.yamuxOK = false then
        ⟨some (500, "yamux error"), some addr, some (upgradeResponse req), false, false⟩
      else ⟨none, some addr, some (upgradeResponse req), true, false⟩

/-- The path of the request the tunnel client sends (`TunnelHandler.wstunnel`,
handler_tunnel.go:264): `/.well-known/reverse/tcp/{host}/{port}/`. -/
def tunnelRequestPath (targetHost targetPort : String) : String :=
  "/.well-known/reverse/tcp/" ++ targetHost ++ "/" ++ targetPort ++ "/"

/-- The keepalive prober of `ServeHTTP` (lines 226-242) over the outcomes of its probes
(`true`: the stream opened): `count` and `duration` are its variables, `done` the number
of probes made so far. The result is the number of probes made when it signals exit, or
`none` when it is still running after the outcomes given. -/
def proberLoop : Nat → Nat → List Bool → Nat → Option Nat
  | _, _, [], _ => none
  | count, _, opened :: rest, done =>
    if opened = false then
      if count + 1 = 3 then some (done + 1) else proberLoop (count + 1) 5 rest (done + 1)
    else proberLoop 0 10 rest (done + 1)

/-- The prober from its start: `count, duration := 0, 10*time.Second`. -/
def prober (probes : List Bool) : Option Nat := proberLoop 0 10 probes 0

/-- The number of failed probes at the end of a sequence of outcomes. -/
def failRun (probes : List Bool) : Nat := (probes.reverse.takeWhile (fun o => o == false)).length

/-- A user table sorted by username: `alice` may open tunnels, `bob` may not, `carol` has
no `allow_tunnel` attribute. -/
def tunnelUsers : List UserInfo :=
  [⟨"alice", "pw1", [("allow_tunnel", .str "1")], none⟩,
    ⟨"bob", "pw2", [("allow_tunnel", .str "0")], none⟩,
    ⟨"carol", "pw3", [], none⟩]

/-- A system that decodes the Basic credentials of `alice:pw1` and `bob:pw2`, and in which
listening, hijacking, writing and the yamux handshake succeed. -/
def tunnelSysPlain : TunnelSys :=
  { DecodeString := fun s =>
      if s = "YWxpY2U6cHcx" then some "alice:pw1"
      else if s = "Ym9iOnB3Mg==" then some "bob:pw2" else none
    listenOK := fun _ => true
    isHijacker := true
    hijackOK := true
    writeOK := true
    yamuxOK := true }

/-- The websocket upgrade request of `alice` for the bind address 127.0.0.1:9000, with the
sample key of RFC 6455. -/
def tunnelRequestAlice : TunnelRequest :=
  ⟨"Basic YWxpY2U6cHcx", "Upgrade", "websocket", "dGhlIHNhbXBsZSBub25jZQ==",
    "/.well-known/reverse/tcp/127.0.0.1/9000/"⟩

/-- Go runtime `fastrandn` (declared in helpers.go:36-40 by a link to the runtime;
`log.Fastrandn` is the same function): for the 32-bit random word `draw` it returns
`uint32(uint64(draw) * uint64(n) >> 32)`, a number in `[0, n)`. -/
def Fastrandn (draw n : Nat) : Nat := (draw % 2 ^ 32) * (n % 2 ^ 32) / 2 ^ 32

/-- The delay of the reconnect loop of `TunnelHandler.Serve` (handler_tunnel.go:79),
`time.Duration(5+log.Fastrandn(10)) * time.Second`, for the value `r` the random source
returned: the sum is a uint32, the product an int64 of nanoseconds. -/
def reconnectDelay (r : Nat) : Int := wrapInt64 ((((5 + r) % 2 ^ 32 : Nat) : Int) * Second)

/-- The dial port of `TunnelHandler.wstunnel` (handler_tunnel.go:173, 204-211) from the
scheme and the port of the dialer URL. -/
def dialPort (scheme port : String) : String :=
  if port = "" then (if scheme = "http," ∨ scheme = "ws" then "80" else "443") else port

/-- Go `DefaultHTTP2DialerMaxClients` (dialer_http2.go:25). -/
def DefaultHTTP2DialerMaxClients : Int := 8

/-- Go `HTTP2Dialer` (dialer_http2.go:28-43), the fields of the transport pool: the 64
slot mutexes (`true`: locked) and the 64 slots (`none`: nil, `some c`: the transport that
the `c`-th call of `connect` made). -/
structure HTTP2Dialer where
  MaxClients : Int
  mutexes : List Bool
  clients : List (Option Nat)
deriving DecidableEq, Repr

/-- A dialer with the zero value of its pool: no mutex locked, every slot nil. -/
def newHTTP2Dialer (MaxClients : Int) : HTTP2Dialer :=
  ⟨MaxClients, List.replicate 64 false, List.replicate 64 none⟩

/-- The number `n` of slots `HTTP2Dialer.DialContext` draws from (dialer_http2.go:93-101);
`len(d.clients)` is 64. -/
def slotCount (MaxClients : Int) : Int :=
  let maxClient := if MaxClients = 0 then DefaultHTTP2DialerMaxClients else MaxClients
  if 0 < maxClient ∧ maxClient < 64 then maxClient else 1

/-- The slot of a call of `DialContext` (dialer_http2.go:102) for the random word `draw`:
`int(log.Fastrandn(uint32(n)))`. -/
def slotIndex (MaxClients : Int) (draw : Nat) : Nat :=
  Fastrandn draw ((slotCount MaxClients % 2 ^ 32).toNat)

/-- Where a call of `DialContext` stands in lines 104-115: before the test
`d.clients[n] == nil`, before `Lock`, before `connect()`, before the store of the
transport `c`, before `Unlock`, before `transport := d.clients[n]`, and after it with the
transport it read. -/
inductive DialPC where
  | check
  | lock
  | connect
  | store (c : Nat)
  | unlock
  | use
  | returned (transport : Option Nat)
deriving DecidableEq, Repr

/-- A running call of `DialContext`: its slot `n` and where it stands. -/
structure DialCall where
  n : Nat
  pc : DialPC
deriving DecidableEq, Repr

/-- The dialer, the number of transports `connect` has made so far, and the running
calls. -/
structure DialState where
  d : HTTP2Dialer
  created : Nat
  calls : List DialCall
deriving DecidableEq, Repr

/-- One step of call `i` of `DialContext` (dialer_http2.go:104-115); `none` when the call
cannot move (it waits for the mutex, or has returned, or does not exist). `connect` never
returns an error (lines 52-90), so the branch of line 107 is not taken. -/
def DialContextStep (s : DialState) (i : Nat) : Option DialState :=
  match s.calls[i]? with
  | none => none
  | some call =>
    match call.pc with
    | .check =>
      match s.d.clients[call.n]? with
      | none => none
      | some none => some { s with calls := s.calls.set i ⟨call.n, .lock⟩ }
      | some (some _) => some { s with calls := s.calls.set i ⟨call.n, .use⟩ }
    | .lock =>
      if s.d.mutexes[call.n]? = some false then
        some { s with
          d := { s.d with mutexes := s.d.mutexes.set call.n true }
          calls := s.calls.set i ⟨call.n, .connect⟩ }
      else none
    | .connect =>
      some { s with created := s.created + 1, calls := s.calls.set i ⟨call.n, .store s.created⟩ }
    | .store c =>
      some { s with
        d := { s.d with clients := s.d.clients.set call.n (some c) }
        calls := s.calls.set i ⟨call.n, .unlock⟩ }
    | .unlock =>
      some { s with
        d := { s.d with mutexes := s.d.mutexes.set call.n false }
        calls := s.calls.set i ⟨call.n, .use⟩ }
    | .use =>
      match s.d.clients[call.n]? with
      | none => none
      | some transport => some { s with calls := s.calls.set i ⟨call.n, .returned transport⟩ }
    | .returned _ => none

/-- The calls of `DialContext` stepping in the order of `schedule` (a list of call
numbers); `none` when a scheduled call cannot move. -/
def runCalls (s : DialState) : List Nat → Option DialState
  | [] => some s
  | i :: schedule =>
    match DialContextStep s i with
    | none => none
    | some next => runCalls next schedule

/-- Calls of `DialContext` on a fresh dialer, one for each random word of `draws`, all
about to test their slot. -/
def dialStart (MaxClients : Int) (draws : List Nat) : DialState :=
  ⟨newHTTP2Dialer MaxClients, 0, draws.map (fun draw => ⟨slotIndex MaxClients draw, .check⟩)⟩

/-- The schedule in which two calls both test their slot before either takes the mutex,
then call 0 runs to its end, then call 1. -/
def raceSchedule : List Nat := [0, 1, 0, 0, 0, 0, 0, 1, 1, 1, 1, 1]

/-- The schedule in which call 0 runs to its end before call 1 starts. -/
def serialSchedule : List Nat := [0, 0, 0, 0, 0, 0, 1, 1]

/-- A username/password message with the largest lengths: version 1, `ulen` 255, a
username of 255 bytes and `plen` 255; 258 bytes, sent without the password. -/
def longCredentials : Bytes := [1, 255] ++ List.replicate 255 97 ++ [255]

/-- A SOCKS handler whose policy prints `require_auth` for every request, with the user
`u`, password `p`, in its auth table. -/
def socksRequireAuth : SocksHandler :=
  { socksPlain with
    PolicyTemplate := some (fun _ => .ok "require_auth\n")
    AuthDB := some (fun username =>
      if username = [117] then .ok ⟨"u", [112], 0, 1⟩ else .error "no rows") }

/-! ## Domain lists, reserved addresses -/

/-- Go `strings.Replace(s, "\r\n", "\n", -1)` on the characters of `s`. -/
def replaceCRLF : List Char → List Char
  | '\r' :: '\n' :: rest => '\n' :: replaceCRLF rest
  | c :: rest => c :: replaceCRLF rest
  | [] => []

/-- The value `a` that the loop of both `expandDomains` helpers builds
(handler_http_forward.go:52-65, handler_socks.go:55-68): an entry `@path` adds the lines
of the file, or nothing when the file cannot be read (`readFile` gives `none`); any other
entry is added itself. -/
def expandLoop (readFile : String → Option String) (domains : List String) : List String :=
  domains.foldl
    (fun a s =>
      if s.data.head? = some '@' then
        match readFile (String.mk (s.data.drop 1)) with
        | none => a
        | some data => a ++ Split (String.mk (replaceCRLF data.data)) '\n'
      else a ++ [s])
    []

/-- The helper `expandDomains` of `HTTPForwardHandler.Load` (handler_http_forward.go:51-66):
it returns the list `a` it built. -/
def HTTPForwardHandler.expandDomains (readFile : String → Option String)
    (domains : List String) : List String :=
  expandLoop readFile domains

/-- The helper `expandDomains` of `SocksHandler.Load` (handler_socks.go:54-70): it builds
the list `a` and ends with `return domains`. -/
def SocksHandler.expandDomains (readFile : String → Option String)
    (domains : List String) : List String :=
  let _a := expandLoop readFile domains
  domains

/-- A file system with the one file `domains.txt`, of two lines ended by CR LF and LF. -/
def domainFiles : String → Option String :=
  fun path => if path = "domains.txt" then some "a.test\r\nb.test" else none

/-- Go `net.IP.To4`: the four bytes of an address held in 4 bytes or, as
`::ffff:a.b.c.d`, in 16 bytes; `none` is nil. -/
def To4 (ip : Bytes) : Option Bytes :=
  if ip.length = 4 then some ip
  else if ip.length = 16 ∧ (ip.take 10).all (fun x => x == 0) ∧ byteAt ip 10 = 0xff ∧
      byteAt ip 11 = 0xff then
    some (ip.drop 12)
  else none

/-- Go `IsReservedIP` (helpers.go:574); a nil `net.IP` is the empty list. -/
def IsReservedIP (ip : Bytes) : Bool :=
  if ip = [] then false
  else
    match To4 ip with
    | none => false
    | some ip4 =>
      if byteAt ip4 0 = 10 then true
      else if byteAt ip4 0 = 100 then decide (byteAt ip4 1 ≥ 64 ∧ byteAt ip4 1 ≤ 127)
      else if byteAt ip4 0 = 127 then true
      else if byteAt ip4 0 = 169 then decide (byteAt ip4 1 = 254)
      else if byteAt ip4 0 = 172 then decide (byteAt ip4 1 ≥ 16 ∧ byteAt ip4 1 ≤ 31)
      else if byteAt ip4 0 = 192 then
        if byteAt ip4 1 = 0 then
          if byteAt ip4 2 = 0 ∨ byteAt ip4 2 = 2 then true else false
        else if byteAt ip4 1 = 18 ∨ byteAt ip4 1 = 19 then true
        else if byteAt ip4 1 = 51 then decide (byteAt ip4 2 = 100)
        else if byteAt ip4 1 = 88 then decide (byteAt ip4 2 = 99)
        else if byteAt ip4 1 = 168 then true
        else false
      else if byteAt ip4 0 = 203 then decide (byteAt ip4 1 = 0 ∧ byteAt ip4 2 = 113)
      else if byteAt ip4 0 = 224 then true
      else if byteAt ip4 0 = 240 then true
      else false

/-- The reserved IPv4 blocks of the reference `IsReservedIP` cites, as the four bytes of
the base address and the prefix length. -/
def reservedBlocks : List (Bytes × Nat) :=
  [([0, 0, 0, 0], 8), ([10, 0, 0, 0], 8), ([100, 64, 0, 0], 10), ([127, 0, 0, 0], 8),
    ([169, 254, 0, 0], 16), ([172, 16, 0, 0], 12), ([192, 0, 0, 0], 24),
    ([192, 0, 2, 0], 24), ([192, 88, 99, 0], 24), ([192, 168, 0, 0], 16),
    ([198, 18, 0, 0], 15), ([198, 51, 100, 0], 24), ([203, 0, 113, 0], 24),
    ([224, 0, 0, 0], 4), ([240, 0, 0, 0], 4)]

/-- The 32-bit number of four address bytes. -/
def ipv4Number (p : Bytes) : Nat :=
  byteAt p 0 * 16777216 + byteAt p 1 * 65536 + byteAt p 2 * 256 + byteAt p 3

/-- The property that the documentation of `IsReservedIP` describes: the address is an
IPv4 address whose leading bits are those of one of the reserved blocks. -/
def inReservedBlocks (ip : Bytes) : Bool :=
  match To4 ip with
  | none => false
  | some ip4 =>
    reservedBlocks.any (fun block =>
      ipv4Number ip4 / 2 ^ (32 - block.2) == ipv4Number block.1 / 2 ^ (32 - block.2))

/-- The test of `HTTPPprofHandler.ServeHTTP` (handler_http_pprof.go:20-29): whether a
request for `path` from the parsed remote address is served by the debug handlers rather
than passed to the next handler. -/
def pprofServes (PprofEnabled : Bool) (path : String) (remoteIP : Bytes) : Bool :=
  if !PprofEnabled || !("/debug/".data.isPrefixOf path.data) then false
  else if !IsReservedIP remoteIP then false
  else true

/-! ## Connections that keep bytes: `MirrorHeaderConn`, `ConnWithData` -/

/-- Go `conn.Read(b)` on a connection with the pending reads `input`, for a buffer of
`bufLen` bytes: the bytes put into `b`, whether `err == nil`, and the reads still pending.
A read never takes more than the buffer holds; what is left of a chunk stays pending. -/
def connRead (input : List (Option Bytes)) (bufLen : Nat) :
    (Bytes × Bool) × List (Option Bytes) :=
  match input with
  | [] => (([], false), [])
  | none :: rest => (([], false), rest)
  | some chunk :: rest =>
    ((chunk.take bufLen, true),
      if chunk.drop bufLen ≠ [] then some (chunk.drop bufLen) :: rest else rest)

/-- The bytes a connection still delivers: those of its pending reads, in order. -/
def pendingBytes (input : List (Option Bytes)) : Bytes :=
  (input.filterMap id).flatten

/-- Go `MirrorHeaderConn` (helpers.go:326): the pending reads of the embedded connection
and the `Header` buffer (`none` is nil). -/
structure MirrorHeaderConn where
  Conn : List (Option Bytes)
  Header : Option Bytes
deriving DecidableEq, Repr

/-- Go `MirrorHeaderConn.Read` (helpers.go:331) for a buffer of `bufLen` bytes: the
connection afterwards and the bytes and error flag returned. -/
def MirrorHeaderConn.Read (c : MirrorHeaderConn) (bufLen : Nat) :
    MirrorHeaderConn × Bytes × Bool :=
  let r := connRead c.Conn bufLen
  let header := c.Header.getD []
  if r.1.2 = true ∧ r.1.1.length > 0 ∧ header.length < 1500 then
    (⟨r.2, some (header ++ r.1.1)⟩, r.1.1, r.1.2)
  else (⟨r.2, some header⟩, r.1.1, r.1.2)

/-- A sequence of `Read` calls with the given buffer sizes. -/
def MirrorHeaderConn.reads (c : MirrorHeaderConn) : List Nat → MirrorHeaderConn
  | [] => c
  | bufLen :: sizes => MirrorHeaderConn.reads (c.Read bufLen).1 sizes

/-- The number of bytes in the `Header` buffer (0 for nil). -/
def MirrorHeaderConn.headerLen (c : MirrorHeaderConn) : Nat := (c.Header.getD []).length

/-! ## Configuration files -/

/-- A Go `map[string]string` as the list of its entries, one for each key; nil and the
empty map are both `[]`. -/
abbrev StringMap := List (String × String)

/-- The map lookup `m[k]`, `none` when the key is absent. -/
def StringMap.get (m : StringMap) (k : String) : Option String :=
  (m.find? (fun e => e.1 == k)).map (fun e => e.2)

/-- The map assignment `m[k] = v`. -/
def StringMap.set (m : StringMap) (k v : String) : StringMap :=
  (k, v) :: m.filter (fun e => e.1 != k)

/-- An entry of the `cron` section (config.go:128-131). -/
structure CronConfig where
  Spec : String
  Command : String
deriving DecidableEq, Repr

/-- An entry of a list section `https`, `http`, `socks`, `tunnel` or `stream`
(config.go:14-109): its listen addresses and the rest of its text; the merge does not
look inside an entry. -/
structure ListenConfig where
  Listen : List String
  Body : String
deriving DecidableEq, Repr

/-- Go `Config` (config.go:111-138): the global section as a text, the list sections and
the dialer map. -/
structure Config where
  Global : String
  Cron : List CronConfig
  Dialer : StringMap
  Https : List ListenConfig
  Http : List ListenConfig
  Socks : List ListenConfig
  Tunnel : List ListenConfig
  Stream : List ListenConfig
deriving DecidableEq, Repr

/-- The body of the merge loop of `NewConfig` (config.go:196-207) for one overlay `c`. -/
def mergeConfig (config c : Config) : Config :=
  { config with
    Cron := config.Cron ++ c.Cron
    Dialer := c.Dialer.foldl (fun m e => m.set e.1 e.2) config.Dialer
    Https := config.Https ++ c.Https
    Http := config.Http ++ c.Http
    Socks := config.Socks ++ c.Socks
    Tunnel := config.Tunnel ++ c.Tunnel
    Stream := config.Stream ++ c.Stream }

/-- The merge of `NewConfig` (config.go:194-208) over the parsed configs; `none` is the
run-time panic of `configs[0]` on an empty list. -/
def mergeConfigs : List Config → Option Config
  | [] => none
  | config :: overlays => some (overlays.foldl mergeConfig config)

/-- A base file with one HTTPS listener and the dialers `a` and `b`. -/
def configBase : Config :=
  { Global := "log_level: info"
    Cron := []
    Dialer := [("a", "socks5://10.0.0.1:1080"), ("b", "http://10.0.0.2:8080")]
    Https := [⟨[":443"], "base"⟩]
    Http := []
    Socks := []
    Tunnel := []
    Stream := [] }

/-- An overlay file with one more HTTPS listener, a new value for the dialer `b` and a new
dialer `c`. -/
def configOverlay : Config :=
  { Global := ""
    Cron := [⟨"@daily", "true"⟩]
    Dialer := [("b", "http://10.0.0.3:8080"), ("c", "ssh://10.0.0.4:22")]
    Https := [⟨[":8443"], "overlay"⟩]
    Http := []
    Socks := []
    Tunnel := []
    Stream := [] }

/-- A sequence of `Read` calls on a plain connection with the given buffer sizes: the
results of the calls and the reads still pending. -/
def connReads (input : List (Option Bytes)) : List Nat →
    List (Bytes × Bool) × List (Option Bytes)
  | [] => ([], input)
  | bufLen :: sizes =>
    ((connRead input bufLen).1 :: (connReads (connRead input bufLen).2 sizes).1,
      (connReads (connRead input bufLen).2 sizes).2)

/-- Go `ConnWithData` (helpers.go:413): the pending reads of the embedded connection and
the `Data` slice (`none` is nil). -/
structure ConnWithData where
  Conn : List (Option Bytes)
  Data : Option Bytes
deriving DecidableEq, Repr

/-- Go `ConnWithData.Read` (helpers.go:418) for a buffer of `bufLen` bytes: the connection
afterwards and the bytes and error flag returned; `copy` moves `min(len(b), len(Data))`
bytes. -/
def ConnWithData.Read (c : ConnWithData) (bufLen : Nat) : ConnWithData × Bytes × Bool :=
  match c.Data with
  | none => (⟨(connRead c.Conn bufLen).2, none⟩, (connRead c.Conn bufLen).1)
  | some data =>
    if min bufLen data.length < data.length then
      (⟨c.Conn, some (data.drop (min bufLen data.length))⟩,
        data.take (min bufLen data.length), true)
    else (⟨c.Conn, none⟩, data.take (min bufLen data.length), true)

/-- A sequence of `Read` calls on a `ConnWithData` with the given buffer sizes: the
results of the calls and the connection afterwards. -/
def ConnWithData.reads (c : ConnWithData) : List Nat → List (Bytes × Bool) × ConnWithData
  | [] => ([], c)
  | bufLen :: sizes =>
    ((c.Read bufLen).2 :: (ConnWithData.reads (c.Read bufLen).1 sizes).1,
      (ConnWithData.reads (c.Read bufLen).1 sizes).2)

/-- The bytes returned by a sequence of reads, in order. -/
def bytesRead (results : List (Bytes × Bool)) : Bytes := (results.map Prod.fst).flatten

/-- The end of the response header, `\r\n\r\n`. -/
def CRLFCRLF : Bytes := [13, 10, 13, 10]

/-- The first index at which `sep` occurs in a list of bytes, `none` when it does not
occur. -/
def indexOfSep (sep : Bytes) : Bytes → Option Nat
  | [] => if sep = [] then some 0 else none
  | x :: t => if sep.isPrefixOf (x :: t) then some 0 else (indexOfSep sep t).map (· + 1)

/-- Go `bytes.Index(s, sep)`; `none` is the result -1. -/
def Index (s sep : Bytes) : Option Nat := indexOfSep sep s

/-- How the response read loop of `TunnelHandler.wstunnel` ends: the buffer `b`, the
count `total` of bytes received, the connection (wrapped in a `ConnWithData` when `Data`
is set) and whether the end of the header was found. -/
structure ResponseRead where
  b : Bytes
  total : Nat
  conn : ConnWithData
  found : Bool
deriving DecidableEq, Repr

/-- The response read loop of `TunnelHandler.wstunnel` (handler_tunnel.go:294-314) on the
buffer `b` with `total` bytes received so far: each pass reads into `b[total:]`; a failed
read (the end of the stream or another error) ends the loop without a wrapper, and so
does a header end with nothing after it. `fuel` bounds the passes; `none` when it runs
out. -/
def readResponse : Nat → List (Option Bytes) → Bytes → Nat → Option ResponseRead
  | 0, _, _, _ => none
  | fuel + 1, input, b, total =>
    let r := connRead input (b.length - total)
    if r.1.2 = false then some ⟨b, total, ⟨r.2, none⟩, false⟩
    else
      let b1 := b.take total ++ r.1.1 ++ b.drop (total + r.1.1.length)
      let total1 := total + r.1.1.length
      match Index b1 CRLFCRLF with
      | some i =>
        if i > 0 then
          if i + 4 < total1 then
            some ⟨b1, total1, ⟨r.2, some ((b1.drop (i + 4)).take (total1 - (i + 4)))⟩, true⟩
          else some ⟨b1, total1, ⟨r.2, none⟩, true⟩
        else readResponse fuel r.2 b1 total1
      | none => readResponse fuel r.2 b1 total1

/-- A response of a tunnel server that arrives in two reads, with five bytes of the
session after the header. -/
def responseChunks : List (Option Bytes) :=
  [some (ascii "HTTP/1.1 101 Switching Pro"),
    some (ascii "tocols\r\nupgrade: reverse\r\n\r\n" ++ [0, 1, 2, 3, 4]), some [5, 6]]

/-! ## Lines of a text -/

/-- Go `strings.IndexByte(s, c)` on the characters of `s`: the first index of `c`, `none`
for the result -1. -/
def IndexByte : List Char → Char → Option Nat
  | [], _ => none
  | x :: t, c => if x = c then some 0 else (IndexByte t c).map (· + 1)

/-- The loop of Go `AppendSplitLines` (helpers.go:120-136): the lines appended so far and
the input left when no newline is found. `fuel` bounds the passes; `none` when it runs
out. -/
def appendSplitLinesLoop : Nat → List String → List Char → Option (List String × List Char)
  | 0, _, _ => none
  | fuel + 1, dst, input =>
    match IndexByte input '\n' with
    | some i =>
      if i > 0 then
        if input.getD (i - 1) ' ' ≠ '\r' then
          appendSplitLinesLoop fuel (dst ++ [String.mk (input.take i)]) (input.drop (i + 1))
        else
          appendSplitLinesLoop fuel (dst ++ [String.mk (input.take (i - 1))])
            (input.drop (i + 1))
      else appendSplitLinesLoop fuel (dst ++ [""]) (input.drop (i + 1))
    | none => some (dst, input)

/-- The end of Go `AppendSplitLines` (helpers.go:138-146): the input left after the last
newline is a line of its own, without a final `\r`. -/
def appendLastLine (dst : List String) (input : List Char) : List String :=
  if input.length > 0 then
    if input.getD (input.length - 1) ' ' = '\r' then
      dst ++ [String.mk (input.take (input.length - 1))]
    else dst ++ [String.mk input]
  else dst

/-- Go `AppendSplitLines` (helpers.go:118); each pass of the loop removes a newline, so
one pass more than the input has characters is enough. -/
def AppendSplitLines (dst : List String) (input : String) : Option (List String) :=
  (appendSplitLinesLoop (input.length + 1) dst input.data).map
    (fun r => appendLastLine r.1 r.2)

/-- A line without its final `\r`, if it has one. -/
def stripCR (line : List Char) : List Char :=
  if line.getLast? = some '\r' then line.dropLast else line

/-- The lines of a text as the documentation of `AppendSplitLines` describes them: the
text is cut at each `\n`, the empty piece after a final `\n` (or of the empty text) is
left out, and one final `\r` is removed from each line. -/
def splitLinesSpec (input : List Char) : List (List Char) :=
  (if (splitRunes '\n' input).getLast? = some [] then (splitRunes '\n' input).dropLast
    else splitRunes '\n' input).map stripCR

/-- Go `strings.Join(lines, "\n")` on lists of characters. -/
def joinLines : List (List Char) → List Char
  | [] => []
  | [a] => a
  | a :: b :: t => a ++ '\n' :: joinLines (b :: t)

/-- A text without one final `\n`, if it has one. -/
def chomp (input : List Char) : List Char :=
  if input.getLast? = some '\n' then input.dropLast else input

/-! ## Wildcard patterns -/

/-- The variables of the loop of Go `WildcardMatch` (helpers.go:752-757); `star` and
`eroteme` are `none` for the value -1. -/
structure WildcardState where
  patternIndex : Nat
  sIndex : Nat
  star : Option Nat
  lastStar : Nat
  eroteme : Option Nat
  lastEroteme : Nat
  lastErotemeByte : Nat
deriving DecidableEq, Repr

/-- The part `checkPattern` of Go `WildcardMatch` (helpers.go:821-833) on the pattern bytes
from `patternIndex` on: `*` and `?` are passed over, any other byte ends the scan; the
result is `patternIndex == patternLen`. -/
def checkPattern (sLen : Int) : Bytes → Int → Bool
  | [], _ => true
  | p :: rest, sIndex =>
    if p = 42 then checkPattern sLen rest sIndex
    else if p = 63 then checkPattern sLen rest (if sIndex ≥ sLen then sIndex - 1 else sIndex)
    else false

/-- The backtrack to the last `*` of Go `WildcardMatch` (helpers.go:766-770, 798-803). -/
def backtrackStar (st : WildcardState) (star : Nat) : WildcardState :=
  { st with patternIndex := star + 1, lastStar := st.lastStar + 1, sIndex := st.lastStar + 1 }

/-- One pass of the part `Loop` of Go `WildcardMatch`: either the function returns, or
the loop goes on from a state. -/
inductive WildcardPass where
  | returned (result : Bool)
  | again (st : WildcardState)
deriving DecidableEq, Repr

/-- One pass of the part `Loop` of Go `WildcardMatch` (helpers.go:759-818), from the label
to the next `goto Loop` or `return`. -/
def wildcardPass (pattern s : Bytes) (st : WildcardState) : WildcardPass :=
  if st.sIndex ≥ s.length then
    .returned (checkPattern s.length (pattern.drop st.patternIndex) st.sIndex)
  else if st.patternIndex ≥ pattern.length then
    match st.star with
    | some star => .again (backtrackStar st star)
    | none => .returned false
  else if byteAt pattern st.patternIndex = 46 then
    .again { st with patternIndex := st.patternIndex + 1, sIndex := st.sIndex + 1 }
  else if byteAt pattern st.patternIndex = 63 then
    .again
      { st with
        eroteme := some st.patternIndex
        lastEroteme := st.sIndex
        lastErotemeByte := byteAt s st.sIndex
        patternIndex := st.patternIndex + 1
        sIndex := st.sIndex + 1 }
  else if byteAt pattern st.patternIndex = 42 then
    .again
      { st with
        star := some st.patternIndex
        lastStar := st.sIndex
        patternIndex := st.patternIndex + 1 }
  else if byteAt pattern st.patternIndex ≠ byteAt s st.sIndex then
    match st.eroteme with
    | some eroteme =>
      .again { st with patternIndex := eroteme + 1, sIndex := st.lastEroteme, eroteme := none }
    | none =>
      match st.star with
      | some star => .again (backtrackStar st star)
      | none => .returned false
  else
    .again
      { st with
        eroteme :=
          if st.eroteme ≠ none ∧ st.lastErotemeByte ≠ byteAt s st.sIndex then none
          else st.eroteme
        patternIndex := st.patternIndex + 1
        sIndex := st.sIndex + 1 }

/-- The part `Loop` of Go `WildcardMatch` (helpers.go:759-818). `fuel` bounds the passes;
`none` when it runs out. -/
def wildcardLoop (pattern s : Bytes) : Nat → WildcardState → Option Bool
  | 0, _ => none
  | fuel + 1, st =>
    match wildcardPass pattern s st with
    | .returned result => some result
    | .again next => wildcardLoop pattern s fuel next

/-- Go `WildcardMatch` (helpers.go:745) with a bound on the passes of its loop; `none`
when the bound is reached. -/
def WildcardMatch (fuel : Nat) (pattern s : String) : Option Bool :=
  if pattern = "" then some (decide (s = pattern))
  else if pattern = "*" ∨ s = pattern then some true
  else wildcardLoop (utf8 pattern) (utf8 s) fuel ⟨0, 0, none, 0, none, 0, 0⟩

/-- The wildcard semantics documented for `WildcardMatch`: `*` stands for any run of
bytes, `?` for no byte or one, `.` for one byte, any other byte for itself; the empty
pattern matches the empty text only. -/
def wildcardMatches : Bytes → Bytes → Bool
  | [], s => s.isEmpty
  | p :: rest, s =>
    if p = 42 then (List.range (s.length + 1)).any (fun k => wildcardMatches rest (s.drop k))
    else if p = 63 then wildcardMatches rest s || (!s.isEmpty && wildcardMatches rest s.tail)
    else if p = 46 then !s.isEmpty && wildcardMatches rest s.tail
    else
      match s with
      | [] => false
      | c :: cs => p == c && wildcardMatches rest cs

set_option maxRecDepth 100000

/-! ## Auxiliary facts -/

theorem trimRight_eq_rdropWhile (l : List Char) : trimRight l = l.rdropWhile isSpace := rfl

theorem trimLeft_trimRight_of_fixed (l : List Char) (h : trimLeft l = l) :
    trimLeft (trimRight l) = trimRight l := by
  cases l with
  | nil => rfl
  | cons a t =>
    have ha : isSpace a = false := by
      have h1 := List.dropWhile_eq_self_iff.mp h (by simp)
      simpa using h1
    obtain ⟨s, hs⟩ := List.rdropWhile_prefix isSpace (a :: t)
    rw [trimRight_eq_rdropWhile]
    cases hr : List.rdropWhile isSpace (a :: t) with
    | nil => rfl
    | cons x r =>
      rw [hr] at hs
      have hx : x = a := by
        have := congrArg List.head? hs
        simpa using this
      subst hx
      simp [trimLeft, List.dropWhile, ha]

theorem trim_idem (l : List Char) :
    trimRight (trimLeft (trimRight (trimLeft l))) = trimRight (trimLeft l) := by
  have h1 : trimLeft (trimLeft l) = trimLeft l := List.dropWhile_idempotent isSpace l
  rw [trimLeft_trimRight_of_fixed _ h1, trimRight_eq_rdropWhile, trimRight_eq_rdropWhile]
  exact List.rdropWhile_idempotent isSpace _

theorem TrimSpace_idem (s : String) : TrimSpace (TrimSpace s) = TrimSpace s := by
  simp only [TrimSpace]
  rw [trim_idem]

theorem ShardMap.get_delete {V : Type} (m : ShardMap V) (k : String) :
    (m.Delete k).Get k = none := by
  simp [ShardMap.Get, ShardMap.Delete, List.find?_eq_none]

theorem ShardMap.get_set {V : Type} (m : ShardMap V) (k : String) (v : V) :
    (m.Set k v).Get k = some v := by
  simp [ShardMap.Get, ShardMap.Set]

theorem wrapInt64_of_fits (x : Int) (h0 : 0 ≤ x) (h1 : x < 2 ^ 63) : wrapInt64 x = x := by
  unfold wrapInt64
  norm_num at h1 ⊢
  omega

/-- A successful run of the auth command that yields a positive TTL stores its result
under the command line, with the deadline `TTL` seconds (as an `int64` duration) after the
store time. -/
theorem runAuthCommand_stored (sys : Sys) (now : Int) (key : String) (ai : ForwardAuthInfo)
    (cache : ShardMap ForwardAuthInfo)
    (herr : (runAuthCommand sys now key ai cache).err = none)
    (hpos : 0 < (runAuthCommand sys now key ai cache).ai.TTL) :
    (runAuthCommand sys now key ai cache).ai.deadline
        = now + wrapInt64 ((runAuthCommand sys now key ai cache).ai.TTL * Second) ∧
    (runAuthCommand sys now key ai cache).cache
        = cache.Set key (runAuthCommand sys now key ai cache).ai ∧
    (∃ c, sys.SplitCommandLine key = .ok c) := by
  unfold runAuthCommand at herr hpos ⊢
  cases hs : sys.SplitCommandLine key with
  | error e => simp [hs] at herr
  | ok c =>
    obtain ⟨command, arguments⟩ := c
    simp only [hs] at herr hpos ⊢
    cases hr : sys.runCommand command arguments with
    | error e => simp [hr] at herr
    | ok output =>
      simp only [hr] at herr hpos ⊢
      split at herr
      · simp at herr
      · rename_i hnone
        simp only [hnone] at hpos ⊢
        split at hpos
        · rename_i httl
          simp [httl]
        · rename_i httl
          exact absurd hpos httl

/-- The tail of `GetAuthInfo` succeeds only by running the auth command. -/
theorem runAuthCommand_ok_ran (sys : Sys) (now : Int) (key : String) (ai : ForwardAuthInfo)
    (cache : ShardMap ForwardAuthInfo)
    (herr : (runAuthCommand sys now key ai cache).err = none) :
    (runAuthCommand sys now key ai cache).ranCommand = true := by
  unfold runAuthCommand at herr ⊢
  cases hs : sys.SplitCommandLine key with
  | error e => simp [hs] at herr
  | ok c =>
    obtain ⟨command, arguments⟩ := c
    simp only [hs] at herr ⊢
    cases hr : sys.runCommand command arguments with
    | error e => simp
    | ok output =>
      simp only []
      split
      · rfl
      · split <;> rfl

theorem runAuthCommand_ran_of_split (sys : Sys) (now : Int) (key : String)
    (ai : ForwardAuthInfo) (cache : ShardMap ForwardAuthInfo) (c : String × List String)
    (hs : sys.SplitCommandLine key = .ok c) :
    (runAuthCommand sys now key ai cache).ranCommand = true := by
  unfold runAuthCommand
  obtain ⟨command, arguments⟩ := c
  simp only [hs]
  cases hr : sys.runCommand command arguments with
  | error e => rfl
  | ok output =>
    simp only []
    split
    · rfl
    · split <;> rfl

/-- The auth cache after the tail of `GetAuthInfo`: untouched, or holding the fresh result,
whose TTL is positive and whose deadline counts from the store time. -/
theorem runAuthCommand_cache (sys : Sys) (now : Int) (key : String) (ai : ForwardAuthInfo)
    (cache : ShardMap ForwardAuthInfo) :
    ((runAuthCommand sys now key ai cache).cache = cache ∧
      ((runAuthCommand sys now key ai cache).err = none →
        (runAuthCommand sys now key ai cache).ai.TTL ≤ 0)) ∨
    ((runAuthCommand sys now key ai cache).err = none ∧
      0 < (runAuthCommand sys now key ai cache).ai.TTL ∧
      (runAuthCommand sys now key ai cache).cache
        = cache.Set key (runAuthCommand sys now key ai cache).ai) := by
  by_cases herr : (runAuthCommand sys now key ai cache).err = none
  · by_cases hpos : 0 < (runAuthCommand sys now key ai cache).ai.TTL
    · exact Or.inr ⟨herr, hpos, (runAuthCommand_stored sys now key ai cache herr hpos).2.1⟩
    · refine Or.inl ⟨?_, fun _ => not_lt.mp hpos⟩
      unfold runAuthCommand at hpos ⊢
      cases hs : sys.SplitCommandLine key with
      | error e => rfl
      | ok c =>
        obtain ⟨command, arguments⟩ := c
        simp only [hs] at hpos ⊢
        cases hr : sys.runCommand command arguments with
        | error e => rfl
        | ok output =>
          simp only [hr] at hpos ⊢
          split
          · rfl
          · rename_i hnone
            simp only [hnone] at hpos
            split
            · rename_i httl
              simp only [httl, if_true] at hpos
              exact absurd trivial hpos
            · rfl
  · refine Or.inl ⟨?_, fun h => absurd h herr⟩
    unfold runAuthCommand at herr ⊢
    cases hs : sys.SplitCommandLine key with
    | error e => rfl
    | ok c =>
      obtain ⟨command, arguments⟩ := c
      simp only [hs] at herr ⊢
      cases hr : sys.runCommand command arguments with
      | error e => rfl
      | ok output =>
        simp only [hr] at herr ⊢
        split
        · rfl
        · rename_i hnone
          simp only [hnone] at herr
          split at herr <;> simp at herr

/-! ## Allow-IP cache -/

/-- What the allow-IP step does on a cache hit, for a request the policy did not bypass:
when the current time is after the deadline `d` the step sets `bypassAuth` and keeps the
entry, otherwise it leaves `bypassAuth` unset and deletes the entry. -/
theorem allowIPStep_hit (cache : ShardMap Int) (ip : String) (now d : Int)
    (hget : cache.Get ip = some d) :
    (d < now → allowIPStep false cache ip now = (true, cache)) ∧
    (now ≤ d → allowIPStep false cache ip now = (false, cache.Delete ip)) := by
  constructor
  · intro hlt
    simp [allowIPStep, hget, After, hlt]
  · intro hle
    simp [allowIPStep, hget, After, not_lt.mpr hle]

/-- C1, evaluation of the code: with 10.0.0.1 allowed until time 1000, a request from
10.0.0.1 at time 500 (entry unexpired) is not bypassed, runs the auth command, is rejected
when it fails, and has lost its entry; the same request at time 1500 (entry expired) is
bypassed and forwarded, and the entry stays. -/
theorem C1_allow_ip_deadline_inverted :
    ServeHTTP sysPlain (clockAt 500) handlerAllowIP reqConnect
      = ⟨.reject, ⟨[]⟩, ⟨[]⟩⟩ ∧
    ServeHTTP sysPlain (clockAt 1500) handlerAllowIP reqConnect
      = ⟨.forward "" ForwardAuthInfo.zero "example.com" true, ⟨[("10.0.0.1", 1000)]⟩, ⟨[]⟩⟩ := by
  constructor <;> decide

/-! ## Policy step -/

/-- C2, counterexample: with the policy output `proxy_pass` the handler delegates the
request to the next handler at the policy step, although the rest of the pipeline would
have forwarded it. -/
theorem C2_proxy_pass_delegates :
    ServeHTTP sysPlain (clockAt 0) (handlerWithPolicy "proxy_pass") reqConnect
      = ⟨.next, ⟨[]⟩, ⟨[]⟩⟩ ∧
    ServeHTTP sysPlain (clockAt 0) (handlerWithPolicy "proxy_pass") reqConnect
      ≠ afterPolicy sysPlain (clockAt 0) (handlerWithPolicy "proxy_pass") reqConnect
          (domainOf sysPlain reqConnect) false ⟨[]⟩ := by
  constructor <;> decide

/-- C2, amended: for a request that reaches the policy step, when the trimmed policy
output is empty or `proxy_pass` the handler delegates to the next handler and leaves both
caches alone; when it is a keyword outside the recognised decisions the policy step ends
with `bypassAuth` unset and the handler runs the rest of the pipeline. -/
theorem C2_policy_pass_and_unknown (sys : Sys) (clock : Clock) (h : HTTPForwardHandler)
    (req : Request) (t : Request → Except String String) (out : String)
    (hserve : ¬ (h.ServerNames.Contains (hostOf sys req) ∧ req.Method ≠ "CONNECT"))
    (hpolicy : h.ForwardPolicy ≠ "")
    (ht : h.PolicyTemplate = some t) (hout : t req = .ok out) :
    ((TrimSpace out = "" ∨ TrimSpace out = "proxy_pass") →
      ServeHTTP sys clock h req = ⟨.next, h.AllowIPCache, h.AuthCache⟩) ∧
    (TrimSpace out ∉ recognisedDecisions →
      policyStep h req clock.policy = .cont false h.AllowIPCache ∧
      ServeHTTP sys clock h req
        = afterPolicy sys clock h req (domainOf sys req) false h.AllowIPCache) := by
  constructor
  · intro hpass
    have hp : policyStep h req clock.policy = .done .next := by
      simp [policyStep, ht, hout, hpass]
    simp only [ServeHTTP, if_neg hserve, if_neg hpolicy, hp]
  · intro hunknown
    simp only [recognisedDecisions, List.mem_cons, List.mem_singleton, List.not_mem_nil,
      or_false, not_or] at hunknown
    obtain ⟨h1, h2, h3, h4, h5, h6, h7, h8, h9, h10, h11⟩ := hunknown
    have hp : policyStep h req clock.policy = .cont false h.AllowIPCache := by
      simp [policyStep, ht, hout, h1, h2, h3, h4, h5, h6, h7, h8, h9, h10, h11]
    refine ⟨hp, ?_⟩
    simp only [ServeHTTP, if_neg hserve, if_neg hpolicy, hp]

/-- C2, witness: the unknown keyword `continue` sends the request on to the rest of the
pipeline. -/
theorem C2_policy_pass_and_unknown_witness :
    policyStep (handlerWithPolicy "continue") reqConnect 0 = .cont false ⟨[]⟩ ∧
    ServeHTTP sysPlain (clockAt 0) (handlerWithPolicy "continue") reqConnect
      = afterPolicy sysPlain (clockAt 0) (handlerWithPolicy "continue") reqConnect
          (domainOf sysPlain reqConnect) false ⟨[]⟩ :=
  (C2_policy_pass_and_unknown sysPlain (clockAt 0) (handlerWithPolicy "continue") reqConnect
    (fun _ => .ok "continue") "continue" (by decide) (by decide) rfl rfl).2 (by decide)

/-- C3: when a policy template `t2` prints, for every request, the trimmed form of what the
template `t1` prints, the HTTP forward handler does the same with `t2` as with `t1`, and so
does the SOCKS handler: surrounding white space of the output never changes a decision. -/
theorem C3_policy_output_trimmed (sys : Sys) (clock : Clock) (h : HTTPForwardHandler)
    (req : Request) (t1 t2 : Request → Except String String)
    (ssys : SocksSys) (hs : SocksHandler) (remoteAddr remoteIP serverAddr : String)
    (conn : Conn) (u1 u2 : SocksRequest → Except String String)
    (ht : ∀ r, t2 r = (t1 r).map TrimSpace) (hu : ∀ r, u2 r = (u1 r).map TrimSpace) :
    ServeHTTP sys clock { h with PolicyTemplate := some t2 } req
      = ServeHTTP sys clock { h with PolicyTemplate := some t1 } req ∧
    ServeConn ssys { hs with PolicyTemplate := some u2 } remoteAddr remoteIP serverAddr conn
      = ServeConn ssys { hs with PolicyTemplate := some u1 } remoteAddr remoteIP serverAddr
          conn := by
  constructor
  · have hpol : policyStep { h with PolicyTemplate := some t2 } req clock.policy
        = policyStep { h with PolicyTemplate := some t1 } req clock.policy := by
      simp only [policyStep, ht req]
      cases t1 req <;> simp [Except.map, TrimSpace_idem]
    have hafter : ∀ d b c, afterPolicy sys clock { h with PolicyTemplate := some t2 } req d b c
        = afterPolicy sys clock { h with PolicyTemplate := some t1 } req d b c :=
      fun _ _ _ => rfl
    unfold ServeHTTP
    simp only [hpol, hafter]
  · have hfirst : ∀ r, firstPolicy { hs with PolicyTemplate := some u2 } r
        = firstPolicy { hs with PolicyTemplate := some u1 } r := by
      intro r
      simp only [firstPolicy, hu r]
      cases u1 r <;> simp [Except.map, TrimSpace_idem]
    have hsecond : ∀ s, secondPolicy ssys { hs with PolicyTemplate := some u2 } s
        = secondPolicy ssys { hs with PolicyTemplate := some u1 } s := by
      intro s
      simp only [secondPolicy, dialStep, hu s.req]
      cases u1 s.req <;> simp [Except.map, TrimSpace_idem]
    have hauth : ∀ b s, socksAuthStep { hs with PolicyTemplate := some u2 } b s
        = socksAuthStep { hs with PolicyTemplate := some u1 } b s := fun _ _ => rfl
    have hreq : ∀ s, requestStep ssys { hs with PolicyTemplate := some u2 } s
        = requestStep ssys { hs with PolicyTemplate := some u1 } s := by
      intro s
      unfold requestStep
      simp only [hsecond]
      rfl
    unfold ServeConn
    simp only [hfirst, hauth, hreq]

/-- C3, witness: the output ` reject\n` is decided like `reject`, by both handlers. -/
theorem C3_policy_output_trimmed_witness :
    ServeHTTP sysPlain (clockAt 0) (handlerWithPolicy "reject") reqConnect
      = ServeHTTP sysPlain (clockAt 0) (handlerWithPolicy " reject\n") reqConnect ∧
    ServeConn socksSysPlain { socksPlain with PolicyTemplate := some (fun _ => .ok "reject") }
        "10.0.0.1:4000" "10.0.0.1" "10.0.0.2:1080" ⟨[some [5, 1, 2]], [], true⟩
      = ServeConn socksSysPlain
          { socksPlain with PolicyTemplate := some (fun _ => .ok " reject\n") }
          "10.0.0.1:4000" "10.0.0.1" "10.0.0.2:1080" ⟨[some [5, 1, 2]], [], true⟩ :=
  C3_policy_output_trimmed sysPlain (clockAt 0) (handlerWithPolicy "x") reqConnect
    (fun _ => .ok " reject\n") (fun _ => .ok "reject") socksSysPlain socksPlain
    "10.0.0.1:4000" "10.0.0.1" "10.0.0.2:1080" ⟨[some [5, 1, 2]], [], true⟩
    (fun _ => .ok " reject\n") (fun _ => .ok "reject")
    (fun _ => rfl) (fun _ => rfl)

/-! ## Auth cache -/

/-- C4, counterexample: an auth result with TTL 9223372037 s is stored at time 1000 ns; the
`int64` product of the TTL and `time.Second` wraps to a negative duration, the deadline is
in the past, and a lookup 1 ns later, long before the TTL has passed, runs the auth command
again instead of returning the stored result. -/
theorem C4_ttl_overflow :
    (GetAuthInfo (sysTTL 9223372037) (clockAt 1000) handlerAuth reqConnect).err = none ∧
    (GetAuthInfo (sysTTL 9223372037) (clockAt 1000) handlerAuth reqConnect).ai.TTL
      = 9223372037 ∧
    (GetAuthInfo (sysTTL 9223372037) (clockAt 1000) handlerAuth reqConnect).cache.Get
        "check-user"
      = some (GetAuthInfo (sysTTL 9223372037) (clockAt 1000) handlerAuth reqConnect).ai ∧
    (1001 : Int) < 1000 + 9223372037 * Second ∧
    (GetAuthInfo (sysTTL 9223372037) (clockAt 1001)
        { handlerAuth with
          AuthCache :=
            (GetAuthInfo (sysTTL 9223372037) (clockAt 1000) handlerAuth reqConnect).cache }
        reqConnect).ranCommand = true := by
  decide

/-- An auth-cache entry whose deadline is not after the lookup time is not returned:
`GetAuthInfo` deletes it and goes on to the auth command. -/
theorem GetAuthInfo_expired (sys : Sys) (clock : Clock) (h : HTTPForwardHandler)
    (req : Request) (t : Request → Except String String) (out : String)
    (v : ForwardAuthInfo) (ht : h.AuthTemplate = some t) (hout : t req = .ok out)
    (hget : h.AuthCache.Get (TrimSpace out) = some v) (hexp : v.deadline ≤ clock.authLookup) :
    GetAuthInfo sys clock h req
      = runAuthCommand sys clock.authStore (TrimSpace out) v
          (h.AuthCache.Delete (TrimSpace out)) := by
  simp [GetAuthInfo, ht, hout, hget, After, not_lt.mpr hexp]

/-- An auth-cache entry whose deadline is after the lookup time is returned as it is,
without running the auth command and without touching the cache. -/
theorem GetAuthInfo_hit (sys : Sys) (clock : Clock) (h : HTTPForwardHandler)
    (req : Request) (t : Request → Except String String) (out : String)
    (v : ForwardAuthInfo) (ht : h.AuthTemplate = some t) (hout : t req = .ok out)
    (hget : h.AuthCache.Get (TrimSpace out) = some v) (hlive : clock.authLookup < v.deadline) :
    GetAuthInfo sys clock h req = ⟨v, none, h.AuthCache, false⟩ := by
  simp [GetAuthInfo, ht, hout, hget, After, hlive]

/-- C4, amended: let an auth result with TTL `n`, `0 < n ≤ 9223372036` seconds (the TTLs
whose duration in nanoseconds fits an `int64`), be stored for a command line at time `t0`
(`clock1.authStore`). Its deadline is `t0 + n` seconds. A lookup of the same command line
at a time before the deadline returns the stored result, without running the command and
without changing the cache. A lookup at or after the deadline deletes the entry, runs the
command, does not leave the stored result in the cache and, when it succeeds, returns a
result different from the stored one. And whatever entry a cache holds, if its deadline is
not after the lookup time the call does not return it from the cache: it deletes the entry
and succeeds only by running the command. -/
theorem C4_auth_cache_ttl (sys1 sys2 : Sys) (clock1 clock2 : Clock) (h : HTTPForwardHandler)
    (req1 req2 : Request) (t : Request → Except String String) (out1 out2 : String) (n : Int)
    (ht : h.AuthTemplate = some t) (h1 : t req1 = .ok out1) (h2 : t req2 = .ok out2)
    (hkey : TrimSpace out2 = TrimSpace out1)
    (hsplit : sys2.SplitCommandLine = sys1.SplitCommandLine)
    (hran : (GetAuthInfo sys1 clock1 h req1).ranCommand = true)
    (herr : (GetAuthInfo sys1 clock1 h req1).err = none)
    (httl : (GetAuthInfo sys1 clock1 h req1).ai.TTL = n)
    (hn : 0 < n) (hfit : n ≤ 9223372036)
    (hmono : clock2.authLookup ≤ clock2.authStore) :
    let stored := (GetAuthInfo sys1 clock1 h req1).ai
    let cache := (GetAuthInfo sys1 clock1 h req1).cache
    let r2 := GetAuthInfo sys2 clock2 { h with AuthCache := cache } req2
    stored.deadline = clock1.authStore + n * Second ∧
    cache.Get (TrimSpace out1) = some stored ∧
    (clock2.authLookup < clock1.authStore + n * Second →
      r2 = ⟨stored, none, cache, false⟩) ∧
    (clock1.authStore + n * Second ≤ clock2.authLookup →
      r2 = runAuthCommand sys2 clock2.authStore (TrimSpace out1) stored
            (cache.Delete (TrimSpace out1)) ∧
      (cache.Delete (TrimSpace out1)).Get (TrimSpace out1) = none ∧
      r2.ranCommand = true ∧
      r2.cache.Get (TrimSpace out1) ≠ some stored ∧
      (r2.err = none → r2.ai ≠ stored)) ∧
    (∀ (g : HTTPForwardHandler) (v : ForwardAuthInfo), g.AuthTemplate = some t →
      g.AuthCache.Get (TrimSpace out2) = some v → v.deadline ≤ clock2.authLookup →
      GetAuthInfo sys2 clock2 g req2
        = runAuthCommand sys2 clock2.authStore (TrimSpace out2) v
            (g.AuthCache.Delete (TrimSpace out2)) ∧
      ((GetAuthInfo sys2 clock2 g req2).err = none →
        (GetAuthInfo sys2 clock2 g req2).ranCommand = true)) := by
  intro stored cache r2
  -- the first call ran the command on some starting value and cache
  have hfirst : ∃ ai0 c0, GetAuthInfo sys1 clock1 h req1
      = runAuthCommand sys1 clock1.authStore (TrimSpace out1) ai0 c0 := by
    simp only [GetAuthInfo, ht, h1]
    cases hg : h.AuthCache.Get (TrimSpace out1) with
    | none => exact ⟨_, _, rfl⟩
    | some v =>
      by_cases hafter : After v.deadline clock1.authLookup = true
      · exfalso
        simp [GetAuthInfo, ht, h1, hg, hafter] at hran
      · simp only [hafter]
        exact ⟨_, _, rfl⟩
  obtain ⟨ai0, c0, hrun⟩ := hfirst
  have herr1 : (runAuthCommand sys1 clock1.authStore (TrimSpace out1) ai0 c0).err = none := by
    rw [← hrun]; exact herr
  have httl1 : (runAuthCommand sys1 clock1.authStore (TrimSpace out1) ai0 c0).ai.TTL = n := by
    rw [← hrun]; exact httl
  have hst := runAuthCommand_stored sys1 clock1.authStore (TrimSpace out1) ai0 c0 herr1
    (by rw [httl1]; exact hn)
  rw [← hrun] at hst
  obtain ⟨hdl, hcache, c, hc⟩ := hst
  have hwrap : wrapInt64 (n * Second) = n * Second := by
    apply wrapInt64_of_fits
    · unfold Second; omega
    · unfold Second; norm_num; omega
  have hdeadline : stored.deadline = clock1.authStore + n * Second := by
    show (GetAuthInfo sys1 clock1 h req1).ai.deadline = _
    rw [hdl, httl, hwrap]
  have hget : cache.Get (TrimSpace out1) = some stored := by
    show (GetAuthInfo sys1 clock1 h req1).cache.Get _ = _
    rw [hcache, ShardMap.get_set]
  have hget2 : ({ h with AuthCache := cache } : HTTPForwardHandler).AuthCache.Get
      (TrimSpace out2) = some stored := by
    rw [hkey]; exact hget
  have hlater : ∀ (g : HTTPForwardHandler) (v : ForwardAuthInfo), g.AuthTemplate = some t →
      g.AuthCache.Get (TrimSpace out2) = some v → v.deadline ≤ clock2.authLookup →
      GetAuthInfo sys2 clock2 g req2
        = runAuthCommand sys2 clock2.authStore (TrimSpace out2) v
            (g.AuthCache.Delete (TrimSpace out2)) ∧
      ((GetAuthInfo sys2 clock2 g req2).err = none →
        (GetAuthInfo sys2 clock2 g req2).ranCommand = true) := by
    intro g v hg hv hexp
    have e := GetAuthInfo_expired sys2 clock2 g req2 t out2 v hg h2 hv hexp
    refine ⟨e, ?_⟩
    rw [e]
    exact runAuthCommand_ok_ran _ _ _ _ _
  refine ⟨hdeadline, hget, ?_, ?_, hlater⟩
  · intro hlt
    exact GetAuthInfo_hit sys2 clock2 _ req2 t out2 stored ht h2 hget2
      (by rw [hdeadline]; exact hlt)
  · intro hge
    have e : r2 = runAuthCommand sys2 clock2.authStore (TrimSpace out1) stored
        (cache.Delete (TrimSpace out1)) := by
      have := GetAuthInfo_expired sys2 clock2 { h with AuthCache := cache } req2 t out2
        stored ht h2 hget2 (by rw [hdeadline]; exact hge)
      rw [hkey] at this
      exact this
    have hc2 : sys2.SplitCommandLine (TrimSpace out1) = .ok c := by rw [hsplit]; exact hc
    have hfresh : r2.err = none → r2.ai ≠ stored := by
      intro hok heq
      rw [e] at hok heq
      by_cases hpos : 0 < (runAuthCommand sys2 clock2.authStore (TrimSpace out1) stored
          (cache.Delete (TrimSpace out1))).ai.TTL
      · have hd := (runAuthCommand_stored sys2 clock2.authStore (TrimSpace out1) stored
          (cache.Delete (TrimSpace out1)) hok hpos).1
        rw [heq] at hd
        have hT : stored.TTL = n := httl
        rw [hT, hwrap] at hd
        have hd1 : stored.deadline = clock1.authStore + n * Second := hdeadline
        have hS : Second = 1000000000 := rfl
        rw [hS] at hd hd1 hge
        omega
      · rw [heq] at hpos
        have hT : stored.TTL = n := httl
        rw [hT] at hpos
        exact hpos hn
    refine ⟨e, ShardMap.get_delete _ _, ?_, ?_, hfresh⟩
    · rw [e]
      exact runAuthCommand_ran_of_split _ _ _ _ _ c hc2
    · intro hstill
      rcases runAuthCommand_cache sys2 clock2.authStore (TrimSpace out1) stored
          (cache.Delete (TrimSpace out1)) with ⟨hsame, _⟩ | ⟨hok, _, hset⟩
      · rw [e, hsame, ShardMap.get_delete] at hstill
        exact Option.noConfusion hstill
      · have hne := hfresh (by rw [e]; exact hok)
        rw [e, hset, ShardMap.get_set] at hstill
        rw [e] at hne
        exact hne (Option.some.inj hstill)

/-- C4, witness: a result with TTL 60 s stored at time 1000 ns is returned from the cache
at time 2000 ns. -/
theorem C4_auth_cache_ttl_witness :
    GetAuthInfo (sysTTL 60) (clockAt 2000)
        { handlerAuth with
          AuthCache := (GetAuthInfo (sysTTL 60) (clockAt 1000) handlerAuth reqConnect).cache }
        reqConnect
      = ⟨(GetAuthInfo (sysTTL 60) (clockAt 1000) handlerAuth reqConnect).ai, none,
          (GetAuthInfo (sysTTL 60) (clockAt 1000) handlerAuth reqConnect).cache, false⟩ :=
  (C4_auth_cache_ttl (sysTTL 60) (sysTTL 60) (clockAt 1000) (clockAt 2000) handlerAuth
    reqConnect reqConnect (fun _ => .ok "check-user") "check-user" "check-user" 60
    rfl rfl rfl rfl rfl (by decide) (by decide) (by decide) (by decide) (by decide)
    (by decide)).2.2.1 (by decide)

/-! ## The pipeline after the policy step -/

theorem ServeHTTP_of_cont (sys : Sys) (clock : Clock) (h : HTTPForwardHandler)
    (req : Request) (b0 : Bool) (ipc0 : ShardMap Int)
    (hserve : ¬ (h.ServerNames.Contains (hostOf sys req) ∧ req.Method ≠ "CONNECT"))
    (hpolicy : h.ForwardPolicy ≠ "")
    (hp : policyStep h req clock.policy = .cont b0 ipc0) :
    ServeHTTP sys clock h req = afterPolicy sys clock h req (domainOf sys req) b0 ipc0 := by
  simp only [ServeHTTP, if_neg hserve, if_neg hpolicy, hp]

theorem domainRejected_iff (h : HTTPForwardHandler) (domain : String) :
    domainRejected h domain = true ↔
      (h.AllowDomains.Empty = false ∧ h.AllowDomains.Contains domain = false) ∨
        h.DenyDomains.Contains domain = true := by
  unfold domainRejected
  simp only [StringSet.Empty, StringSet.Contains]
  by_cases ha : h.AllowDomains.members = [] <;> by_cases hd : h.DenyDomains.members = []
    <;> by_cases hm : domain ∈ h.AllowDomains.members
    <;> by_cases hn : domain ∈ h.DenyDomains.members
    <;> simp_all

/-- The domain filter rejects exactly the requests of a VIP tier above 0 whose domain is
outside a non-empty allow set or inside the deny set. -/
theorem filterStep_none_iff (h : HTTPForwardHandler) (ai : ForwardAuthInfo)
    (domain : String) :
    filterStep h ai domain = none ↔
      0 < ai.VIP ∧ ((h.AllowDomains.Empty = false ∧ h.AllowDomains.Contains domain = false) ∨
        h.DenyDomains.Contains domain = true) := by
  rw [← domainRejected_iff]
  unfold filterStep
  by_cases hv : 0 < ai.VIP
  · by_cases hr : domainRejected h domain = true
    · simp [hv, hr]
    · by_cases hs : ai.SpeedLimit = 0 ∧ h.ForwardSpeedLimit > 0 <;> simp [hv, hr, hs]
  · simp [hv]

/-- The auth info that leaves the filter step: the global speed limit replaces a speed
limit of 0 for a VIP tier above 0, and nothing else changes. -/
theorem filterStep_some (h : HTTPForwardHandler) (ai ai1 : ForwardAuthInfo)
    (domain : String) (hf : filterStep h ai domain = some ai1) :
    (0 < ai.VIP → ai.SpeedLimit = 0 → 0 < h.ForwardSpeedLimit →
      ai1 = { ai with SpeedLimit := h.ForwardSpeedLimit }) ∧
    (ai.SpeedLimit ≠ 0 → ai1 = ai) ∧
    (ai.VIP ≤ 0 → ai1 = ai) ∧
    (h.ForwardSpeedLimit ≤ 0 → ai1 = ai) := by
  unfold filterStep at hf
  by_cases hv : 0 < ai.VIP
  · by_cases hr : domainRejected h domain = true
    · simp [hv, hr] at hf
    · by_cases hs : ai.SpeedLimit = 0 ∧ h.ForwardSpeedLimit > 0
      · have e : ai1 = { ai with SpeedLimit := h.ForwardSpeedLimit } := by
          simp [hv, hr, hs] at hf
          exact hf.symm
        refine ⟨fun _ _ _ => e, fun hne => absurd hs.1 hne, fun hle => ?_, fun hle => ?_⟩
        · exact absurd hv (not_lt.mpr hle)
        · exact absurd hs.2 (not_lt.mpr hle)
      · have e : ai1 = ai := by
          simp only [gt_iff_lt, hv, hr, hs, if_true, if_false] at hf
          exact (Option.some.inj hf).symm
        exact ⟨fun _ h0 hg => absurd ⟨h0, hg⟩ hs, fun _ => e, fun _ => e, fun _ => e⟩
  · have e : ai1 = ai := by
      simp only [gt_iff_lt, hv, if_false] at hf
      exact (Option.some.inj hf).symm
    exact ⟨fun hp => absurd hp hv, fun _ => e, fun _ => e, fun _ => e⟩

/-- After a successful authentication step the handler rejects exactly when the filter
step does; otherwise it delegates (upstream template error) or forwards with the auth
info the filter step left. -/
theorem afterPolicy_of_auth (sys : Sys) (clock : Clock) (h : HTTPForwardHandler)
    (req : Request) (domain : String) (b0 : Bool) (ipc0 : ShardMap Int)
    (ai : ForwardAuthInfo) (ac : ShardMap ForwardAuthInfo)
    (ha : authStep sys clock h req (allowIPStep b0 ipc0 req.RemoteIP clock.allowIP).1
      = .cont ai ac) :
    (filterStep h ai domain = none →
      (afterPolicy sys clock h req domain b0 ipc0).response = .reject) ∧
    (∀ ai1, filterStep h ai domain = some ai1 →
      (upstreamStep h req ai1 = none →
        (afterPolicy sys clock h req domain b0 ipc0).response = .next) ∧
      (∀ up, upstreamStep h req ai1 = some up →
        (afterPolicy sys clock h req domain b0 ipc0).response
          = .forward up ai1 domain (allowIPStep b0 ipc0 req.RemoteIP clock.allowIP).1)) := by
  refine ⟨fun hf => ?_, fun ai1 hf => ⟨fun hu => ?_, fun up hu => ?_⟩⟩
  · simp only [afterPolicy, ha, hf]
  · simp only [afterPolicy, ha, hf, hu]
  · simp only [afterPolicy, ha, hf, hu]

/-! ## Template errors -/

/-- C5, counterexample: the auth template fails to execute and the handler answers with
the reject response (400) instead of delegating to the next handler. -/
theorem C5_auth_template_error_rejects :
    ServeHTTP sysPlain (clockAt 0) handlerAuthBroken reqConnect = ⟨.reject, ⟨[]⟩, ⟨[]⟩⟩ := by
  decide

/-- C5, amended: for a request that reaches the policy step, an execution error of the
policy template makes the handler delegate to the next handler; an execution error of the
upstream template, once policy, authentication and domain filter are passed, makes it
delegate to the next handler as well; an execution error of the auth template, when
authentication is not bypassed, makes it reject the request (400). -/
theorem C5_template_errors (sys : Sys) (clock : Clock) (h : HTTPForwardHandler)
    (req : Request)
    (hserve : ¬ (h.ServerNames.Contains (hostOf sys req) ∧ req.Method ≠ "CONNECT"))
    (hpolicy : h.ForwardPolicy ≠ "") :
    (∀ t e, h.PolicyTemplate = some t → t req = .error e →
      ServeHTTP sys clock h req = ⟨.next, h.AllowIPCache, h.AuthCache⟩) ∧
    (∀ b0 ipc0 t e, policyStep h req clock.policy = .cont b0 ipc0 →
      (allowIPStep b0 ipc0 req.RemoteIP clock.allowIP).1 = false →
      h.AuthTemplate = some t → t req = .error e →
      ServeHTTP sys clock h req
        = ⟨.reject, (allowIPStep b0 ipc0 req.RemoteIP clock.allowIP).2, h.AuthCache⟩) ∧
    (∀ b0 ipc0 ai ac ai1 t e, policyStep h req clock.policy = .cont b0 ipc0 →
      authStep sys clock h req (allowIPStep b0 ipc0 req.RemoteIP clock.allowIP).1
        = .cont ai ac →
      filterStep h ai (domainOf sys req) = some ai1 →
      h.UpstreamTemplate = some t → t req ai1 = .error e →
      ServeHTTP sys clock h req
        = ⟨.next, (allowIPStep b0 ipc0 req.RemoteIP clock.allowIP).2, ac⟩) := by
  refine ⟨fun t e ht he => ?_, fun b0 ipc0 t e hp hb ht he => ?_,
    fun b0 ipc0 ai ac ai1 t e hp ha hf ht he => ?_⟩
  · have hp : policyStep h req clock.policy = .done .next := by
      simp [policyStep, ht, he]
    simp only [ServeHTTP, if_neg hserve, if_neg hpolicy, hp]
  · rw [ServeHTTP_of_cont sys clock h req b0 ipc0 hserve hpolicy hp]
    have ha : authStep sys clock h req (allowIPStep b0 ipc0 req.RemoteIP clock.allowIP).1
        = .rejected h.AuthCache := by
      simp [authStep, GetAuthInfo, ht, he, hb]
    simp only [afterPolicy, ha]
  · rw [ServeHTTP_of_cont sys clock h req b0 ipc0 hserve hpolicy hp]
    have hu : upstreamStep h req ai1 = none := by
      simp [upstreamStep, ht, he]
    simp only [afterPolicy, ha, hf, hu]

/-- C5, witness: a failing policy template delegates the request to the next handler. -/
theorem C5_template_errors_witness :
    ServeHTTP sysPlain (clockAt 0) handlerPolicyBroken reqConnect = ⟨.next, ⟨[]⟩, ⟨[]⟩⟩ :=
  (C5_template_errors sysPlain (clockAt 0) handlerPolicyBroken reqConnect (by decide)
    (by decide)).1 (fun _ => .error "template error") "template error" rfl rfl

/-! ## Speed limit and domain filter -/

/-- C6, counterexample: with a global speed limit of 1000 an unauthenticated request (zero
auth info: VIP tier 0, speed limit 0) is forwarded with the speed limit 0, not 1000. -/
theorem C6_vip0_keeps_speed_limit :
    handlerGlobalLimit.ForwardSpeedLimit = 1000 ∧
    ServeHTTP sysPlain (clockAt 0) handlerGlobalLimit reqConnect
      = ⟨.forward "" ForwardAuthInfo.zero "example.com" false, ⟨[]⟩, ⟨[]⟩⟩ ∧
    ForwardAuthInfo.zero.SpeedLimit = 0 := by
  decide

/-- C6, amended: let the authentication step end with the auth info `ai` and let the
request be forwarded with the auth info `ai1`. If the VIP tier of `ai` is above 0, its
speed limit is 0 and the global speed limit is above 0, then the speed limit of `ai1` is
the global one and nothing else differs. If the speed limit of `ai` is not 0, or its VIP
tier is not above 0 (as for the zero auth info of an unauthenticated request), or no
global speed limit is configured, `ai1` is `ai`. -/
theorem C6_speed_limit_inherited (sys : Sys) (clock : Clock) (h : HTTPForwardHandler)
    (req : Request) (b0 : Bool) (ipc0 : ShardMap Int) (ai ai1 : ForwardAuthInfo)
    (ac : ShardMap ForwardAuthInfo) (up domain : String) (b : Bool)
    (hserve : ¬ (h.ServerNames.Contains (hostOf sys req) ∧ req.Method ≠ "CONNECT"))
    (hpolicy : h.ForwardPolicy ≠ "")
    (hp : policyStep h req clock.policy = .cont b0 ipc0)
    (ha : authStep sys clock h req (allowIPStep b0 ipc0 req.RemoteIP clock.allowIP).1
      = .cont ai ac)
    (hfwd : (ServeHTTP sys clock h req).response = .forward up ai1 domain b) :
    (0 < ai.VIP → ai.SpeedLimit = 0 → 0 < h.ForwardSpeedLimit →
      ai1.SpeedLimit = h.ForwardSpeedLimit ∧
      ai1 = { ai with SpeedLimit := h.ForwardSpeedLimit }) ∧
    (ai.SpeedLimit ≠ 0 → ai1 = ai) ∧
    (ai.VIP ≤ 0 → ai1 = ai) ∧
    (h.ForwardSpeedLimit ≤ 0 → ai1 = ai) := by
  rw [ServeHTTP_of_cont sys clock h req b0 ipc0 hserve hpolicy hp] at hfwd
  have key := afterPolicy_of_auth sys clock h req (domainOf sys req) b0 ipc0 ai ac ha
  cases hf : filterStep h ai (domainOf sys req) with
  | none =>
    rw [key.1 hf] at hfwd
    exact Response.noConfusion hfwd
  | some a1 =>
    cases hu : upstreamStep h req a1 with
    | none =>
      rw [(key.2 a1 hf).1 hu] at hfwd
      exact Response.noConfusion hfwd
    | some u =>
      rw [(key.2 a1 hf).2 u hu] at hfwd
      injection hfwd with _ hai _ _
      subst hai
      obtain ⟨h1, h2, h3, h4⟩ := filterStep_some h ai a1 (domainOf sys req) hf
      refine ⟨fun hv h0 hg => ?_, h2, h3, h4⟩
      have e := h1 hv h0 hg
      exact ⟨by rw [e], e⟩

/-- C6, witness: the user `u` of VIP tier 1 without a speed limit of its own is forwarded
with the global speed limit 1000. -/
theorem C6_speed_limit_inherited_witness :
    (ServeHTTP (sysTTL 60) (clockAt 0) handlerDeny reqConnect).response
      = .forward "" { aiUser with SpeedLimit := 1000 } "example.com" false ∧
    ({ aiUser with SpeedLimit := 1000 } : ForwardAuthInfo).SpeedLimit
      = handlerDeny.ForwardSpeedLimit :=
  ⟨by decide,
    ((C6_speed_limit_inherited (sysTTL 60) (clockAt 0) handlerDeny reqConnect false ⟨[]⟩
      aiUser { aiUser with SpeedLimit := 1000 } ⟨[("check-user", aiUser)]⟩ "" "example.com"
      false (by decide) (by decide) (by decide) (by decide) (by decide)).1
      (by decide) (by decide) (by decide)).1⟩

/-- C7: a request that passed the policy step and the authentication step with the auth
info `ai` is rejected if and only if the VIP tier of `ai` is above 0 and its domain is
outside a non-empty allow set or inside the deny set; in particular a request of VIP
tier 0 is never rejected here, whatever the sets hold. -/
theorem C7_domain_filter (sys : Sys) (clock : Clock) (h : HTTPForwardHandler)
    (req : Request) (b0 : Bool) (ipc0 : ShardMap Int) (ai : ForwardAuthInfo)
    (ac : ShardMap ForwardAuthInfo)
    (hserve : ¬ (h.ServerNames.Contains (hostOf sys req) ∧ req.Method ≠ "CONNECT"))
    (hpolicy : h.ForwardPolicy ≠ "")
    (hp : policyStep h req clock.policy = .cont b0 ipc0)
    (ha : authStep sys clock h req (allowIPStep b0 ipc0 req.RemoteIP clock.allowIP).1
      = .cont ai ac) :
    ((ServeHTTP sys clock h req).response = .reject ↔
      0 < ai.VIP ∧
        ((h.AllowDomains.Empty = false ∧ h.AllowDomains.Contains (domainOf sys req) = false)
          ∨ h.DenyDomains.Contains (domainOf sys req) = true)) ∧
    (ai.VIP = 0 → (ServeHTTP sys clock h req).response ≠ .reject) := by
  rw [ServeHTTP_of_cont sys clock h req b0 ipc0 hserve hpolicy hp]
  have key := afterPolicy_of_auth sys clock h req (domainOf sys req) b0 ipc0 ai ac ha
  have hiff : (afterPolicy sys clock h req (domainOf sys req) b0 ipc0).response = .reject ↔
      filterStep h ai (domainOf sys req) = none := by
    constructor
    · intro hrej
      cases hf : filterStep h ai (domainOf sys req) with
      | none => rfl
      | some a1 =>
        exfalso
        cases hu : upstreamStep h req a1 with
        | none =>
          rw [(key.2 a1 hf).1 hu] at hrej
          exact Response.noConfusion hrej
        | some u =>
          rw [(key.2 a1 hf).2 u hu] at hrej
          exact Response.noConfusion hrej
    · exact key.1
  refine ⟨hiff.trans (filterStep_none_iff h ai (domainOf sys req)), fun h0 hrej => ?_⟩
  have := ((hiff.trans (filterStep_none_iff h ai (domainOf sys req))).mp hrej).1
  omega

/-- C7, witness: the user `u` of VIP tier 1 asking for `blocked.test`, a member of the deny
set, is rejected. -/
theorem C7_domain_filter_witness :
    (ServeHTTP (sysTTL 60) (clockAt 0) handlerDeny reqBlocked).response = .reject :=
  (C7_domain_filter (sysTTL 60) (clockAt 0) handlerDeny reqBlocked false ⟨[]⟩ aiUser
    ⟨[("check-user", aiUser)]⟩ (by decide) (by decide) (by decide) (by decide)).1.mpr
    ⟨by decide, Or.inr (by decide)⟩


/-! ## SOCKS request: address decoding and domain filter -/

theorem getD_append_length (l r : Bytes) (i : Nat) :
    (l ++ r).getD (l.length + i) 0 = r.getD i 0 := by
  induction l with
  | nil => simp
  | cons a t ih =>
    have e : (a :: t).length + i = (t.length + i) + 1 := by simp; omega
    rw [e]
    simpa using ih

theorem port_of_bytes (p : Nat) : (p / 256) <<< 8 ||| (p % 256) = p := by
  have h := Nat.mul_add_lt_is_or (i := 8) (b := p % 256) (by omega) (p / 256)
  rw [Nat.shiftLeft_eq, Nat.mul_comm, ← h]
  omega

theorem dialStep_keeps (sys : SocksSys) (h : SocksHandler) (s : SocksState) :
    (dialStep sys h s).state.req = s.req ∧ (dialStep sys h s).state.ai = s.ai ∧
      (dialStep sys h s).state.b = s.b ∧ (dialStep sys h s).outcome ≠ .panicked := by
  unfold dialStep
  cases hu : h.UpstreamTemplate with
  | none =>
    by_cases hd : sys.dial "" s.req.Host s.req.Port = true <;> simp [hd]
  | some t =>
    cases ht : t s.req with
    | error e => simp [ht]
    | ok out =>
      by_cases hu : TrimSpace out ≠ "" ∧ TrimSpace out ∉ h.Upstreams
      · simp [ht, hu]
      · by_cases hd : sys.dial (TrimSpace out) s.req.Host s.req.Port = true <;>
          simp [ht, hu, hd]

theorem secondPolicy_keeps (sys : SocksSys) (h : SocksHandler) (s : SocksState) :
    (secondPolicy sys h s).state.req = s.req ∧ (secondPolicy sys h s).state.ai = s.ai ∧
      (secondPolicy sys h s).state.b = s.b ∧ (secondPolicy sys h s).outcome ≠ .panicked := by
  unfold secondPolicy
  cases hp : h.PolicyTemplate with
  | none => exact dialStep_keeps sys h s
  | some t =>
    cases ht : t s.req with
    | error e => simp [ht]
    | ok out =>
      by_cases h1 : TrimSpace out = "reject" ∨ TrimSpace out = "deny"
      · simp [ht, h1]
      · by_cases h2 : TrimSpace out = "require_auth" ∨ TrimSpace out = "require_socks_auth"
        · simp [ht, h1, h2]
        · simp only [ht, h1, h2, if_false]
          exact dialStep_keeps sys h s

/-- Once the `05 00` reply is written and the request is read and decoded, the run ends
with the decoded host and port in the request, and it does not panic. -/
theorem requestStep_decoded (sys : SocksSys) (h : SocksHandler) (s : SocksState)
    (n : Nat) (buf : Bytes) (rest : List (Option Bytes)) (hp : Bytes × Nat)
    (hw : s.conn.writeOK = true)
    (hread : ReadAtLeast s.conn.input s.b 8 = ⟨n, true, buf, rest⟩) (hn : n ≠ 0)
    (hdec : decodeAddress buf n s.req.Host = some hp) :
    (requestStep sys h s).state.req = { s.req with Host := hp.1, Port := hp.2 } ∧
      (requestStep sys h s).state.b = buf ∧
      (requestStep sys h s).outcome ≠ .panicked := by
  unfold requestStep
  simp only [Conn.Write, hw, hread, hn, hdec]
  simp only [Bool.true_eq_false, or_self, if_false]
  have k := fun st => secondPolicy_keeps sys h st
  by_cases hv : s.ai.VIP > 0
  · simp only [hv, if_true]
    split
    · simp
    · split
      · exact ⟨(k _).1, (k _).2.2.1, (k _).2.2.2⟩
      · exact ⟨(k _).1, (k _).2.2.1, (k _).2.2.2⟩
  · simp only [hv, if_false]
    exact ⟨(k _).1, (k _).2.2.1, (k _).2.2.2⟩

theorem take_length_append (l r : Bytes) (n : Nat) (h : l.length = n) :
    (l ++ r).take n = l := by
  subst h
  induction l with
  | nil => simp
  | cons a t ih => simp

theorem byteAt_tail_port (x tail : Bytes) (ph pl : Nat) :
    byteAt (x ++ [ph, pl] ++ tail) ((x ++ [ph, pl]).length - 2) = ph ∧
    byteAt (x ++ [ph, pl] ++ tail) ((x ++ [ph, pl]).length - 1) = pl := by
  have e : x ++ [ph, pl] ++ tail = x ++ (ph :: pl :: tail) := by simp
  have l2 : (x ++ [ph, pl]).length - 2 = x.length + 0 := by simp
  have l1 : (x ++ [ph, pl]).length - 1 = x.length + 1 := by simp
  rw [e, l2, l1]
  unfold byteAt
  rw [getD_append_length, getD_append_length]
  exact ⟨rfl, rfl⟩

/-- Decoding the wire form of a well-formed target gives back its host and port. -/
theorem decodeAddress_encode (cmd port : Nat) (addr : SocksAddr) (tail host0 : Bytes)
    (hwf : addr.WellFormed) :
    decodeAddress (encodeRequest cmd addr port ++ tail) (encodeRequest cmd addr port).length
      host0 = some (addr.host, port) := by
  obtain ⟨hhi, hlo⟩ := byteAt_tail_port ([0x05, cmd, 0x00] ++ addr.wire) tail (port / 256)
    (port % 256)
  have hport : byteAt (encodeRequest cmd addr port ++ tail)
        ((encodeRequest cmd addr port).length - 2) <<< 8 |||
      byteAt (encodeRequest cmd addr port ++ tail) ((encodeRequest cmd addr port).length - 1)
      = port := by
    unfold encodeRequest
    rw [hhi, hlo]
    exact port_of_bytes port
  unfold decodeAddress
  simp only [hport]
  cases addr with
  | ipv4 a b c d =>
    have h3 : byteAt (encodeRequest cmd (.ipv4 a b c d) port ++ tail) 3 = 1 := rfl
    have hs : slice (encodeRequest cmd (.ipv4 a b c d) port ++ tail) 4 8 = some [a, b, c, d] := by
      simp [slice, encodeRequest, SocksAddr.wire]
    simp only [h3, hs, Socks5IPv4Address, if_true, Option.map, SocksAddr.host]
    rfl
  | domain name =>
    have h3 : byteAt (encodeRequest cmd (.domain name) port ++ tail) 3 = 3 := rfl
    have h4 : byteAt (encodeRequest cmd (.domain name) port ++ tail) 4 = name.length := rfl
    have hs : slice (encodeRequest cmd (.domain name) port ++ tail) 5 (5 + name.length)
        = some name := by
      have e3 : (name ++ (port / 256 :: port % 256 :: tail)).take name.length = name :=
        take_length_append _ _ _ rfl
      simp [slice, encodeRequest, SocksAddr.wire, e3]
      omega
    simp [h3, h4, hs, Socks5IPv4Address, Socks5DomainName, SocksAddr.host]
  | ipv6 p =>
    obtain ⟨h1, _⟩ := hwf
    have h3 : byteAt (encodeRequest cmd (.ipv6 p) port ++ tail) 3 = 4 := rfl
    have hs : slice (encodeRequest cmd (.ipv6 p) port ++ tail) 4 20 = some p := by
      have e3 : (p ++ (port / 256 :: port % 256 :: tail)).take 16 = p :=
        take_length_append _ _ _ h1
      simp [slice, encodeRequest, SocksAddr.wire, e3, h1]
    simp [h3, hs, Socks5IPv4Address, Socks5DomainName, Socks5IPv6Address, SocksAddr.host]

theorem ServeConn_of_auth (sys : SocksSys) (h : SocksHandler)
    (remoteAddr remoteIP serverAddr : String) (conn : Conn) (s0 s : SocksState)
    (bypassAuth : Bool)
    (hg : greetingStep remoteAddr remoteIP serverAddr conn = .go s0)
    (hp : firstPolicy h s0.req = some bypassAuth)
    (ha : socksAuthStep h bypassAuth s0 = .go s) :
    ServeConn sys h remoteAddr remoteIP serverAddr conn = requestStep sys h s := by
  unfold ServeConn
  rw [hg]
  simp only [hp, ha]

/-- C9: let a run of `ServeConn` get through greeting, policy and authentication, and let
its read of the request return exactly the wire form `05 CMD 00 ATYP ADDR PORT` of a
well-formed target with a port below 65536. Then the run does not panic and ends with
`Host` the dotted-decimal form of the 4 address bytes (IPv4), the bytes of the name
(domain name), or the textual form of the 16 address bytes (IPv6), and with `Port` the
port of the request, which is `256 * b[n-2] + b[n-1]` for the `n` bytes read and at most
65535. -/
theorem C9_address_decoding (sys : SocksSys) (h : SocksHandler)
    (remoteAddr remoteIP serverAddr : String) (conn : Conn) (s0 s : SocksState)
    (bypassAuth : Bool) (cmd port : Nat) (addr : SocksAddr) (tail : Bytes)
    (rest : List (Option Bytes))
    (hg : greetingStep remoteAddr remoteIP serverAddr conn = .go s0)
    (hp : firstPolicy h s0.req = some bypassAuth)
    (ha : socksAuthStep h bypassAuth s0 = .go s)
    (hw : s.conn.writeOK = true) (hwf : addr.WellFormed) (hport : port < 65536)
    (hread : ReadAtLeast s.conn.input s.b 8
      = ⟨(encodeRequest cmd addr port).length, true, encodeRequest cmd addr port ++ tail,
          rest⟩) :
    (ServeConn sys h remoteAddr remoteIP serverAddr conn).outcome ≠ .panicked ∧
    (ServeConn sys h remoteAddr remoteIP serverAddr conn).state.req.Host = addr.host ∧
    (ServeConn sys h remoteAddr remoteIP serverAddr conn).state.req.Port = port ∧
    (ServeConn sys h remoteAddr remoteIP serverAddr conn).state.req.Port
      = 256 * byteAt (ServeConn sys h remoteAddr remoteIP serverAddr conn).state.b
            ((encodeRequest cmd addr port).length - 2)
          + byteAt (ServeConn sys h remoteAddr remoteIP serverAddr conn).state.b
            ((encodeRequest cmd addr port).length - 1) ∧
    (ServeConn sys h remoteAddr remoteIP serverAddr conn).state.req.Port ≤ 65535 := by
  rw [ServeConn_of_auth sys h remoteAddr remoteIP serverAddr conn s0 s bypassAuth hg hp ha]
  have hn : (encodeRequest cmd addr port).length ≠ 0 := by simp [encodeRequest]
  obtain ⟨hreq, hb, hnp⟩ := requestStep_decoded sys h s _ _ rest (addr.host, port) hw hread hn
    (decodeAddress_encode cmd port addr tail s.req.Host hwf)
  obtain ⟨hhi, hlo⟩ := byteAt_tail_port ([0x05, cmd, 0x00] ++ addr.wire) tail (port / 256)
    (port % 256)
  refine ⟨hnp, by rw [hreq], by rw [hreq], ?_, by rw [hreq]; show port ≤ 65535; omega⟩
  rw [hreq, hb]
  show port = _
  unfold encodeRequest
  rw [hhi, hlo]
  omega

/-- C9, witness: the request `05 01 00 03 0c "blocked.test" 00 50`, read after the user
`u` has authenticated, leaves the host `blocked.test` and the port 80 in the request. -/
theorem C9_address_decoding_witness :
    (ServeConn socksSysPlain socksPlain "10.0.0.1:4000" "10.0.0.1" "10.0.0.2:1080"
      ⟨[some [5, 1, 2], some [1, 1, 117, 1, 112],
          some (encodeRequest 1 (.domain (ascii "blocked.test")) 80)], [], true⟩).state.req.Host
      = ascii "blocked.test" ∧
    (ServeConn socksSysPlain socksPlain "10.0.0.1:4000" "10.0.0.1" "10.0.0.2:1080"
      ⟨[some [5, 1, 2], some [1, 1, 117, 1, 112],
          some (encodeRequest 1 (.domain (ascii "blocked.test")) 80)], [], true⟩).state.req.Port
      = 80 :=
  have k := C9_address_decoding socksSysPlain socksPlain "10.0.0.1:4000" "10.0.0.1"
    "10.0.0.2:1080"
    ⟨[some [5, 1, 2], some [1, 1, 117, 1, 112],
      some (encodeRequest 1 (.domain (ascii "blocked.test")) 80)], [], true⟩
    ⟨⟨[some [1, 1, 117, 1, 112], some (encodeRequest 1 (.domain (ascii "blocked.test")) 80)],
        [], true⟩,
      [5, 1, 2] ++ List.replicate 509 0,
      ⟨"10.0.0.1:4000", "10.0.0.1", "10.0.0.2:1080", 5, true, [], [], [], 0⟩,
      ForwardAuthInfo.zero⟩
    ⟨⟨[some (encodeRequest 1 (.domain (ascii "blocked.test")) 80)], [[5, 2]], true⟩,
      [1, 1, 117, 1, 112] ++ List.replicate 507 0,
      ⟨"10.0.0.1:4000", "10.0.0.1", "10.0.0.2:1080", 5, true, [117], [112], [], 0⟩,
      ForwardAuthInfo.zero⟩
    false 1 80 (.domain (ascii "blocked.test")) (List.replicate 493 0) []
    (by decide) (by decide) (by decide) (by decide) (by decide) (by decide) (by decide)
  ⟨k.2.1, k.2.2.1⟩

theorem socksDomainRejected_of_listed (sys : SocksSys) (h : SocksHandler) (host : Bytes)
    (d : String) (hd : sys.EffectiveTLDPlusOne host = some d)
    (hlisted : h.DenyDomains.Contains d = true ∨
      (h.AllowDomains.Empty = false ∧ h.AllowDomains.Contains d = false)) :
    socksDomainRejected sys h Socks5DomainName host = true := by
  unfold socksDomainRejected
  simp only [StringSet.Empty, StringSet.Contains] at hlisted ⊢
  by_cases ha : h.AllowDomains.members = [] <;> by_cases hm : d ∈ h.AllowDomains.members
    <;> by_cases hn : d ∈ h.DenyDomains.members
    <;> by_cases he : h.DenyDomains.members = []
    <;> simp_all

theorem socksDomainRejected_of_ip (sys : SocksSys) (h : SocksHandler) (t : Nat)
    (host : Bytes) (ht : t = Socks5IPv4Address ∨ t = Socks5IPv6Address) :
    socksDomainRejected sys h t host = false := by
  have hne : t ≠ Socks5DomainName := by
    rcases ht with ht | ht <;> rw [ht] <;> decide
  simp [socksDomainRejected, hne]

/-- The domain sets matter to the request step only through the domain filter. -/
theorem requestStep_sets_irrelevant (sys : SocksSys) (h : SocksHandler) (s : SocksState)
    (allow deny : StringSet)
    (hip : byteAt (ReadAtLeast s.conn.input s.b 8).buf 3 = Socks5IPv4Address ∨
      byteAt (ReadAtLeast s.conn.input s.b 8).buf 3 = Socks5IPv6Address) :
    requestStep sys { h with AllowDomains := allow, DenyDomains := deny } s
      = requestStep sys h s := by
  have e : ∀ st, secondPolicy sys { h with AllowDomains := allow, DenyDomains := deny } st
      = secondPolicy sys h st := fun _ => rfl
  have r1 : ∀ host, socksDomainRejected sys
      { h with AllowDomains := allow, DenyDomains := deny }
      (byteAt (ReadAtLeast s.conn.input s.b 8).buf 3) host = false :=
    fun host => socksDomainRejected_of_ip _ _ _ host hip
  have r2 : ∀ host, socksDomainRejected sys h
      (byteAt (ReadAtLeast s.conn.input s.b 8).buf 3) host = false :=
    fun host => socksDomainRejected_of_ip _ _ _ host hip
  unfold requestStep
  simp only [Conn.Write, e, r1, r2]

/-- C10: let a run of `ServeConn` get through greeting, policy and authentication with the
auth info of a user of VIP tier above 0. If its read of the request returns exactly the
wire form of a domain-name request and the effective-TLD-plus-one of the name is in the
deny set, or is missing from a non-empty allow set, the handler writes, after the `05 00`
reply, exactly the ten bytes `05 02 00 01 00 00 00 00 00 00` and returns without dialing.
If the address type read is IPv4 or IPv6, the run is the same whatever the allow and deny
sets hold. -/
theorem C10_socks_domain_filter (sys : SocksSys) (h : SocksHandler)
    (remoteAddr remoteIP serverAddr : String) (conn : Conn) (s0 s : SocksState)
    (bypassAuth : Bool)
    (hg : greetingStep remoteAddr remoteIP serverAddr conn = .go s0)
    (hp : firstPolicy h s0.req = some bypassAuth)
    (ha : socksAuthStep h bypassAuth s0 = .go s) :
    (∀ (cmd port : Nat) (name tail : Bytes) (rest : List (Option Bytes)) (d : String),
      0 < s.ai.VIP → s.conn.writeOK = true → (SocksAddr.domain name).WellFormed →
      ReadAtLeast s.conn.input s.b 8
        = ⟨(encodeRequest cmd (.domain name) port).length, true,
            encodeRequest cmd (.domain name) port ++ tail, rest⟩ →
      sys.EffectiveTLDPlusOne name = some d →
      (h.DenyDomains.Contains d = true ∨
        (h.AllowDomains.Empty = false ∧ h.AllowDomains.Contains d = false)) →
      ServeConn sys h remoteAddr remoteIP serverAddr conn
        = ⟨.closed,
            { conn :=
                { input := rest
                  output := s.conn.output ++ [[0x05, 0x00]]
                    ++ [[0x05, 0x02, 0x00, 0x01, 0x00, 0x00, 0x00, 0x00, 0x00, 0x00]]
                  writeOK := true }
              b := encodeRequest cmd (.domain name) port ++ tail
              req := { s.req with Host := name, Port := port }
              ai := s.ai }⟩) ∧
    (∀ allow deny : StringSet,
      (byteAt (ReadAtLeast s.conn.input s.b 8).buf 3 = Socks5IPv4Address ∨
        byteAt (ReadAtLeast s.conn.input s.b 8).buf 3 = Socks5IPv6Address) →
      ServeConn sys { h with AllowDomains := allow, DenyDomains := deny } remoteAddr remoteIP
          serverAddr conn
        = ServeConn sys h remoteAddr remoteIP serverAddr conn) := by
  constructor
  · intro cmd port name tail rest d hvip hw hwf hread hd hlisted
    rw [ServeConn_of_auth sys h remoteAddr remoteIP serverAddr conn s0 s bypassAuth hg hp ha]
    have hn : (encodeRequest cmd (.domain name) port).length ≠ 0 := by simp [encodeRequest]
    have hdec := decodeAddress_encode cmd port (.domain name) tail s.req.Host hwf
    have h3 : byteAt (encodeRequest cmd (.domain name) port ++ tail) 3 = Socks5DomainName :=
      rfl
    have hrej := socksDomainRejected_of_listed sys h name d hd hlisted
    unfold requestStep
    simp only [Conn.Write, hw, hread, hn, hdec, h3, SocksAddr.host, hrej, hvip,
      WriteSocks5Status]
    simp [VersionSocks5, Socks5AuthMethodNone, Socks5StatusConnectionNotAllowedByRuleset]
  · intro allow deny hip
    rw [ServeConn_of_auth sys h remoteAddr remoteIP serverAddr conn s0 s bypassAuth hg hp ha,
      ServeConn_of_auth sys { h with AllowDomains := allow, DenyDomains := deny } remoteAddr
        remoteIP serverAddr conn s0 s bypassAuth hg hp ha]
    exact requestStep_sets_irrelevant sys h s allow deny hip

/-- C10, witness: the user `u` of VIP tier 1 asks for `blocked.test:80`, a member of the
deny set; the handler has written `05 02`, `05 00` and the ten bytes of the refusal, and
has not dialed. -/
theorem C10_socks_domain_filter_witness :
    (ServeConn socksSysPlain socksDenyAuth "10.0.0.1:4000" "10.0.0.1" "10.0.0.2:1080"
      ⟨[some [5, 1, 2], some [1, 1, 117, 1, 112],
          some (encodeRequest 1 (.domain (ascii "blocked.test")) 80)], [], true⟩).outcome
      = .closed ∧
    (ServeConn socksSysPlain socksDenyAuth "10.0.0.1:4000" "10.0.0.1" "10.0.0.2:1080"
      ⟨[some [5, 1, 2], some [1, 1, 117, 1, 112],
          some (encodeRequest 1 (.domain (ascii "blocked.test")) 80)], [],
        true⟩).state.conn.output
      = [[5, 2], [5, 0], [5, 2, 0, 1, 0, 0, 0, 0, 0, 0]] :=
  have k := (C10_socks_domain_filter socksSysPlain socksDenyAuth "10.0.0.1:4000" "10.0.0.1"
    "10.0.0.2:1080"
    ⟨[some [5, 1, 2], some [1, 1, 117, 1, 112],
      some (encodeRequest 1 (.domain (ascii "blocked.test")) 80)], [], true⟩
    ⟨⟨[some [1, 1, 117, 1, 112], some (encodeRequest 1 (.domain (ascii "blocked.test")) 80)],
        [], true⟩,
      [5, 1, 2] ++ List.replicate 509 0,
      ⟨"10.0.0.1:4000", "10.0.0.1", "10.0.0.2:1080", 5, true, [], [], [], 0⟩,
      ForwardAuthInfo.zero⟩
    ⟨⟨[some (encodeRequest 1 (.domain (ascii "blocked.test")) 80)], [[5, 2]], true⟩,
      [1, 1, 117, 1, 112] ++ List.replicate 507 0,
      ⟨"10.0.0.1:4000", "10.0.0.1", "10.0.0.2:1080", 5, true, [117], [112], [], 0⟩,
      { ForwardAuthInfo.zero with Username := "u", VIP := 1 }⟩
    false (by decide) (by decide) (by decide)).1 1 80 (ascii "blocked.test")
    (List.replicate 493 0) [] "blocked.test" (by decide) (by decide) (by decide) (by decide)
    (by decide) (Or.inl (by decide))
  ⟨congrArg (fun r => r.outcome) k, congrArg (fun r => r.state.conn.output) k⟩

/-! ## SOCKS greeting: the version byte -/

/-- C8, counterexample: a client whose greeting has the version byte `04` and offers
method `02` is answered with the method selection `05 02`, its auth request and its
address request are read, and its target is dialed and relayed. -/
theorem C8_version_4_served :
    (ServeConn socksSysPlain socksPlain "10.0.0.1:4000" "10.0.0.1" "10.0.0.2:1080"
      ⟨[some [4, 1, 2], some [1, 1, 117, 1, 112],
          some (encodeRequest 1 (.domain (ascii "example.com")) 80)], [], true⟩).outcome
      = .relayed "" (ascii "example.com") 80 0 ∧
    (ServeConn socksSysPlain socksPlain "10.0.0.1:4000" "10.0.0.1" "10.0.0.2:1080"
      ⟨[some [4, 1, 2], some [1, 1, 117, 1, 112],
          some (encodeRequest 1 (.domain (ascii "example.com")) 80)], [],
        true⟩).state.conn.output
      = [[5, 2], [5, 0], [5, 0, 0, 1, 0, 0, 0, 0, 0, 0]] := by
  decide

theorem byteAt_of_pos (x y : Nat) (t : Bytes) (i : Nat) (hi : 0 < i) :
    byteAt (x :: t) i = byteAt (y :: t) i := by
  cases i with
  | zero => omega
  | succ k => rfl

theorem slice_of_pos (x y : Nat) (t : Bytes) (lo hi : Nat) (hlo : 0 < lo) :
    slice (x :: t) lo hi = slice (y :: t) lo hi := by
  cases lo with
  | zero => omega
  | succ k => rfl

theorem supportAuth_head (x y : Nat) (t : Bytes) :
    supportAuth (x :: t) = supportAuth (y :: t) := rfl

/-- The read loop treats two buffers that differ in their first byte alike. -/
theorem readLoop_sim (min : Nat) (input : List (Option Bytes)) :
    ∀ (x y : Nat) (t : Bytes) (n : Nat),
      ∃ m ok rest x1 y1 t1,
        readLoop min input (x :: t) n = ⟨m, ok, x1 :: t1, rest⟩ ∧
        readLoop min input (y :: t) n = ⟨m, ok, y1 :: t1, rest⟩ := by
  induction input with
  | nil => intro x y t n; exact ⟨n, false, [], x, y, t, rfl, rfl⟩
  | cons c more ih =>
    intro x y t n
    cases c with
    | none => exact ⟨n, false, more, x, y, t, rfl, rfl⟩
    | some chunk =>
      have hbuf : ∃ x1 y1 t1,
          (x :: t).take n ++ chunk.take ((x :: t).length - n)
              ++ (x :: t).drop (n + (chunk.take ((x :: t).length - n)).length) = x1 :: t1 ∧
          (y :: t).take n ++ chunk.take ((y :: t).length - n)
              ++ (y :: t).drop (n + (chunk.take ((y :: t).length - n)).length) = y1 :: t1 := by
        cases n with
        | zero =>
          cases hg : chunk.take ((x :: t).length - 0) with
          | nil =>
            refine ⟨x, y, t, ?_, ?_⟩
            · simp
            · have hg2 : chunk.take ((y :: t).length - 0) = [] := hg
              rw [hg2]; simp
          | cons g gs =>
            refine ⟨g, g, gs ++ t.drop gs.length, ?_, ?_⟩
            · simp
            · have hg2 : chunk.take ((y :: t).length - 0) = g :: gs := hg
              rw [hg2]; simp
        | succ k =>
          have e : ∀ z : Nat, (z :: t).drop
              (k + 1 + (chunk.take ((x :: t).length - (k + 1))).length)
              = t.drop (k + (chunk.take ((x :: t).length - (k + 1))).length) := by
            intro z
            rw [show k + 1 + (chunk.take ((x :: t).length - (k + 1))).length
              = (k + (chunk.take ((x :: t).length - (k + 1))).length) + 1 by omega]
            rfl
          refine ⟨x, y, t.take k ++ chunk.take ((x :: t).length - (k + 1))
            ++ t.drop (k + (chunk.take ((x :: t).length - (k + 1))).length), ?_, ?_⟩
          · rw [e x]; simp
          · have hl : (y :: t).length = (x :: t).length := rfl
            rw [hl, e y]; simp
      obtain ⟨x1, y1, t1, hx, hy⟩ := hbuf
      have hlen : (y :: t).length = (x :: t).length := rfl
      simp only [readLoop, hlen, hx]
      rw [hlen] at hy
      simp only [hy]
      by_cases hleft : chunk.drop ((x :: t).length - n) ≠ []
      · simp only [if_pos hleft]
        exact ⟨_, _, _, x1, y1, t1, rfl, rfl⟩
      · simp only [if_neg hleft]
        by_cases hmin : min ≤ n + (chunk.take ((x :: t).length - n)).length
        · simp only [if_pos hmin]
          exact ⟨_, _, _, x1, y1, t1, rfl, rfl⟩
        · simp only [if_neg hmin]
          exact ih x1 y1 t1 _

theorem ReadAtLeast_sim (min : Nat) (input : List (Option Bytes)) (x y : Nat) (t : Bytes) :
    ∃ m ok rest x1 y1 t1,
      ReadAtLeast input (x :: t) min = ⟨m, ok, x1 :: t1, rest⟩ ∧
      ReadAtLeast input (y :: t) min = ⟨m, ok, y1 :: t1, rest⟩ := by
  unfold ReadAtLeast
  have hlen : (y :: t).length = (x :: t).length := rfl
  rw [hlen]
  by_cases hshort : (x :: t).length < min
  · simp only [hshort, if_true]
    exact ⟨0, false, input, x, y, t, rfl, rfl⟩
  · simp only [hshort, if_false]
    exact readLoop_sim min input x y t 0

theorem readLoop_ok_min (min : Nat) (input : List (Option Bytes)) :
    ∀ (buf : Bytes) (n : Nat), (readLoop min input buf n).ok = true →
      min ≤ (readLoop min input buf n).n := by
  induction input with
  | nil => intro buf n h; simp [readLoop] at h
  | cons c more ih =>
    intro buf n h
    cases c with
    | none => simp [readLoop] at h
    | some chunk =>
      simp only [readLoop] at h ⊢
      by_cases hleft : chunk.drop (buf.length - n) ≠ []
      · simp only [if_pos hleft] at h ⊢
        simpa using h
      · simp only [if_neg hleft] at h ⊢
        by_cases hmin : min ≤ n + (chunk.take (buf.length - n)).length
        · simp only [if_pos hmin]
          exact hmin
        · simp only [if_neg hmin] at h ⊢
          exact ih _ _ h

theorem ReadAtLeast_ok_min (min : Nat) (input : List (Option Bytes)) (buf : Bytes)
    (h : (ReadAtLeast input buf min).ok = true) : min ≤ (ReadAtLeast input buf min).n := by
  unfold ReadAtLeast at h ⊢
  by_cases hshort : buf.length < min
  · simp [hshort] at h
  · simp only [hshort, if_false] at h ⊢
    exact readLoop_ok_min min input buf 0 h

theorem stateSim_cases (s1 s2 : SocksState) (h : stateSim s1 s2) :
    ∃ c a ra ri sa v1 v2 su u p ho po x y t,
      s1 = ⟨c, x :: t, ⟨ra, ri, sa, v1, su, u, p, ho, po⟩, a⟩ ∧
      s2 = ⟨c, y :: t, ⟨ra, ri, sa, v2, su, u, p, ho, po⟩, a⟩ := by
  obtain ⟨c1, b1, r1, a1⟩ := s1
  obtain ⟨c2, b2, r2, a2⟩ := s2
  obtain ⟨hc, ha, hr, x, y, t, hb1, hb2⟩ := h
  obtain ⟨ra1, ri1, sa1, v1, su1, u1, p1, ho1, po1⟩ := r1
  obtain ⟨ra2, ri2, sa2, v2, su2, u2, p2, ho2, po2⟩ := r2
  simp only [reqSim, SocksRequest.mk.injEq] at hr
  obtain ⟨e1, e2, e3, _, e5, e6, e7, e8, e9⟩ := hr
  simp only at hc ha hb1 hb2
  subst hc ha hb1 hb2 e1 e2 e3 e5 e6 e7 e8 e9
  exact ⟨_, _, _, _, _, _, _, _, _, _, _, _, _, _, _, rfl, rfl⟩

theorem stateSim_mk (c : Conn) (a : ForwardAuthInfo) (ra ri sa : String) (v1 v2 : Nat)
    (su : Bool) (u p ho : Bytes) (po x y : Nat) (t : Bytes) :
    stateSim ⟨c, x :: t, ⟨ra, ri, sa, v1, su, u, p, ho, po⟩, a⟩
      ⟨c, y :: t, ⟨ra, ri, sa, v2, su, u, p, ho, po⟩, a⟩ :=
  ⟨rfl, rfl, rfl, x, y, t, rfl, rfl⟩

theorem dialStep_sim (sys : SocksSys) (h : SocksHandler) (s1 s2 : SocksState)
    (hup : ∀ t, h.UpstreamTemplate = some t → ∀ r w, t { r with Version := w } = t r)
    (hs : stateSim s1 s2) : resultSim (dialStep sys h s1) (dialStep sys h s2) := by
  obtain ⟨c, a, ra, ri, sa, v1, v2, su, u, p, ho, po, x, y, t, e1, e2⟩ :=
    stateSim_cases s1 s2 hs
  subst e1 e2
  unfold dialStep
  cases hu : h.UpstreamTemplate with
  | none =>
    simp only []
    by_cases hd : sys.dial "" ho po = true
    · simp only [hd, if_true]
      exact ⟨rfl, stateSim_mk _ _ _ _ _ _ _ _ _ _ _ _ _ _ _⟩
    · simp only [hd]
      exact ⟨rfl, stateSim_mk _ _ _ _ _ _ _ _ _ _ _ _ _ _ _⟩
  | some tm =>
    have et : tm ⟨ra, ri, sa, v1, su, u, p, ho, po⟩ = tm ⟨ra, ri, sa, v2, su, u, p, ho, po⟩ :=
      hup tm hu ⟨ra, ri, sa, v2, su, u, p, ho, po⟩ v1
    simp only [et]
    cases hte : tm ⟨ra, ri, sa, v2, su, u, p, ho, po⟩ with
    | error e => exact ⟨rfl, stateSim_mk _ _ _ _ _ _ _ _ _ _ _ _ _ _ _⟩
    | ok out =>
      simp only []
      by_cases hn : TrimSpace out ≠ "" ∧ TrimSpace out ∉ h.Upstreams
      · simp only [if_pos hn]
        exact ⟨rfl, stateSim_mk _ _ _ _ _ _ _ _ _ _ _ _ _ _ _⟩
      · simp only [if_neg hn]
        by_cases hd : sys.dial (TrimSpace out) ho po = true
        · simp only [hd, if_true]
          exact ⟨rfl, stateSim_mk _ _ _ _ _ _ _ _ _ _ _ _ _ _ _⟩
        · simp only [hd]
          exact ⟨rfl, stateSim_mk _ _ _ _ _ _ _ _ _ _ _ _ _ _ _⟩

theorem secondPolicy_sim (sys : SocksSys) (h : SocksHandler) (s1 s2 : SocksState)
    (hpol : ∀ t, h.PolicyTemplate = some t → ∀ r w, t { r with Version := w } = t r)
    (hup : ∀ t, h.UpstreamTemplate = some t → ∀ r w, t { r with Version := w } = t r)
    (hs : stateSim s1 s2) : resultSim (secondPolicy sys h s1) (secondPolicy sys h s2) := by
  have hdial := dialStep_sim sys h s1 s2 hup hs
  obtain ⟨c, a, ra, ri, sa, v1, v2, su, u, p, ho, po, x, y, t, e1, e2⟩ :=
    stateSim_cases s1 s2 hs
  subst e1 e2
  unfold secondPolicy
  cases hp : h.PolicyTemplate with
  | none => exact hdial
  | some tm =>
    have et : tm ⟨ra, ri, sa, v1, su, u, p, ho, po⟩ = tm ⟨ra, ri, sa, v2, su, u, p, ho, po⟩ :=
      hpol tm hp ⟨ra, ri, sa, v2, su, u, p, ho, po⟩ v1
    simp only [et]
    cases hte : tm ⟨ra, ri, sa, v2, su, u, p, ho, po⟩ with
    | error e => exact ⟨rfl, stateSim_mk _ _ _ _ _ _ _ _ _ _ _ _ _ _ _⟩
    | ok out =>
      simp only []
      by_cases h1 : TrimSpace out = "reject" ∨ TrimSpace out = "deny"
      · simp only [if_pos h1]
        exact ⟨rfl, stateSim_mk _ _ _ _ _ _ _ _ _ _ _ _ _ _ _⟩
      · simp only [if_neg h1]
        by_cases h2 : TrimSpace out = "require_auth" ∨ TrimSpace out = "require_socks_auth"
        · simp only [if_pos h2]
          exact ⟨rfl, stateSim_mk _ _ _ _ _ _ _ _ _ _ _ _ _ _ _⟩
        · simp only [if_neg h2]
          exact hdial

theorem decodeAddress_head (x y : Nat) (t : Bytes) (n : Nat) (host : Bytes) (hn : 3 ≤ n) :
    decodeAddress (x :: t) n host = decodeAddress (y :: t) n host := by
  simp only [decodeAddress, byteAt_of_pos x y t 3 (by omega),
    byteAt_of_pos x y t 4 (by omega), byteAt_of_pos x y t (n - 2) (by omega),
    byteAt_of_pos x y t (n - 1) (by omega),
    fun hi => slice_of_pos x y t 4 hi (by omega),
    fun hi => slice_of_pos x y t 5 hi (by omega)]

theorem requestStep_sim (sys : SocksSys) (h : SocksHandler) (s1 s2 : SocksState)
    (hpol : ∀ t, h.PolicyTemplate = some t → ∀ r w, t { r with Version := w } = t r)
    (hup : ∀ t, h.UpstreamTemplate = some t → ∀ r w, t { r with Version := w } = t r)
    (hs : stateSim s1 s2) : resultSim (requestStep sys h s1) (requestStep sys h s2) := by
  obtain ⟨c, a, ra, ri, sa, v1, v2, su, u, p, ho, po, x, y, t, e1, e2⟩ :=
    stateSim_cases s1 s2 hs
  subst e1 e2
  obtain ⟨m, ok, rest, x1, y1, t1, r1, r2⟩ := ReadAtLeast_sim 8 c.input x y t
  have hmin : ok = true → 8 ≤ m := by
    intro hok
    have := ReadAtLeast_ok_min 8 c.input (x :: t) (by rw [r1]; exact hok)
    rw [r1] at this
    exact this
  have second := fun st1 st2 hst => secondPolicy_sim sys h st1 st2 hpol hup hst
  unfold requestStep
  simp only [Conn.Write, r1, r2]
  by_cases hw : c.writeOK = false
  · simp only [if_pos hw]
    exact ⟨rfl, stateSim_mk _ _ _ _ _ _ _ _ _ _ _ _ _ _ _⟩
  · simp only [if_neg hw]
    by_cases hr : ok = false ∨ m = 0
    · simp only [if_pos hr]
      exact ⟨rfl, stateSim_mk _ _ _ _ _ _ _ _ _ _ _ _ _ _ _⟩
    · simp only [if_neg hr]
      have hok : ok = true := by
        cases ok with
        | true => rfl
        | false => exact absurd (Or.inl rfl) hr
      have hm := hmin hok
      rw [decodeAddress_head x1 y1 t1 m ho (by omega), byteAt_of_pos x1 y1 t1 3 (by omega)]
      cases hd : decodeAddress (y1 :: t1) m ho with
      | none => exact ⟨rfl, stateSim_mk _ _ _ _ _ _ _ _ _ _ _ _ _ _ _⟩
      | some hp =>
        simp only []
        by_cases hv : a.VIP > 0
        · simp only [if_pos hv]
          by_cases hrej : socksDomainRejected sys h (byteAt (y1 :: t1) 3) hp.1 = true
          · simp only [hrej, if_true]
            exact ⟨rfl, stateSim_mk _ _ _ _ _ _ _ _ _ _ _ _ _ _ _⟩
          · simp only [hrej]
            by_cases hsp : a.SpeedLimit = 0 ∧ h.SpeedLimit > 0
            · simp only [if_pos hsp]
              exact second _ _ (stateSim_mk _ _ _ _ _ _ _ _ _ _ _ _ _ _ _)
            · simp only [if_neg hsp]
              exact second _ _ (stateSim_mk _ _ _ _ _ _ _ _ _ _ _ _ _ _ _)
        · simp only [if_neg hv]
          exact second _ _ (stateSim_mk _ _ _ _ _ _ _ _ _ _ _ _ _ _ _)

theorem socksAuthStep_sim (h : SocksHandler) (bypassAuth : Bool) (s1 s2 : SocksState)
    (hs : stateSim s1 s2) :
    stepSim (socksAuthStep h bypassAuth s1) (socksAuthStep h bypassAuth s2) := by
  obtain ⟨c, a, ra, ri, sa, v1, v2, su, u, p, ho, po, x, y, t, e1, e2⟩ :=
    stateSim_cases s1 s2 hs
  subst e1 e2
  obtain ⟨m, ok, rest, x1, y1, t1, r1, r2⟩ := ReadAtLeast_sim 4 c.input x y t
  unfold socksAuthStep
  simp only [Conn.Write, r1, r2]
  by_cases hb : bypassAuth = true
  · simp only [if_pos hb]
    exact stateSim_mk _ _ _ _ _ _ _ _ _ _ _ _ _ _ _
  · simp only [if_neg hb]
    by_cases hsu : su = false
    · simp only [if_pos hsu]
      exact ⟨rfl, stateSim_mk _ _ _ _ _ _ _ _ _ _ _ _ _ _ _⟩
    · simp only [if_neg hsu]
      by_cases hr : ok = false ∨ m = 0
      · simp only [if_pos hr]
        exact ⟨rfl, stateSim_mk _ _ _ _ _ _ _ _ _ _ _ _ _ _ _⟩
      · simp only [if_neg hr]
        rw [byteAt_of_pos x1 y1 t1 1 (by omega),
          byteAt_of_pos x1 y1 t1 (2 + byteAt (y1 :: t1) 1) (by omega),
          slice_of_pos x1 y1 t1 2 _ (by omega),
          slice_of_pos x1 y1 t1 (3 + byteAt (y1 :: t1) 1) _ (by omega)]
        cases hu : slice (y1 :: t1) 2 (2 + byteAt (y1 :: t1) 1) with
        | none => exact ⟨rfl, stateSim_mk _ _ _ _ _ _ _ _ _ _ _ _ _ _ _⟩
        | some username =>
          simp only []
          cases hpw : slice (y1 :: t1) (3 + byteAt (y1 :: t1) 1)
              (3 + byteAt (y1 :: t1) 1 + byteAt (y1 :: t1) (2 + byteAt (y1 :: t1) 1)) with
          | none => exact ⟨rfl, stateSim_mk _ _ _ _ _ _ _ _ _ _ _ _ _ _ _⟩
          | some password =>
            simp only []
            cases hdb : h.AuthDB with
            | none => exact stateSim_mk _ _ _ _ _ _ _ _ _ _ _ _ _ _ _
            | some db =>
              have eg : SocksHandler.GetAuthInfo db ⟨ra, ri, sa, v1, su, username, password, ho, po⟩
                  = SocksHandler.GetAuthInfo db ⟨ra, ri, sa, v2, su, username, password, ho, po⟩ := rfl
              simp only [eg]
              cases hg : SocksHandler.GetAuthInfo db
                  ⟨ra, ri, sa, v2, su, username, password, ho, po⟩ with
              | error e => exact ⟨rfl, stateSim_mk _ _ _ _ _ _ _ _ _ _ _ _ _ _ _⟩
              | ok ai => exact stateSim_mk _ _ _ _ _ _ _ _ _ _ _ _ _ _ _

/-- The greeting step treats two greetings that differ in their version byte alike. -/
theorem greetingStep_sim (remoteAddr remoteIP serverAddr : String) (v w : Nat)
    (rest : Bytes) (more : List (Option Bytes)) (out : List Bytes) (wok : Bool) :
    stepSim (greetingStep remoteAddr remoteIP serverAddr ⟨some (v :: rest) :: more, out, wok⟩)
      (greetingStep remoteAddr remoteIP serverAddr ⟨some (w :: rest) :: more, out, wok⟩) := by
  have hread : ∃ m ok rs x1 y1 t1,
      ReadAtLeast (some (v :: rest) :: more) (List.replicate 512 0) 2
        = ⟨m, ok, x1 :: t1, rs⟩ ∧
      ReadAtLeast (some (w :: rest) :: more) (List.replicate 512 0) 2
        = ⟨m, ok, y1 :: t1, rs⟩ := by
    have hz : List.replicate 512 0 = 0 :: List.replicate 511 0 := rfl
    have hlen : (0 :: List.replicate 511 0).length = 512 := by simp
    rw [hz]
    unfold ReadAtLeast
    simp only [hlen, show ¬ (512 < 2) by omega, if_false, readLoop,
      show (512 : Nat) - 0 = 511 + 1 by omega, List.take_succ_cons, List.drop_succ_cons,
      List.take_zero, List.nil_append, List.length_cons, List.cons_append, Nat.zero_add]
    by_cases hleft : List.drop 511 rest ≠ []
    · simp only [if_pos hleft]
      exact ⟨_, _, _, _, _, _, rfl, rfl⟩
    · simp only [if_neg hleft]
      by_cases hmin : 2 ≤ (List.take 511 rest).length + 1
      · simp only [if_pos hmin]
        exact ⟨_, _, _, _, _, _, rfl, rfl⟩
      · simp only [if_neg hmin]
        exact readLoop_sim 2 more v w _ _
  obtain ⟨m, ok, rs, x1, y1, t1, r1, r2⟩ := hread
  unfold greetingStep
  simp only [r1, r2]
  by_cases hr : ok = false ∨ m = 0
  · simp only [if_pos hr]
    exact ⟨rfl, stateSim_mk _ _ _ _ _ _ _ _ _ _ _ _ _ _ _⟩
  · simp only [if_neg hr, supportAuth_head x1 y1 t1]
    exact stateSim_mk _ _ _ _ _ _ _ _ _ _ _ _ _ _ _

theorem firstPolicy_sim (h : SocksHandler) (r1 r2 : SocksRequest)
    (hpol : ∀ t, h.PolicyTemplate = some t → ∀ r w, t { r with Version := w } = t r)
    (hr : reqSim r1 r2) : firstPolicy h r1 = firstPolicy h r2 := by
  unfold firstPolicy
  cases hp : h.PolicyTemplate with
  | none => rfl
  | some tm =>
    have et : tm r1 = tm r2 := by
      have a1 := hpol tm hp r1 0
      have a2 := hpol tm hp r2 0
      unfold reqSim at hr
      rw [← a1, hr, a2]
    simp only [et]

/-- C8, amended: `ServeConn` never examines the version byte of the greeting. When the
policy template and the upstream template do not depend on `Request.Version`, a greeting
with the version byte `v` is served exactly like the same greeting with the version byte
`0x05`: the same outcome, the same bytes read and written, the same auth info, and the
same request apart from its `Version` field. -/
theorem C8_version_byte_not_checked (sys : SocksSys) (h : SocksHandler)
    (remoteAddr remoteIP serverAddr : String) (v : Nat) (rest : Bytes)
    (more : List (Option Bytes)) (out : List Bytes) (wok : Bool)
    (hpol : ∀ t, h.PolicyTemplate = some t → ∀ r w, t { r with Version := w } = t r)
    (hup : ∀ t, h.UpstreamTemplate = some t → ∀ r w, t { r with Version := w } = t r) :
    (ServeConn sys h remoteAddr remoteIP serverAddr
        ⟨some (v :: rest) :: more, out, wok⟩).outcome
      = (ServeConn sys h remoteAddr remoteIP serverAddr
        ⟨some (VersionSocks5 :: rest) :: more, out, wok⟩).outcome ∧
    (ServeConn sys h remoteAddr remoteIP serverAddr
        ⟨some (v :: rest) :: more, out, wok⟩).state.conn
      = (ServeConn sys h remoteAddr remoteIP serverAddr
        ⟨some (VersionSocks5 :: rest) :: more, out, wok⟩).state.conn ∧
    (ServeConn sys h remoteAddr remoteIP serverAddr
        ⟨some (v :: rest) :: more, out, wok⟩).state.ai
      = (ServeConn sys h remoteAddr remoteIP serverAddr
        ⟨some (VersionSocks5 :: rest) :: more, out, wok⟩).state.ai ∧
    { (ServeConn sys h remoteAddr remoteIP serverAddr
        ⟨some (v :: rest) :: more, out, wok⟩).state.req with Version := 0 }
      = { (ServeConn sys h remoteAddr remoteIP serverAddr
        ⟨some (VersionSocks5 :: rest) :: more, out, wok⟩).state.req with Version := 0 } := by
  have key : resultSim
      (ServeConn sys h remoteAddr remoteIP serverAddr ⟨some (v :: rest) :: more, out, wok⟩)
      (ServeConn sys h remoteAddr remoteIP serverAddr
        ⟨some (VersionSocks5 :: rest) :: more, out, wok⟩) := by
    have g := greetingStep_sim remoteAddr remoteIP serverAddr v VersionSocks5 rest more out wok
    unfold ServeConn
    cases hg1 : greetingStep remoteAddr remoteIP serverAddr
        ⟨some (v :: rest) :: more, out, wok⟩ with
    | stop q1 =>
      cases hg2 : greetingStep remoteAddr remoteIP serverAddr
          ⟨some (VersionSocks5 :: rest) :: more, out, wok⟩ with
      | stop q2 => rw [hg1, hg2] at g; exact g
      | go s2 => rw [hg1, hg2] at g; exact g.elim
    | go s1 =>
      cases hg2 : greetingStep remoteAddr remoteIP serverAddr
          ⟨some (VersionSocks5 :: rest) :: more, out, wok⟩ with
      | stop q2 => rw [hg1, hg2] at g; exact g.elim
      | go s2 =>
        rw [hg1, hg2] at g
        have gs : stateSim s1 s2 := g
        simp only [firstPolicy_sim h s1.req s2.req hpol gs.2.2.1]
        cases hf : firstPolicy h s2.req with
        | none => exact ⟨rfl, gs⟩
        | some b =>
          have a := socksAuthStep_sim h b s1 s2 gs
          simp only []
          cases ha1 : socksAuthStep h b s1 with
          | stop q1 =>
            cases ha2 : socksAuthStep h b s2 with
            | stop q2 => rw [ha1, ha2] at a; exact a
            | go t2 => rw [ha1, ha2] at a; exact a.elim
          | go t1 =>
            cases ha2 : socksAuthStep h b s2 with
            | stop q2 => rw [ha1, ha2] at a; exact a.elim
            | go t2 =>
              rw [ha1, ha2] at a
              exact requestStep_sim sys h t1 t2 hpol hup a
  exact ⟨key.1, key.2.1, key.2.2.1, key.2.2.2.1⟩

/-- C8, witness: under a policy that does not look at the version, the greeting `04 01 02`
is served like the greeting `05 01 02`. -/
theorem C8_version_byte_not_checked_witness :
    (ServeConn socksSysPlain socksPolicyOnAuth "10.0.0.1:4000" "10.0.0.1" "10.0.0.2:1080"
        ⟨some [4, 1, 2] :: [some [1, 1, 117, 1, 112]], [], true⟩).outcome
      = (ServeConn socksSysPlain socksPolicyOnAuth "10.0.0.1:4000" "10.0.0.1" "10.0.0.2:1080"
        ⟨some [5, 1, 2] :: [some [1, 1, 117, 1, 112]], [], true⟩).outcome ∧
    (ServeConn socksSysPlain socksPolicyOnAuth "10.0.0.1:4000" "10.0.0.1" "10.0.0.2:1080"
        ⟨some [4, 1, 2] :: [some [1, 1, 117, 1, 112]], [], true⟩).state.conn
      = (ServeConn socksSysPlain socksPolicyOnAuth "10.0.0.1:4000" "10.0.0.1" "10.0.0.2:1080"
        ⟨some [5, 1, 2] :: [some [1, 1, 117, 1, 112]], [], true⟩).state.conn :=
  have k := C8_version_byte_not_checked socksSysPlain socksPolicyOnAuth "10.0.0.1:4000"
    "10.0.0.1" "10.0.0.2:1080" 4 [1, 2] [some [1, 1, 117, 1, 112]] [] true
    (fun t ht r w => by
      have e : (fun r : SocksRequest =>
          (Except.ok (if r.SupportAuth then "require_auth" else "reject") :
            Except String String)) = t := Option.some.inj ht
      subst e
      rfl)
    (fun t ht => Option.noConfusion ht)
  ⟨k.1, k.2.1⟩

/-! ## Reverse-tunnel server handler: authorization -/

theorem Compare_neg_iff (a b : String) : Compare a b < 0 ↔ a < b := by
  unfold Compare
  have hl : a.data < b.data ↔ a < b := String.lt_iff_toList_lt.symm
  by_cases h : a < b
  · have h' := hl.mpr h
    simp [h, h']
  · have h' : ¬ a.data < b.data := fun k => h (hl.mp k)
    by_cases e : a = b
    · simp only [if_neg h', if_pos e]
      simpa using h
    · simp only [if_neg h', if_neg e]
      simpa using h

theorem Compare_zero_iff (a b : String) : Compare a b = 0 ↔ a = b := by
  unfold Compare
  have hl : a.data < b.data ↔ a < b := String.lt_iff_toList_lt.symm
  by_cases h : a < b
  · have hne : a ≠ b := ne_of_lt h
    have h' := hl.mpr h
    simp only [if_pos h']
    simp [hne]
  · have h' : ¬ a.data < b.data := fun k => h (hl.mp k)
    by_cases e : a = b
    · simp only [if_neg h', if_pos e]
      exact ⟨fun _ => e, fun _ => trivial⟩
    · simp only [if_neg h', if_neg e]
      simp [e]

/-- A table sorted by unique username, in terms of positions. -/
theorem sorted_positions (x : List UserInfo)
    (hs : x.Pairwise (fun a b => a.Username < b.Username)) :
    ∀ (a b : Nat) (ea eb : UserInfo), a < b → x[a]? = some ea → x[b]? = some eb →
      ea.Username < eb.Username := by
  intro a b ea eb hab ha hb
  obtain ⟨hal, hae⟩ := List.getElem?_eq_some_iff.mp ha
  obtain ⟨hbl, hbe⟩ := List.getElem?_eq_some_iff.mp hb
  have := (List.pairwise_iff_getElem.mp hs) a b hal hbl hab
  rw [hae, hbe] at this
  exact this

/-- The loop of the binary search keeps its invariant and ends at the first position
whose username is not below the target. -/
theorem binarySearchLoop_spec (x : List UserInfo) (target : UserInfo)
    (hs : x.Pairwise (fun a b => a.Username < b.Username)) :
    ∀ (fuel i j : Nat), i ≤ j → j ≤ x.length → j - i ≤ fuel →
      (∀ k e, k < i → x[k]? = some e → e.Username < target.Username) →
      (∀ k e, j ≤ k → x[k]? = some e → ¬ e.Username < target.Username) →
      (∀ k e, k < binarySearchLoop x target (fun a b => Compare a.Username b.Username) fuel i j →
        x[k]? = some e → e.Username < target.Username) ∧
      (∀ k e, binarySearchLoop x target (fun a b => Compare a.Username b.Username) fuel i j ≤ k →
        x[k]? = some e → ¬ e.Username < target.Username) ∧
      binarySearchLoop x target (fun a b => Compare a.Username b.Username) fuel i j
        ≤ x.length := by
  have hpos := sorted_positions x hs
  intro fuel
  induction fuel with
  | zero =>
    intro i j hij hjn hfuel hlow hhigh
    have e : i = j := by omega
    subst e
    exact ⟨hlow, hhigh, hjn⟩
  | succ fuel ih =>
    intro i j hij hjn hfuel hlow hhigh
    unfold binarySearchLoop
    by_cases hlt : i < j
    · simp only [if_pos hlt]
      have hmid : (i + j) / 2 < x.length := by omega
      rw [List.getElem?_eq_getElem hmid]
      simp only []
      have hget : x[(i + j) / 2]? = some x[(i + j) / 2] := List.getElem?_eq_getElem hmid
      by_cases hc : Compare x[(i + j) / 2].Username target.Username < 0
      · simp only [if_pos hc]
        have hless := (Compare_neg_iff _ _).mp hc
        apply ih ((i + j) / 2 + 1) j (by omega) hjn (by omega) _ hhigh
        intro k e hk hke
        by_cases hkm : k = (i + j) / 2
        · subst hkm
          rw [hget] at hke
          rw [← Option.some.inj hke]
          exact hless
        · exact lt_trans (hpos k _ e _ (by omega) hke hget) hless
      · simp only [if_neg hc]
        have hnot : ¬ x[(i + j) / 2].Username < target.Username :=
          fun h => hc ((Compare_neg_iff _ _).mpr h)
        apply ih i ((i + j) / 2) (by omega) (by omega) (by omega) hlow
        intro k e hk hke
        by_cases hkm : k = (i + j) / 2
        · subst hkm
          rw [hget] at hke
          rw [← Option.some.inj hke]
          exact hnot
        · intro hlt2
          exact hnot (lt_trans (hpos _ k _ e (by omega) hget hke) hlt2)
    · simp only [if_neg hlt]
      have e : i = j := by omega
      subst e
      exact ⟨hlow, hhigh, hjn⟩

/-- On a table sorted by unique username the binary search reports a record as found
exactly when some record has the username, and the position it returns is the position of
that record. -/
theorem BinarySearchFunc_spec (x : List UserInfo) (target : UserInfo)
    (hs : x.Pairwise (fun a b => a.Username < b.Username)) :
    ((BinarySearchFunc x target (fun a b => Compare a.Username b.Username)).2 = true ↔
      ∃ r ∈ x, r.Username = target.Username) ∧
    (∀ r ∈ x, r.Username = target.Username →
      (BinarySearchFunc x target (fun a b => Compare a.Username b.Username)).2 = true ∧
      x[(BinarySearchFunc x target (fun a b => Compare a.Username b.Username)).1]? = some r) := by
  obtain ⟨hlow, hhigh, hlen⟩ := binarySearchLoop_spec x target hs x.length 0 x.length
    (by omega) (by omega) (by omega) (fun k e hk _ => absurd hk (by omega))
    (fun k e hk hke => by
      obtain ⟨hkl, _⟩ := List.getElem?_eq_some_iff.mp hke
      omega)
  have hpos := sorted_positions x hs
  have hfind : ∀ r ∈ x, r.Username = target.Username →
      x[binarySearchLoop x target (fun a b => Compare a.Username b.Username) x.length 0
        x.length]? = some r := by
    intro r hr hru
    obtain ⟨k, hk⟩ := List.mem_iff_getElem?.mp hr
    have h1 : ¬ k < binarySearchLoop x target (fun a b => Compare a.Username b.Username)
        x.length 0 x.length := by
      intro hlt
      have := hlow k r hlt hk
      rw [hru] at this
      exact lt_irrefl _ this
    by_cases h2 : binarySearchLoop x target (fun a b => Compare a.Username b.Username)
        x.length 0 x.length = k
    · rw [h2]; exact hk
    · exfalso
      obtain ⟨hkl, _⟩ := List.getElem?_eq_some_iff.mp hk
      have hil : binarySearchLoop x target (fun a b => Compare a.Username b.Username)
          x.length 0 x.length < x.length := by omega
      have hge := hhigh _ _ (le_refl _) (List.getElem?_eq_getElem hil)
      have hlt := hpos _ k _ r (by omega) (List.getElem?_eq_getElem hil) hk
      rw [hru] at hlt
      exact hge hlt
  have hfound : ∀ r ∈ x, r.Username = target.Username →
      (BinarySearchFunc x target (fun a b => Compare a.Username b.Username)).2 = true := by
    intro r hr hru
    simp only [BinarySearchFunc, hfind r hr hru]
    exact decide_eq_true ((Compare_zero_iff _ _).mpr hru)
  refine ⟨⟨fun hok => ?_, fun ⟨r, hr, hru⟩ => hfound r hr hru⟩,
    fun r hr hru => ⟨hfound r hr hru, hfind r hr hru⟩⟩
  simp only [BinarySearchFunc] at hok
  cases hg : x[binarySearchLoop x target (fun a b => Compare a.Username b.Username) x.length 0
      x.length]? with
  | none => rw [hg] at hok; exact absurd hok (by simp)
  | some e =>
    rw [hg] at hok
    exact ⟨e, List.mem_iff_getElem?.mpr ⟨_, hg⟩,
      (Compare_zero_iff _ _).mp (of_decide_eq_true hok)⟩

/-- The authorization part of `ServeHTTP` when the credentials are there: without a record
of the username, or with a record whose password differs, it is the 401 of the failed
search or comparison; with the record, it depends on `allow_tunnel` alone. -/
theorem tunnelAuthorize_cases (sys : TunnelSys) (records : List UserInfo)
    (req : TunnelRequest)
    (hsorted : records.Pairwise (fun a b => a.Username < b.Username))
    (hloaded : ∀ r ∈ records, r.AuthError = none)
    (hu : (basicCredentials sys req.Authorization).1 ≠ "")
    (hp : (basicCredentials sys req.Authorization).2 ≠ "") :
    ((∀ r ∈ records, r.Username ≠ (basicCredentials sys req.Authorization).1) →
      tunnelAuthorize sys records req
        = .unauthorized ("invalid username: " ++ (basicCredentials sys req.Authorization).1)) ∧
    (∀ r ∈ records, r.Username = (basicCredentials sys req.Authorization).1 →
      (r.Password ≠ (basicCredentials sys req.Authorization).2 →
        tunnelAuthorize sys records req
          = .unauthorized ("wrong password: " ++ (basicCredentials sys req.Authorization).1)) ∧
      (r.Password = (basicCredentials sys req.Authorization).2 → allowTunnel r ≠ "1" →
        tunnelAuthorize sys records req = .forbidden) ∧
      (r.Password = (basicCredentials sys req.Authorization).2 → allowTunnel r = "1" →
        tunnelAuthorize sys records req = .allowed r)) := by
  have hcred : ¬ ((basicCredentials sys req.Authorization).1 = "" ∨
      (basicCredentials sys req.Authorization).2 = "") := fun h => h.elim hu hp
  obtain ⟨hiff, hfind⟩ := BinarySearchFunc_spec records
    ⟨(basicCredentials sys req.Authorization).1, (basicCredentials sys req.Authorization).2,
      [], none⟩ hsorted
  constructor
  · intro hnone
    have hfalse : (BinarySearchFunc records
        ⟨(basicCredentials sys req.Authorization).1,
          (basicCredentials sys req.Authorization).2, [], none⟩
        (fun a b => Compare a.Username b.Username)).2 = false := by
      cases hb : (BinarySearchFunc records
        ⟨(basicCredentials sys req.Authorization).1,
          (basicCredentials sys req.Authorization).2, [], none⟩
        (fun a b => Compare a.Username b.Username)).2 with
      | false => rfl
      | true =>
        obtain ⟨r, hr, hru⟩ := hiff.mp hb
        exact absurd hru (hnone r hr)
    simp only [tunnelAuthorize, if_neg hcred, hfalse, if_true]
  · intro r hr hru
    obtain ⟨hok, hpos⟩ := hfind r hr hru
    have hne : ¬ ((BinarySearchFunc records
        ⟨(basicCredentials sys req.Authorization).1,
          (basicCredentials sys req.Authorization).2, [], none⟩
        (fun a b => Compare a.Username b.Username)).2 = false) := by
      rw [hok]; exact Bool.noConfusion
    refine ⟨fun hpw => ?_, fun hpw hallow => ?_, fun hpw hallow => ?_⟩
    · have hpw2 : (basicCredentials sys req.Authorization).2 ≠ r.Password :=
        fun e => hpw e.symm
      simp only [tunnelAuthorize, if_neg hcred, if_neg hne, hpos, if_pos hpw2]
    · have hpw2 : ¬ ((basicCredentials sys req.Authorization).2 ≠ r.Password) :=
        fun e => e hpw.symm
      simp only [tunnelAuthorize, if_neg hcred, if_neg hne, hpos, if_neg hpw2,
        hloaded r hr, if_pos hallow]
    · have hpw2 : ¬ ((basicCredentials sys req.Authorization).2 ≠ r.Password) :=
        fun e => e hpw.symm
      have hallow2 : ¬ (allowTunnel r ≠ "1") := fun e => e hallow
      simp only [tunnelAuthorize, if_neg hcred, if_neg hne, hpos, if_neg hpw2,
        hloaded r hr, if_neg hallow2]

/-- C11: for a user table sorted by unique username, as loaded (no record carries an auth
error), and the username `u` and password `p` taken from the `authorization` header:
the answer is 401 when the header is absent or `u` or `p` is empty; 401 when no record has
the username `u`; 401 when the record of `u` has another password; 403 when the record
matches and its `allow_tunnel` is not the string `1`; the handler goes on as the record
when it matches and has `allow_tunnel` equal to `1`, and it listens only in that case. The
binary search finds every record of the table at its position. -/
theorem C11_tunnel_authorization (sys : TunnelSys) (records : List UserInfo)
    (req : TunnelRequest)
    (hsorted : records.Pairwise (fun a b => a.Username < b.Username))
    (hloaded : ∀ r ∈ records, r.AuthError = none) :
    (req.Authorization = "" → (basicCredentials sys req.Authorization).1 = "") ∧
    ((basicCredentials sys req.Authorization).1 = "" ∨
        (basicCredentials sys req.Authorization).2 = "" →
      TunnelServeHTTP sys records req
        = ⟨some (401, "Authorization Required"), none, none, false, false⟩) ∧
    ((basicCredentials sys req.Authorization).1 ≠ "" →
      (basicCredentials sys req.Authorization).2 ≠ "" →
      (∀ r ∈ records, r.Username ≠ (basicCredentials sys req.Authorization).1) →
      TunnelServeHTTP sys records req
        = ⟨some (401, "invalid username: " ++ (basicCredentials sys req.Authorization).1),
            none, none, false, false⟩) ∧
    ((basicCredentials sys req.Authorization).1 ≠ "" →
      (basicCredentials sys req.Authorization).2 ≠ "" →
      ∀ r ∈ records, r.Username = (basicCredentials sys req.Authorization).1 →
      (r.Password ≠ (basicCredentials sys req.Authorization).2 →
        TunnelServeHTTP sys records req
          = ⟨some (401, "wrong password: " ++ (basicCredentials sys req.Authorization).1),
              none, none, false, false⟩) ∧
      (r.Password = (basicCredentials sys req.Authorization).2 → allowTunnel r ≠ "1" →
        TunnelServeHTTP sys records req
          = ⟨some (403, "permission denied"), none, none, false, false⟩) ∧
      (r.Password = (basicCredentials sys req.Authorization).2 → allowTunnel r = "1" →
        tunnelAuthorize sys records req = .allowed r)) ∧
    (∀ addr, (TunnelServeHTTP sys records req).listened = some addr →
      ∃ r ∈ records, r.Username = (basicCredentials sys req.Authorization).1 ∧
        r.Username ≠ "" ∧ r.Password = (basicCredentials sys req.Authorization).2 ∧
        r.Password ≠ "" ∧ allowTunnel r = "1") ∧
    (∀ r ∈ records,
      (BinarySearchFunc records r (fun a b => Compare a.Username b.Username)).2 = true ∧
      records[(BinarySearchFunc records r (fun a b => Compare a.Username b.Username)).1]?
        = some r) := by
  have hempty : (basicCredentials sys req.Authorization).1 = "" ∨
      (basicCredentials sys req.Authorization).2 = "" →
      tunnelAuthorize sys records req = .unauthorized "Authorization Required" := by
    intro h
    simp only [tunnelAuthorize, if_pos h]
  refine ⟨fun h => by simp [basicCredentials, h], fun h => ?_, fun hu hp hnone => ?_,
    fun hu hp r hr hru => ⟨fun hpw => ?_, fun hpw hallow => ?_, fun hpw hallow => ?_⟩,
    fun addr hl => ?_,
    fun r hr => (BinarySearchFunc_spec records r hsorted).2 r hr rfl⟩
  · simp only [TunnelServeHTTP, hempty h]
  · simp only [TunnelServeHTTP,
      (tunnelAuthorize_cases sys records req hsorted hloaded hu hp).1 hnone]
  · simp only [TunnelServeHTTP,
      ((tunnelAuthorize_cases sys records req hsorted hloaded hu hp).2 r hr hru).1 hpw]
  · simp only [TunnelServeHTTP,
      ((tunnelAuthorize_cases sys records req hsorted hloaded hu hp).2 r hr hru).2.1 hpw
        hallow]
  · exact ((tunnelAuthorize_cases sys records req hsorted hloaded hu hp).2 r hr hru).2.2 hpw
      hallow
  · by_cases hcred : (basicCredentials sys req.Authorization).1 = "" ∨
        (basicCredentials sys req.Authorization).2 = ""
    · simp [TunnelServeHTTP, hempty hcred] at hl
    · have hu : (basicCredentials sys req.Authorization).1 ≠ "" := fun e => hcred (Or.inl e)
      have hp : (basicCredentials sys req.Authorization).2 ≠ "" := fun e => hcred (Or.inr e)
      obtain ⟨hnone, hsome⟩ := tunnelAuthorize_cases sys records req hsorted hloaded hu hp
      by_cases hex : ∃ r ∈ records, r.Username = (basicCredentials sys req.Authorization).1
      · obtain ⟨r, hr, hru⟩ := hex
        obtain ⟨h1, h2, _⟩ := hsome r hr hru
        by_cases hpw : r.Password = (basicCredentials sys req.Authorization).2
        · by_cases hallow : allowTunnel r = "1"
          · exact ⟨r, hr, hru, by rw [hru]; exact hu, hpw, by rw [hpw]; exact hp, hallow⟩
          · simp [TunnelServeHTTP, h2 hpw hallow] at hl
        · simp [TunnelServeHTTP, h1 hpw] at hl
      · have hno : ∀ r ∈ records, r.Username ≠ (basicCredentials sys req.Authorization).1 :=
          fun r hr e => hex ⟨r, hr, e⟩
        simp [TunnelServeHTTP, hnone hno] at hl

/-- C11, witness: in the sample table `alice` with her password is let through, and the
binary search finds `carol` at position 2. -/
theorem C11_tunnel_authorization_witness :
    tunnelAuthorize tunnelSysPlain tunnelUsers tunnelRequestAlice
      = .allowed ⟨"alice", "pw1", [("allow_tunnel", .str "1")], none⟩ ∧
    tunnelUsers[(BinarySearchFunc tunnelUsers ⟨"carol", "pw3", [], none⟩
      (fun a b => Compare a.Username b.Username)).1]? = some ⟨"carol", "pw3", [], none⟩ :=
  have k := C11_tunnel_authorization tunnelSysPlain tunnelUsers tunnelRequestAlice
    (by
      simp only [tunnelUsers, List.pairwise_cons, List.mem_cons, List.mem_singleton,
        forall_eq_or_imp, forall_eq, List.not_mem_nil, false_imp_iff, implies_true,
        List.Pairwise.nil, and_true, String.lt_iff_toList_lt]
      decide)
    (by decide)
  ⟨(k.2.2.2.1 (by decide) (by decide) ⟨"alice", "pw1", [("allow_tunnel", .str "1")], none⟩
      (by decide) (by decide)).2.2 (by decide) (by decide),
    (k.2.2.2.2.2 ⟨"carol", "pw3", [], none⟩ (by decide)).2⟩

/-! ## Reverse-tunnel server handler: upgrade response -/

/-- C12: whenever `ServeHTTP` writes its response to a request with `Connection: Upgrade`
(or `upgrade`) and `Upgrade: websocket`, the response is the 101 status line, the header
`sec-websocket-accept` with the base64 text of the SHA-1 of the request key followed by
the websocket GUID, the headers `connection: Upgrade` and `upgrade: websocket`, and a blank
line; for the key `dGhlIHNhbXBsZSBub25jZQ==` the value is `s3pPLMBiTxaQ9kYGzzhZRbK+xOo=`. -/
theorem C12_websocket_accept (sys : TunnelSys) (records : List UserInfo)
    (req : TunnelRequest) (b : String)
    (hconn : req.Connection = "Upgrade" ∨ req.Connection = "upgrade")
    (hup : req.Upgrade = "websocket")
    (hw : (TunnelServeHTTP sys records req).written = some b) :
    b = "HTTP/1.1 101 Switching Protocols\r\n" ++ "sec-websocket-accept: " ++
        EncodeToString (sha1Sum (utf8 (req.SecWebSocketKey ++
          "258EAFA5-E914-47DA-95CA-C5AB0DC85B11"))) ++ "\r\n" ++
        "connection: Upgrade\r\n" ++ "upgrade: websocket\r\n" ++ "\r\n" ∧
    websocketAccept "dGhlIHNhbXBsZSBub25jZQ==" = "s3pPLMBiTxaQ9kYGzzhZRbK+xOo=" := by
  have hresp : upgradeResponse req
      = "HTTP/1.1 101 Switching Protocols\r\n" ++ "sec-websocket-accept: " ++
        EncodeToString (sha1Sum (utf8 (req.SecWebSocketKey ++
          "258EAFA5-E914-47DA-95CA-C5AB0DC85B11"))) ++ "\r\n" ++
        "connection: Upgrade\r\n" ++ "upgrade: websocket\r\n" ++ "\r\n" := by
    have hc : req.Connection = "upgrade" ∨ req.Connection = "Upgrade" := hconn.symm
    simp only [upgradeResponse, if_pos hc, if_pos hup, websocketAccept, websocketGUID,
      String.append_assoc]
  refine ⟨?_, by decide⟩
  rw [← hresp]
  unfold TunnelServeHTTP at hw
  cases ha : tunnelAuthorize sys records req with
  | unauthorized text => rw [ha] at hw; simp at hw
  | forbidden => rw [ha] at hw; simp at hw
  | allowed user =>
    rw [ha] at hw
    cases hb : bindAddress req.Path with
    | none => rw [hb] at hw; simp at hw
    | some addr =>
      rw [hb] at hw
      simp only at hw
      split_ifs at hw <;> simp_all

/-- C12, witness: the run of `alice` with the sample key of RFC 6455 writes the accept
value `s3pPLMBiTxaQ9kYGzzhZRbK+xOo=`. -/
theorem C12_websocket_accept_witness :
    (TunnelServeHTTP tunnelSysPlain tunnelUsers tunnelRequestAlice).written
      = some ("HTTP/1.1 101 Switching Protocols\r\nsec-websocket-accept: " ++
          "s3pPLMBiTxaQ9kYGzzhZRbK+xOo=\r\nconnection: Upgrade\r\n" ++
          "upgrade: websocket\r\n\r\n") ∧
    websocketAccept "dGhlIHNhbXBsZSBub25jZQ==" = "s3pPLMBiTxaQ9kYGzzhZRbK+xOo=" :=
  ⟨by decide,
    (C12_websocket_accept tunnelSysPlain tunnelUsers tunnelRequestAlice
      ("HTTP/1.1 101 Switching Protocols\r\nsec-websocket-accept: " ++
          "s3pPLMBiTxaQ9kYGzzhZRbK+xOo=\r\nconnection: Upgrade\r\n" ++
          "upgrade: websocket\r\n\r\n")
      (Or.inl rfl) rfl (by decide)).2⟩

/-- C13: a request of `alice` with `Connection: Upgrade` and `Upgrade: h2c` (and likewise
with no `Upgrade` header) is answered by a 101 status line and a blank line only, with
neither a `connection` nor an `upgrade` header: the inner switch on the `Upgrade` header
has the cases `websocket` and `reverse` and no default. The other cases are as described:
`reverse` gives both headers, another `Connection` value gives the 200 response. -/
theorem C13_upgrade_without_headers :
    (TunnelServeHTTP tunnelSysPlain tunnelUsers
        { tunnelRequestAlice with Upgrade := "h2c" }).written
      = some "HTTP/1.1 101 Switching Protocols\r\n\r\n" ∧
    (∀ auth key path, upgradeResponse ⟨auth, "Upgrade", "", key, path⟩
      = "HTTP/1.1 101 Switching Protocols\r\n\r\n") ∧
    (∀ auth key path, upgradeResponse ⟨auth, "upgrade", "reverse", key, path⟩
      = "HTTP/1.1 101 Switching Protocols\r\nconnection: Upgrade\r\nupgrade: reverse\r\n\r\n") ∧
    (∀ auth up key path, upgradeResponse ⟨auth, "keep-alive", up, key, path⟩
      = "HTTP/1.1 200 OK\r\n\r\n") :=
  ⟨by decide, fun _ _ _ => rfl, fun _ _ _ => rfl, fun _ _ _ _ => rfl⟩

/-! ## Reverse-tunnel bind address -/

theorem splitRunes_ne_nil (sep : Char) (l : List Char) : splitRunes sep l ≠ [] := by
  cases l with
  | nil => simp [splitRunes]
  | cons c cs =>
    unfold splitRunes
    split_ifs
    · simp
    · split <;> simp

theorem splitRunes_append (sep : Char) (a rest : List Char) (ha : sep ∉ a) :
    splitRunes sep (a ++ sep :: rest) = a :: splitRunes sep rest := by
  induction a with
  | nil => simp [splitRunes]
  | cons c cs ih =>
    have hc : c ≠ sep := fun e => ha (by simp [e])
    have hcs : sep ∉ cs := fun e => ha (by simp [e])
    have e : splitRunes sep ((c :: cs) ++ sep :: rest)
        = (match splitRunes sep (cs ++ sep :: rest) with
          | [] => [[c]]
          | part :: parts => (c :: part) :: parts) := by
      simp only [List.cons_append, splitRunes, if_neg hc]
      rfl
    rw [e, ih hcs]

theorem tunnelRequestPath_split (host port : String)
    (hhost : '/' ∉ host.data) (hport : '/' ∉ port.data) :
    Split (tunnelRequestPath host port) '/'
      = ["", ".well-known", "reverse", "tcp", host, port, ""] := by
  have hd : (tunnelRequestPath host port).data
      = [] ++ '/' :: (".well-known".data ++ '/' :: ("reverse".data ++ '/' ::
          ("tcp".data ++ '/' :: (host.data ++ '/' :: (port.data ++ '/' :: []))))) := by
    simp [tunnelRequestPath, String.data_append]
  unfold Split
  rw [hd, splitRunes_append _ _ _ (by simp), splitRunes_append _ _ _ (by decide),
    splitRunes_append _ _ _ (by decide), splitRunes_append _ _ _ (by decide),
    splitRunes_append _ _ _ hhost, splitRunes_append _ _ _ hport]
  simp [splitRunes]

/-- C14: for every host and port without a slash, the server takes from the path
`/.well-known/reverse/tcp/{host}/{port}/` that the tunnel client builds the bind address
`JoinHostPort(host, port)`, and a run of `ServeHTTP` that passes the authorization listens
on that address when it can be opened. -/
theorem C14_bind_address_round_trip (host port : String)
    (hhost : '/' ∉ host.data) (hport : '/' ∉ port.data) :
    bindAddress (tunnelRequestPath host port) = some (JoinHostPort host port) ∧
    ∀ (sys : TunnelSys) (records : List UserInfo) (req : TunnelRequest) (user : UserInfo),
      req.Path = tunnelRequestPath host port →
      tunnelAuthorize sys records req = .allowed user →
      sys.listenOK (JoinHostPort host port) = true →
      (TunnelServeHTTP sys records req).listened = some (JoinHostPort host port) := by
  have hb : bindAddress (tunnelRequestPath host port) = some (JoinHostPort host port) := by
    simp [bindAddress, tunnelRequestPath_split host port hhost hport]
  refine ⟨hb, fun sys records req user hpath hauth hlisten => ?_⟩
  unfold TunnelServeHTTP
  rw [hauth, hpath, hb]
  simp only [hlisten]
  split_ifs <;> first | rfl | simp_all

/-- C14, witness: the path for `::1` and port 9000 gives the bind address `[::1]:9000`,
and the run of `alice` for 127.0.0.1 and port 9000 listens on `127.0.0.1:9000`. -/
theorem C14_bind_address_round_trip_witness :
    bindAddress "/.well-known/reverse/tcp/::1/9000/" = some "[::1]:9000" ∧
    (TunnelServeHTTP tunnelSysPlain tunnelUsers tunnelRequestAlice).listened
      = some "127.0.0.1:9000" :=
  ⟨(C14_bind_address_round_trip "::1" "9000" (by decide) (by decide)).1,
    (C14_bind_address_round_trip "127.0.0.1" "9000" (by decide) (by decide)).2
      tunnelSysPlain tunnelUsers tunnelRequestAlice
      ⟨"alice", "pw1", [("allow_tunnel", .str "1")], none⟩ rfl (by decide) rfl⟩

/-! ## Keepalive prober -/

theorem failRun_snoc (pre : List Bool) (ok : Bool) :
    failRun (pre ++ [ok]) = if ok = true then 0 else failRun pre + 1 := by
  cases ok <;> simp [failRun, List.takeWhile]

theorem prober_shift (pre rest : List Bool) (ok : Bool) (n : Nat)
    (hpre : failRun pre < 3) (hnext : failRun (pre ++ [ok]) < 3) :
    (pre.length < n ∧ n ≤ pre.length + (ok :: rest).length ∧
        3 ≤ failRun ((pre ++ ok :: rest).take n) ∧
        ∀ m, pre.length ≤ m → m < n → failRun ((pre ++ ok :: rest).take m) < 3) ↔
    ((pre ++ [ok]).length < n ∧ n ≤ (pre ++ [ok]).length + rest.length ∧
        3 ≤ failRun (((pre ++ [ok]) ++ rest).take n) ∧
        ∀ m, (pre ++ [ok]).length ≤ m → m < n →
          failRun (((pre ++ [ok]) ++ rest).take m) < 3) := by
  have happ : (pre ++ [ok]) ++ rest = pre ++ ok :: rest := by simp
  have hlen : (pre ++ [ok]).length = pre.length + 1 := by simp
  have htake1 : (pre ++ ok :: rest).take (pre.length + 1) = pre ++ [ok] := by
    rw [← happ, ← hlen, List.take_left]
  have htake0 : (pre ++ ok :: rest).take pre.length = pre := List.take_left _ _
  rw [happ, hlen]
  simp only [List.length_cons]
  constructor
  · rintro ⟨h1, h2, h3, h4⟩
    have hne : n ≠ pre.length + 1 := by
      intro e
      rw [e, htake1] at h3
      omega
    exact ⟨by omega, by omega, h3, fun m hm hmn => h4 m (by omega) hmn⟩
  · rintro ⟨h1, h2, h3, h4⟩
    refine ⟨by omega, by omega, h3, fun m hm hmn => ?_⟩
    by_cases e : m = pre.length
    · rw [e, htake0]; exact hpre
    · exact h4 m (by omega) hmn

theorem proberLoop_spec (rest : List Bool) :
    ∀ (pre : List Bool) (d n : Nat), failRun pre < 3 →
      (proberLoop (failRun pre) d rest pre.length = some n ↔
        (pre.length < n ∧ n ≤ pre.length + rest.length ∧
          3 ≤ failRun ((pre ++ rest).take n) ∧
          ∀ m, pre.length ≤ m → m < n → failRun ((pre ++ rest).take m) < 3)) := by
  induction rest with
  | nil =>
    intro pre d n _
    simp only [proberLoop, List.length_nil, Nat.add_zero]
    constructor
    · intro h; cases h
    · rintro ⟨h1, h2, _⟩; omega
  | cons ok rest ih =>
    intro pre d n hpre
    have hsnoc := failRun_snoc pre ok
    have happ : (pre ++ [ok]) ++ rest = pre ++ ok :: rest := by simp
    have hlen : (pre ++ [ok]).length = pre.length + 1 := by simp
    have htake1 : (pre ++ ok :: rest).take (pre.length + 1) = pre ++ [ok] := by
      rw [← happ, ← hlen, List.take_left]
    cases ok with
    | true =>
      have hnext : failRun (pre ++ [true]) < 3 := by rw [hsnoc]; simp
      have h0 : failRun (pre ++ [true]) = 0 := by rw [hsnoc]; simp
      rw [prober_shift pre rest true n hpre hnext, ← ih (pre ++ [true]) 10 n hnext, h0, hlen]
      simp [proberLoop]
    | false =>
      have h1 : failRun (pre ++ [false]) = failRun pre + 1 := by rw [hsnoc]; simp
      by_cases h3 : failRun pre + 1 = 3
      · have hrun : proberLoop (failRun pre) d (false :: rest) pre.length
            = some (pre.length + 1) := by
          simp [proberLoop, h3]
        rw [hrun]
        constructor
        · intro e
          have e' : n = pre.length + 1 := by simpa using e.symm
          subst e'
          refine ⟨by omega, by simp, by rw [htake1, h1]; omega, fun m hm hmn => ?_⟩
          have em : m = pre.length := by omega
          rw [em, List.take_left]; exact hpre
        · rintro ⟨k1, k2, k3, k4⟩
          by_cases e : n = pre.length + 1
          · rw [e]
          · have := k4 (pre.length + 1) (by omega) (by omega)
            rw [htake1, h1] at this
            omega
      · have hnext : failRun (pre ++ [false]) < 3 := by rw [h1]; omega
        rw [prober_shift pre rest false n hpre hnext, ← ih (pre ++ [false]) 5 n hnext, h1, hlen]
        simp [proberLoop, h3]

theorem prober_spec (probes : List Bool) (n : Nat) :
    prober probes = some n ↔
      n ≤ probes.length ∧ 3 ≤ failRun (probes.take n) ∧
        ∀ m, m < n → failRun (probes.take m) < 3 := by
  have h := proberLoop_spec probes [] 10 n (by decide)
  have e : prober probes = proberLoop (failRun []) 10 probes ([] : List Bool).length := rfl
  rw [e, h]
  simp only [List.length_nil, List.nil_append, Nat.zero_add, Nat.zero_le, true_implies]
  constructor
  · rintro ⟨_, h2, h3, h4⟩; exact ⟨h2, h3, h4⟩
  · rintro ⟨h2, h3, h4⟩
    refine ⟨?_, h2, h3, h4⟩
    rcases Nat.eq_zero_or_pos n with e0 | hp
    · subst e0; simp [failRun] at h3
    · exact hp

/-- C15: over any sequence of probe outcomes the prober signals exit after `n` probes
exactly when `n` is the first length at which the outcomes end in three failures in a row
(`failRun` counts the failures at the end of a sequence); a successful probe puts the
count back to 0, so two failures, a success and two failures do not end the session, and
two more failures end it at the sixth probe. -/
theorem C15_prober_three_failures (probes : List Bool) (n : Nat) :
    (prober probes = some n ↔
      n ≤ probes.length ∧ 3 ≤ failRun (probes.take n) ∧
        ∀ m, m < n → failRun (probes.take m) < 3) ∧
    (∀ count duration done, proberLoop count duration (true :: probes) done
      = proberLoop 0 10 probes (done + 1)) ∧
    prober [false, false, true, false, false] = none ∧
    prober [false, false, true, false, false, false, false] = some 6 ∧
    prober [false, false, false] = some 3 :=
  ⟨prober_spec probes n, fun _ _ _ => rfl, by decide, by decide, by decide⟩

/-! ## Tunnel client: reconnect delay and dial port -/

theorem Fastrandn_lt (draw n : Nat) (hn : 0 < n) (hn32 : n < 2 ^ 32) : Fastrandn draw n < n := by
  unfold Fastrandn
  rw [Nat.mod_eq_of_lt hn32]
  apply Nat.div_lt_of_lt_mul
  have h : draw % 2 ^ 32 < 2 ^ 32 := Nat.mod_lt _ (by norm_num)
  exact Nat.mul_lt_mul_of_pos_right h hn

theorem Fastrandn_attained (n k : Nat) (hk : k < n) (hn : n < 2 ^ 32) :
    Fastrandn ((k * 2 ^ 32 + (n - 1)) / n) n = k := by
  have hn0 : 0 < n := by omega
  have hle : (k * 2 ^ 32 + (n - 1)) / n * n ≤ k * 2 ^ 32 + (n - 1) := Nat.div_mul_le_self _ _
  have hgt : k * 2 ^ 32 + (n - 1) < n * ((k * 2 ^ 32 + (n - 1)) / n + 1) :=
    Nat.lt_mul_div_succ _ hn0
  have hkn : k * 2 ^ 32 + 2 ^ 32 ≤ n * 2 ^ 32 := by
    have : (k + 1) * 2 ^ 32 ≤ n * 2 ^ 32 := Nat.mul_le_mul_right _ hk
    rw [Nat.add_mul] at this
    omega
  have hD : (k * 2 ^ 32 + (n - 1)) / n < 2 ^ 32 := by
    rw [Nat.div_lt_iff_lt_mul hn0]
    rw [Nat.mul_comm] at hkn
    omega
  unfold Fastrandn
  rw [Nat.mod_eq_of_lt hn, Nat.mod_eq_of_lt hD]
  generalize (k * 2 ^ 32 + (n - 1)) / n = D at *
  rw [Nat.mul_add, Nat.mul_one, Nat.mul_comm n D] at hgt
  apply Nat.div_eq_of_lt_le
  · omega
  · rw [Nat.succ_mul]; omega

theorem reconnectDelay_eq (r : Nat) (hr : r < 10) :
    reconnectDelay r = (5 + (r : Int)) * Second := by
  unfold reconnectDelay wrapInt64 Second
  have h1 : (5 + r) % 2 ^ 32 = 5 + r := Nat.mod_eq_of_lt (by omega)
  rw [h1]
  push_cast
  omega

/-- C16: for every value `r < 10` returned by the random source the delay of the reconnect
loop is `5 + r` seconds, between 5 s and 14 s; the random source returns a value below 10
for every random word, and every whole number of seconds from 5 to 14 is the delay for
some random word. -/
theorem C16_reconnect_delay (r : Nat) (hr : r < 10) :
    reconnectDelay r = (5 + (r : Int)) * Second ∧
    5 * Second ≤ reconnectDelay r ∧ reconnectDelay r ≤ 14 * Second ∧
    (∀ draw, Fastrandn draw 10 < 10) ∧
    (∀ k : Nat, 5 ≤ k → k ≤ 14 →
      ∃ draw, draw < 2 ^ 32 ∧ reconnectDelay (Fastrandn draw 10) = (k : Int) * Second) := by
  have he := reconnectDelay_eq r hr
  refine ⟨he, ?_, ?_, fun draw => Fastrandn_lt draw 10 (by decide) (by decide),
    fun k h5 h14 => ?_⟩
  · rw [he]; unfold Second; omega
  · rw [he]; unfold Second; omega
  · have hk : k - 5 < 10 := by omega
    refine ⟨((k - 5) * 2 ^ 32 + (10 - 1)) / 10, ?_, ?_⟩
    · omega
    · rw [Fastrandn_attained 10 (k - 5) hk (by decide), reconnectDelay_eq (k - 5) hk]
      have : ((k - 5 : Nat) : Int) = (k : Int) - 5 := by omega
      rw [this]; ring

/-- C16, witness: the largest value 9 of the random source gives a delay of 14 s. -/
theorem C16_reconnect_delay_witness :
    reconnectDelay 9 = (5 + ((9 : Nat) : Int)) * Second ∧ reconnectDelay 9 = 14000000000 :=
  ⟨(C16_reconnect_delay 9 (by decide)).1, by decide⟩

/-- C17: a dialer URL with the scheme `http` and no port is dialled on port 443, not 80:
the case of the switch reads `"http,"` (with a comma), which no scheme equals. The scheme
`ws` gives 80, `https` and `wss` give 443, and an explicit port is used unchanged. -/
theorem C17_http_default_port :
    dialPort "http" "" = "443" ∧
    dialPort "ws" "" = "80" ∧
    dialPort "https" "" = "443" ∧
    dialPort "wss" "" = "443" ∧
    dialPort "http" "8080" = "8080" ∧
    (∀ scheme port, port ≠ "" → dialPort scheme port = port) :=
  ⟨by decide, by decide, by decide, by decide, by decide,
    fun scheme port h => by unfold dialPort; rw [if_neg h]⟩

/-! ## HTTP/2 dialer: slot choice and pool construction -/

theorem slotCount_range (m : Nat) :
    1 ≤ slotCount m ∧ slotCount m ≤ 63 ∧
      slotCount m ≤ min (if m = 0 then 8 else (m : Int)) 64 := by
  unfold slotCount DefaultHTTP2DialerMaxClients
  by_cases h0 : m = 0
  · subst h0; simp
  · have h0' : (m : Int) ≠ 0 := by exact_mod_cast h0
    simp only [if_neg h0', if_neg h0]
    split_ifs with h <;> omega

theorem slotIndex_lt (m draw : Nat) : (slotIndex m draw : Int) < slotCount m := by
  obtain ⟨h1, h2, _⟩ := slotCount_range m
  unfold slotIndex
  have e : slotCount m % 2 ^ 32 = slotCount m := Int.emod_eq_of_lt (by omega) (by omega)
  rw [e]
  have := Fastrandn_lt draw (slotCount m).toNat (by omega) (by omega)
  omega

theorem slotIndex_attained (N k : Nat) (h1 : 1 ≤ N) (h63 : N ≤ 63) (hk : k < N) :
    slotIndex N ((k * 2 ^ 32 + (N - 1)) / N) = k := by
  have hc : slotCount N = N := by
    unfold slotCount DefaultHTTP2DialerMaxClients
    have h0 : (N : Int) ≠ 0 := by omega
    simp only [if_neg h0]
    rw [if_pos (by omega)]
  unfold slotIndex
  rw [hc]
  have e : ((N : Int) % 2 ^ 32).toNat = N := by omega
  rw [e]
  exact Fastrandn_attained N k hk (by omega)

/-- C18: for every `MaxClients >= 0` and every random word the slot index is below 64 and
below `min(m, 64)`, with `m` the value of `MaxClients`, or 8 when it is 0. But more than
`min(m, 64)` transports can be created: with `MaxClients = 1`, two calls that both test
slot 0 before either takes the mutex make two transports for the one slot. -/
theorem C18_slot_index_bound_and_transport_count :
    (∀ m draw : Nat, slotIndex m draw < 64 ∧
      (slotIndex m draw : Int) < min (if m = 0 then 8 else (m : Int)) 64) ∧
    (runCalls (dialStart 1 [0, 4294967295]) raceSchedule).map
        (fun s => (s.created, s.calls.map (fun call => call.n)))
      = some (2, [0, 0]) ∧
    min (1 : Int) 64 = 1 := by
  refine ⟨fun m draw => ?_, by decide, by decide⟩
  have h := slotIndex_lt m draw
  obtain ⟨_, h2, h3⟩ := slotCount_range m
  exact ⟨by omega, lt_of_lt_of_le h h3⟩

/-- C19: with `MaxClients = 64` the dialer draws from one slot, not from 64: the test
`maxClient < len(d.clients)` is false for 64, so every call uses slot 0. For
`1 <= N <= 63`, and for `MaxClients = 0` with 8 slots, every slot below `N` is chosen for
some random word. The slot is the high word of the product of the random word and `N`,
not the remainder: the random word 9 gives slot 0 of 8. -/
theorem C19_pool_of_64_uses_one_slot :
    slotCount 64 = 1 ∧
    (∀ draw, slotIndex 64 draw = 0) ∧
    (∀ N k : Nat, 1 ≤ N → N ≤ 63 → k < N → ∃ draw, draw < 2 ^ 32 ∧ slotIndex N draw = k) ∧
    slotCount 0 = 8 ∧
    (∀ k : Nat, k < 8 → ∃ draw, draw < 2 ^ 32 ∧ slotIndex 0 draw = k) ∧
    slotIndex 8 9 = 0 := by
  refine ⟨by decide, fun draw => ?_, fun N k h1 h63 hk => ?_, by decide, fun k hk => ?_,
    by decide⟩
  · have h : (slotIndex 64 draw : Int) < slotCount 64 := slotIndex_lt 64 draw
    have e : slotCount 64 = 1 := by decide
    rw [e] at h
    omega
  · refine ⟨(k * 2 ^ 32 + (N - 1)) / N, ?_, slotIndex_attained N k h1 h63 hk⟩
    rw [Nat.div_lt_iff_lt_mul (by omega)]
    have : (k + 1) * 2 ^ 32 ≤ N * 2 ^ 32 := Nat.mul_le_mul_right _ hk
    rw [Nat.add_mul] at this
    rw [Nat.mul_comm (2 ^ 32) N]
    omega
  · have e : ∀ draw, slotIndex 0 draw = slotIndex 8 draw := fun _ => rfl
    refine ⟨(k * 2 ^ 32 + (8 - 1)) / 8, by omega, ?_⟩
    rw [e]
    exact slotIndex_attained 8 k (by decide) (by decide) hk

/-- C20: two first-time calls for slot 5 that both test `d.clients[5] == nil` before
either takes the mutex construct the transport of the slot twice: after the first call
has stored transport 0 and returned with it, the second call takes the mutex, constructs
transport 1 and overwrites the slot; nothing tests the slot again under the mutex. When
the second call starts after the first has returned, one transport is constructed and
both calls use it. -/
theorem C20_slot_constructed_twice :
    (runCalls (dialStart 8 [3000000000, 3000000000]) raceSchedule).map
        (fun s => (s.created, s.d.clients[5]?, s.calls))
      = some (2, some (some 1), [⟨5, .returned (some 0)⟩, ⟨5, .returned (some 1)⟩]) ∧
    (runCalls (dialStart 8 [3000000000, 3000000000]) serialSchedule).map
        (fun s => (s.created, s.d.clients[5]?, s.calls))
      = some (1, some (some 0), [⟨5, .returned (some 0)⟩, ⟨5, .returned (some 0)⟩]) :=
  ⟨by decide, by decide⟩

/-! ## SOCKS handler: credentials buffer and second policy evaluation -/

/-- C27: a username/password message with `ulen = 255` and `plen = 255` makes the
password slice `b[258:513]` of the 512-byte buffer `b`, which is out of range: `ServeConn`
panics. The username slice is always in range, and the password slice is in range
whenever `3 + ulen + plen <= 512`, that is for all lengths but the pair (255, 255). -/
theorem C27_password_slice_out_of_range :
    (ServeConn socksSysPlain socksPlain "10.0.0.1:4000" "10.0.0.1" "10.0.0.2:1080"
        ⟨[some [5, 1, 2], some longCredentials], [], true⟩).outcome = .panicked ∧
    (∀ b : Bytes, b.length = 512 → byteAt b 1 = 255 → byteAt b 257 = 255 →
      slice b (3 + byteAt b 1) (3 + byteAt b 1 + byteAt b (2 + byteAt b 1)) = none) ∧
    (∀ b : Bytes, b.length = 512 → byteAt b 1 ≤ 255 →
      (slice b 2 (2 + byteAt b 1)).isSome = true) ∧
    (∀ b : Bytes, b.length = 512 →
      3 + byteAt b 1 + byteAt b (2 + byteAt b 1) ≤ 512 →
      (slice b (3 + byteAt b 1) (3 + byteAt b 1 + byteAt b (2 + byteAt b 1))).isSome
        = true) := by
  refine ⟨by decide, fun b hb h1 h2 => ?_, fun b hb h1 => ?_, fun b hb h => ?_⟩
  · rw [h1]
    have e : byteAt b (2 + 255) = 255 := h2
    rw [e]
    unfold slice
    rw [if_neg (by omega)]
  · unfold slice
    rw [if_pos (by omega)]
    rfl
  · unfold slice
    rw [if_pos (by omega)]
    rfl

theorem secondPolicy_require_auth (sys : SocksSys) (h : SocksHandler) (s : SocksState)
    (t : SocksRequest → Except String String) (out : String)
    (ht : h.PolicyTemplate = some t) (hout : t s.req = .ok out)
    (hreq : TrimSpace out = "require_auth" ∨ TrimSpace out = "require_socks_auth") :
    secondPolicy sys h s
      = ⟨.closed, { s with
          conn := (WriteSocks5Status s.conn Socks5StatusConnectionNotAllowedByRuleset).1 }⟩ := by
  unfold secondPolicy
  rw [ht]
  simp only [hout]
  split_ifs <;> rfl

theorem requestStep_not_dialed (sys : SocksSys) (h : SocksHandler)
    (t : SocksRequest → Except String String) (ht : h.PolicyTemplate = some t)
    (hall : ∀ req, ∃ out, t req = .ok out ∧
      (TrimSpace out = "require_auth" ∨ TrimSpace out = "require_socks_auth"))
    (s : SocksState) :
    (requestStep sys h s).outcome = .closed ∨ (requestStep sys h s).outcome = .panicked := by
  have hsec : ∀ s', (secondPolicy sys h s').outcome = .closed := by
    intro s'
    obtain ⟨out, ho, hr⟩ := hall s'.req
    rw [secondPolicy_require_auth sys h s' t out ht ho hr]
  unfold requestStep
  simp only
  split_ifs <;> first | exact Or.inl rfl | skip
  all_goals (split <;> first | exact Or.inr rfl | skip)
  all_goals first
    | exact Or.inl (hsec _)
    | (split_ifs <;> first | exact Or.inl rfl | exact Or.inl (hsec _))

/-- C28: when the policy output of the second evaluation trims to `require_auth` or
`require_socks_auth`, the handler writes the reply with status 0x02 and returns without
dialing, whatever the auth info of the request is; and with a policy that gives one of
the two outputs for every request, no run of `ServeConn` reaches the dial. -/
theorem C28_second_require_auth_rejects (sys : SocksSys) (h : SocksHandler)
    (t : SocksRequest → Except String String) (ht : h.PolicyTemplate = some t) :
    (∀ (s : SocksState) (out : String), t s.req = .ok out →
      (TrimSpace out = "require_auth" ∨ TrimSpace out = "require_socks_auth") →
      secondPolicy sys h s
        = ⟨.closed, { s with conn := { s.conn with
            output := s.conn.output ++ [[0x05, 0x02, 0, 1, 0, 0, 0, 0, 0, 0]] } }⟩) ∧
    ((∀ req, ∃ out, t req = .ok out ∧
        (TrimSpace out = "require_auth" ∨ TrimSpace out = "require_socks_auth")) →
      ∀ remoteAddr remoteIP serverAddr conn,
        (ServeConn sys h remoteAddr remoteIP serverAddr conn).outcome = .closed ∨
        (ServeConn sys h remoteAddr remoteIP serverAddr conn).outcome = .panicked) := by
  refine ⟨fun s out ho hr => ?_, fun hall remoteAddr remoteIP serverAddr conn => ?_⟩
  · rw [secondPolicy_require_auth sys h s t out ht ho hr]
    rfl
  · unfold ServeConn
    cases hg : greetingStep remoteAddr remoteIP serverAddr conn with
    | stop r =>
      simp only
      unfold greetingStep at hg
      simp only at hg
      split_ifs at hg
      · cases hg; exact Or.inl rfl
    | go s =>
      simp only
      cases hf : firstPolicy h s.req with
      | none => exact Or.inl rfl
      | some bypassAuth =>
        simp only
        cases ha : socksAuthStep h bypassAuth s with
        | go s1 => exact requestStep_not_dialed sys h t ht hall s1
        | stop r =>
          simp only
          unfold socksAuthStep at ha
          simp only at ha
          split_ifs at ha
          · cases ha; exact Or.inl rfl
          · cases ha; exact Or.inl rfl
          · split at ha
            · cases ha; exact Or.inr rfl
            · split at ha
              · cases ha; exact Or.inr rfl
              · split at ha
                · cases ha
                · split at ha
                  · cases ha; exact Or.inl rfl
                  · cases ha

/-- C28, witness: a client that authenticates as `u` with the right password and asks for
`example.com:80` gets the reply with status 0x02 from the handler whose policy always
prints `require_auth`. -/
theorem C28_second_require_auth_rejects_witness :
    ((ServeConn socksSysPlain socksRequireAuth "10.0.0.1:4000" "10.0.0.1" "10.0.0.2:1080"
        ⟨[some [5, 1, 2], some [1, 1, 117, 1, 112],
          some ([5, 1, 0, 3, 11] ++ ascii "example.com" ++ [0, 80])], [], true⟩).outcome
      = .closed ∨
    (ServeConn socksSysPlain socksRequireAuth "10.0.0.1:4000" "10.0.0.1" "10.0.0.2:1080"
        ⟨[some [5, 1, 2], some [1, 1, 117, 1, 112],
          some ([5, 1, 0, 3, 11] ++ ascii "example.com" ++ [0, 80])], [], true⟩).outcome
      = .panicked) ∧
    (ServeConn socksSysPlain socksRequireAuth "10.0.0.1:4000" "10.0.0.1" "10.0.0.2:1080"
        ⟨[some [5, 1, 2], some [1, 1, 117, 1, 112],
          some ([5, 1, 0, 3, 11] ++ ascii "example.com" ++ [0, 80])], [], true⟩).state.conn.output
      = [[5, 2], [5, 0], [5, 2, 0, 1, 0, 0, 0, 0, 0, 0]] :=
  ⟨(C28_second_require_auth_rejects socksSysPlain socksRequireAuth
      (fun _ => .ok "require_auth\n") rfl).2
      (fun _ => ⟨"require_auth\n", rfl, Or.inl (by decide)⟩) _ _ _ _,
    by decide⟩

/-! ## Reverse-tunnel server handler: failed hijack and failed write -/

/-- C30: when `Hijack` fails the handler does not stop: it sends no error response and
goes on to write to the connection it did not get, which panics; when the write of the
upgrade response fails the handler starts the yamux session all the same. The run does
not depend on the outcome of the write at all. -/
theorem C30_hijack_and_write_errors_ignored :
    TunnelServeHTTP { tunnelSysPlain with hijackOK := false } tunnelUsers tunnelRequestAlice
      = ⟨none, some "127.0.0.1:9000", none, false, true⟩ ∧
    (TunnelServeHTTP { tunnelSysPlain with writeOK := false } tunnelUsers
      tunnelRequestAlice).session = true ∧
    (∀ (sys : TunnelSys) records req, TunnelServeHTTP { sys with writeOK := false } records req
      = TunnelServeHTTP { sys with writeOK := true } records req) :=
  ⟨by decide, by decide, fun _ _ _ => rfl⟩

/-! ## Domain lists of the two forward handlers -/

/-- C29: for the list `x.test`, `@domains.txt` and a file `domains.txt` of two lines, the
helper of `HTTPForwardHandler.Load` returns `x.test` and the two lines, while the helper
of `SocksHandler.Load` returns the list it was given, with the entry `@domains.txt` in it:
it ends with `return domains`, not with the list it built. It returns its argument for
every list and file system; the two agree on the lists without an `@` entry, which both
return unchanged. -/
theorem C29_socks_expandDomains_returns_input :
    HTTPForwardHandler.expandDomains domainFiles ["x.test", "@domains.txt"]
      = ["x.test", "a.test", "b.test"] ∧
    SocksHandler.expandDomains domainFiles ["x.test", "@domains.txt"]
      = ["x.test", "@domains.txt"] ∧
    HTTPForwardHandler.expandDomains domainFiles ["@missing.txt", "y.test"] = ["y.test"] ∧
    SocksHandler.expandDomains domainFiles ["@missing.txt", "y.test"]
      = ["@missing.txt", "y.test"] ∧
    (∀ readFile domains, SocksHandler.expandDomains readFile domains = domains) ∧
    (∀ readFile domains, (∀ s ∈ domains, s.data.head? ≠ some '@') →
      HTTPForwardHandler.expandDomains readFile domains
        = SocksHandler.expandDomains readFile domains) := by
  refine ⟨by decide, by decide, by decide, by decide, fun _ _ => rfl,
    fun readFile domains h => ?_⟩
  have key : ∀ (l acc : List String), (∀ s ∈ l, s.data.head? ≠ some '@') →
      l.foldl
        (fun a s =>
          if s.data.head? = some '@' then
            match readFile (String.mk (s.data.drop 1)) with
            | none => a
            | some data => a ++ Split (String.mk (replaceCRLF data.data)) '\n'
          else a ++ [s])
        acc = acc ++ l := by
    intro l
    induction l with
    | nil => intro acc _; simp
    | cons x xs ih =>
      intro acc hl
      have hx : x.data.head? ≠ some '@' := hl x (by simp)
      rw [List.foldl_cons, if_neg hx, ih _ (fun s hs => hl s (by simp [hs]))]
      simp
  have := key domains [] h
  simpa [HTTPForwardHandler.expandDomains, SocksHandler.expandDomains, expandLoop] using this

/-! ## Reserved addresses -/

/-- C25: `IsReservedIP` differs from the list of reserved blocks it cites. It reports the
public addresses 192.18.0.1, 192.19.255.1 and 192.51.100.7 as reserved, so the pprof
handler serves `/debug/` to them; it reports as not reserved 0.1.2.3 (0.0.0.0/8),
198.18.0.1 and 198.19.0.1 (198.18.0.0/15), 198.51.100.7, 225.0.0.1 and 239.255.255.250
(224.0.0.0/4), 241.0.0.1 and 255.255.255.255 (240.0.0.0/4). On 10.1.2.3, 100.64.0.1,
192.168.1.1, 8.8.8.8 and the IPv6 address `::1` the two agree. -/
theorem C25_reserved_blocks_differ :
    (IsReservedIP [192, 18, 0, 1] = true ∧ inReservedBlocks [192, 18, 0, 1] = false) ∧
    (IsReservedIP [192, 19, 255, 1] = true ∧ inReservedBlocks [192, 19, 255, 1] = false) ∧
    (IsReservedIP [192, 51, 100, 7] = true ∧ inReservedBlocks [192, 51, 100, 7] = false) ∧
    pprofServes true "/debug/pprof/" [192, 18, 0, 1] = true ∧
    (IsReservedIP [0, 1, 2, 3] = false ∧ inReservedBlocks [0, 1, 2, 3] = true) ∧
    (IsReservedIP [198, 18, 0, 1] = false ∧ inReservedBlocks [198, 18, 0, 1] = true) ∧
    (IsReservedIP [198, 19, 0, 1] = false ∧ inReservedBlocks [198, 19, 0, 1] = true) ∧
    (IsReservedIP [198, 51, 100, 7] = false ∧ inReservedBlocks [198, 51, 100, 7] = true) ∧
    (IsReservedIP [225, 0, 0, 1] = false ∧ inReservedBlocks [225, 0, 0, 1] = true) ∧
    (IsReservedIP [239, 255, 255, 250] = false ∧
      inReservedBlocks [239, 255, 255, 250] = true) ∧
    (IsReservedIP [241, 0, 0, 1] = false ∧ inReservedBlocks [241, 0, 0, 1] = true) ∧
    (IsReservedIP [255, 255, 255, 255] = false ∧
      inReservedBlocks [255, 255, 255, 255] = true) ∧
    (IsReservedIP [10, 1, 2, 3] = true ∧ inReservedBlocks [10, 1, 2, 3] = true) ∧
    (IsReservedIP [100, 64, 0, 1] = true ∧ inReservedBlocks [100, 64, 0, 1] = true) ∧
    (IsReservedIP [192, 168, 1, 1] = true ∧ inReservedBlocks [192, 168, 1, 1] = true) ∧
    (IsReservedIP [8, 8, 8, 8] = false ∧ inReservedBlocks [8, 8, 8, 8] = false) ∧
    (IsReservedIP [0, 0, 0, 0, 0, 0, 0, 0, 0, 0, 0, 0, 0, 0, 0, 1] = false ∧
      inReservedBlocks [0, 0, 0, 0, 0, 0, 0, 0, 0, 0, 0, 0, 0, 0, 0, 1] = false) := by
  decide

/-! ## Captured header of `MirrorHeaderConn` -/

theorem MirrorHeaderConn.read_headerLen (c : MirrorHeaderConn) (bufLen : Nat) :
    ((c.Read bufLen).1.headerLen = c.headerLen ∨
      (c.headerLen < 1500 ∧ (c.Read bufLen).1.headerLen ≤ c.headerLen + bufLen)) ∧
    c.headerLen ≤ (c.Read bufLen).1.headerLen := by
  have hr : (connRead c.Conn bufLen).1.1.length ≤ bufLen := by
    unfold connRead
    split <;> simp [List.length_take]
  unfold MirrorHeaderConn.Read MirrorHeaderConn.headerLen
  simp only
  split_ifs with h
  · simp only [Option.getD_some, List.length_append]
    exact ⟨Or.inr ⟨h.2.2, by omega⟩, by omega⟩
  · simp

theorem MirrorHeaderConn.read_chunk (data : Bytes) (rest : List (Option Bytes))
    (header : Option Bytes) (bufLen : Nat) (h0 : 0 < data.length)
    (hle : data.length ≤ bufLen) (hh : (header.getD []).length < 1500) :
    ((MirrorHeaderConn.mk (some data :: rest) header).Read bufLen).1
      = ⟨rest, some (header.getD [] ++ data)⟩ := by
  have ht : data.take bufLen = data := List.take_of_length_le hle
  have hd : data.drop bufLen = [] := List.drop_of_length_le hle
  unfold MirrorHeaderConn.Read connRead
  simp only [ht, hd, ne_eq, not_true_eq_false, if_false]
  rw [if_pos ⟨trivial, h0, hh⟩]

/-- C21, counterexample: one `Read` with a buffer of 4096 bytes on a connection that
delivers 4096 bytes leaves 4096 bytes in `Header`; after a read of 1499 bytes a second
read of 4096 bytes brings it to 5595 bytes. -/
theorem C21_header_exceeds_1500 :
    ((MirrorHeaderConn.mk [some (List.replicate 4096 22)] none).reads [4096]).headerLen
      = 4096 ∧
    ((MirrorHeaderConn.mk [some (List.replicate 1499 22), some (List.replicate 4096 23)]
      none).reads [1499, 4096]).headerLen = 5595 := by
  have hlen : ∀ (k v : Nat), (List.replicate k v).length = k := fun k v =>
    List.length_replicate k v
  constructor
  · show ((MirrorHeaderConn.mk [some (List.replicate 4096 22)] none).Read 4096).1.headerLen
      = 4096
    rw [MirrorHeaderConn.read_chunk _ _ _ _ (by rw [hlen]; decide) (by rw [hlen])
      (by decide)]
    simp only [MirrorHeaderConn.headerLen, Option.getD_some, Option.getD_none,
      List.length_append, List.length_nil, hlen]
  · show (((MirrorHeaderConn.mk [some (List.replicate 1499 22),
      some (List.replicate 4096 23)] none).Read 1499).1.Read 4096).1.headerLen = 5595
    rw [MirrorHeaderConn.read_chunk _ _ _ _ (by rw [hlen]; decide) (by rw [hlen])
      (by decide),
      MirrorHeaderConn.read_chunk _ _ _ _ (by rw [hlen]; decide) (by rw [hlen])
        (by simp only [Option.getD_some, Option.getD_none, List.length_append,
          List.length_nil, hlen]; decide)]
    simp only [MirrorHeaderConn.headerLen, Option.getD_some, Option.getD_none,
      List.length_append, List.length_nil, hlen]

/-- C21, amended: over every sequence of `Read` calls with buffers of at most `m` bytes,
`Header` never holds more than `1499 + m` bytes: a call adds the bytes it read only when
`Header` holds fewer than 1500 bytes before the call, and `Header` never shrinks; once it
holds 1500 bytes or more, no later call changes its length. -/
theorem C21_header_bound (c : MirrorHeaderConn) (sizes : List Nat) (m : Nat)
    (hstart : c.headerLen ≤ 1499 + m) (hsizes : ∀ bufLen ∈ sizes, bufLen ≤ m) :
    (c.reads sizes).headerLen ≤ 1499 + m ∧
    c.headerLen ≤ (c.reads sizes).headerLen ∧
    (1500 ≤ c.headerLen → (c.reads sizes).headerLen = c.headerLen) := by
  induction sizes generalizing c with
  | nil => exact ⟨hstart, le_refl _, fun _ => rfl⟩
  | cons bufLen sizes ih =>
    have hb : bufLen ≤ m := hsizes bufLen (by simp)
    obtain ⟨h1, h2⟩ := MirrorHeaderConn.read_headerLen c bufLen
    have hnext : (c.Read bufLen).1.headerLen ≤ 1499 + m := by
      rcases h1 with e | ⟨hlt, hle⟩
      · rw [e]; exact hstart
      · omega
    obtain ⟨i1, i2, i3⟩ := ih (c.Read bufLen).1 hnext (fun x hx => hsizes x (by simp [hx]))
    refine ⟨i1, le_trans h2 i2, fun h1500 => ?_⟩
    have e : (c.Read bufLen).1.headerLen = c.headerLen := by
      rcases h1 with e | ⟨hlt, _⟩
      · exact e
      · omega
    show ((c.Read bufLen).1.reads sizes).headerLen = c.headerLen
    rw [i3 (by omega), e]

/-- C21, witness: three reads with buffers of 1024 bytes leave 2048 bytes in `Header`,
within `1499 + 1024`. -/
theorem C21_header_bound_witness :
    ((MirrorHeaderConn.mk [some (List.replicate 3000 22)] none).reads
      [1024, 1024, 1024]).headerLen ≤ 1499 + 1024 :=
  (C21_header_bound ⟨[some (List.replicate 3000 22)], none⟩ [1024, 1024, 1024] 1024
    (by decide) (by decide)).1

/-! ## Config merging -/

theorem find_filter_other (m : StringMap) (k k' : String) (h : k' ≠ k) :
    (m.filter (fun e => e.1 != k)).find? (fun e => e.1 == k')
      = m.find? (fun e => e.1 == k') := by
  induction m with
  | nil => rfl
  | cons x xs ih =>
    by_cases hx : x.1 = k
    · have hx' : (x.1 == k') = false := by
        rw [hx]; exact beq_false_of_ne (fun e => h e.symm)
      have hf : (x.1 != k) = false := by rw [hx]; simp
      rw [List.filter_cons, hf, List.find?_cons, hx']
      simpa using ih
    · have hf : (x.1 != k) = true := by simpa using hx
      rw [List.filter_cons, hf]
      simp only [if_true, List.find?_cons]
      rw [ih]

theorem StringMap.lookup_after_set (m : StringMap) (k v k' : String) :
    (m.set k v).get k' = if k' = k then some v else m.get k' := by
  unfold StringMap.set StringMap.get
  by_cases h : k' = k
  · subst h; simp
  · have e1 : ((k, v).1 == k') = false := beq_false_of_ne (fun e => h e.symm)
    rw [if_neg h, List.find?_cons, e1, find_filter_other m k k' h]

theorem StringMap.get_fold (l : StringMap) (hl : (l.map Prod.fst).Nodup) (m : StringMap)
    (k : String) :
    (l.foldl (fun m e => m.set e.1 e.2) m).get k
      = match StringMap.get l k with
        | some v => some v
        | none => m.get k := by
  induction l generalizing m with
  | nil => rfl
  | cons e es ih =>
    have hes : (es.map Prod.fst).Nodup := (List.nodup_cons.mp hl).2
    have hne : e.1 ∉ es.map Prod.fst := (List.nodup_cons.mp hl).1
    rw [List.foldl_cons, ih hes, StringMap.lookup_after_set]
    by_cases hk : k = e.1
    · subst hk
      have hnone : StringMap.get es e.1 = none := by
        unfold StringMap.get
        rw [Option.map_eq_none', List.find?_eq_none]
        intro x hx hxe
        exact hne (List.mem_map.mpr ⟨x, hx, by simpa using hxe⟩)
      have hsome : StringMap.get (e :: es) e.1 = some e.2 := by
        simp [StringMap.get]
      rw [hnone, hsome]
      simp
    · have e2 : StringMap.get (e :: es) k = StringMap.get es k := by
        unfold StringMap.get
        rw [List.find?_cons, beq_false_of_ne (fun h => hk h.symm)]
      rw [e2, if_neg hk]

theorem mergeConfig_fold (overlays : List Config) (config : Config) :
    (overlays.foldl mergeConfig config).Global = config.Global ∧
    (overlays.foldl mergeConfig config).Cron
      = config.Cron ++ (overlays.map (fun c => c.Cron)).flatten ∧
    (overlays.foldl mergeConfig config).Https
      = config.Https ++ (overlays.map (fun c => c.Https)).flatten ∧
    (overlays.foldl mergeConfig config).Http
      = config.Http ++ (overlays.map (fun c => c.Http)).flatten ∧
    (overlays.foldl mergeConfig config).Socks
      = config.Socks ++ (overlays.map (fun c => c.Socks)).flatten ∧
    (overlays.foldl mergeConfig config).Tunnel
      = config.Tunnel ++ (overlays.map (fun c => c.Tunnel)).flatten ∧
    (overlays.foldl mergeConfig config).Stream
      = config.Stream ++ (overlays.map (fun c => c.Stream)).flatten := by
  induction overlays generalizing config with
  | nil => simp
  | cons c cs ih =>
    obtain ⟨h0, h1, h2, h3, h4, h5, h6⟩ := ih (mergeConfig config c)
    simp only [List.foldl_cons, List.map_cons, List.flatten_cons]
    refine ⟨?_, ?_, ?_, ?_, ?_, ?_, ?_⟩
    · rw [h0]; rfl
    · rw [h1]; simp [mergeConfig]
    · rw [h2]; simp [mergeConfig]
    · rw [h3]; simp [mergeConfig]
    · rw [h4]; simp [mergeConfig]
    · rw [h5]; simp [mergeConfig]
    · rw [h6]; simp [mergeConfig]

theorem mergeConfig_fold_dialer (overlays : List Config)
    (hkeys : ∀ c ∈ overlays, (c.Dialer.map Prod.fst).Nodup) (config : Config) (k : String) :
    StringMap.get (overlays.foldl mergeConfig config).Dialer k
      = match overlays.reverse.findSome? (fun c => StringMap.get c.Dialer k) with
        | some v => some v
        | none => StringMap.get config.Dialer k := by
  induction overlays generalizing config with
  | nil => rfl
  | cons c cs ih =>
    rw [List.foldl_cons, ih (fun c' hc' => hkeys c' (by simp [hc'])), List.reverse_cons,
      List.findSome?_append]
    have hc : StringMap.get (mergeConfig config c).Dialer k
        = match StringMap.get c.Dialer k with
          | some v => some v
          | none => StringMap.get config.Dialer k :=
      StringMap.get_fold c.Dialer (hkeys c (by simp)) config.Dialer k
    rw [hc]
    cases h1 : List.findSome? (fun c => StringMap.get c.Dialer k) cs.reverse with
    | some v => simp
    | none =>
      cases h2 : StringMap.get c.Dialer k with
      | some v => simp [h2]
      | none => simp [h2]

/-- C22: for a non-empty list of parsed configs (the primary file first) whose dialer
maps have one entry for each key, the merge of `NewConfig` returns a config in which each
list section is the concatenation of that section of the configs in their order, and in
which the dialer of a key is the one of the last config that defines the key (none if no
config defines it); the global section is that of the first config. -/
theorem C22_config_merge (config : Config) (overlays : List Config)
    (hkeys : ∀ c ∈ config :: overlays, (c.Dialer.map Prod.fst).Nodup) :
    ∃ merged, mergeConfigs (config :: overlays) = some merged ∧
      merged.Cron = ((config :: overlays).map (fun c => c.Cron)).flatten ∧
      merged.Https = ((config :: overlays).map (fun c => c.Https)).flatten ∧
      merged.Http = ((config :: overlays).map (fun c => c.Http)).flatten ∧
      merged.Socks = ((config :: overlays).map (fun c => c.Socks)).flatten ∧
      merged.Tunnel = ((config :: overlays).map (fun c => c.Tunnel)).flatten ∧
      merged.Stream = ((config :: overlays).map (fun c => c.Stream)).flatten ∧
      (∀ k, StringMap.get merged.Dialer k
        = (config :: overlays).reverse.findSome? (fun c => StringMap.get c.Dialer k)) ∧
      merged.Global = config.Global := by
  obtain ⟨h0, h1, h2, h3, h4, h5, h6⟩ := mergeConfig_fold overlays config
  refine ⟨overlays.foldl mergeConfig config, rfl, ?_, ?_, ?_, ?_, ?_, ?_, fun k => ?_, h0⟩
  · rw [h1]; rfl
  · rw [h2]; rfl
  · rw [h3]; rfl
  · rw [h4]; rfl
  · rw [h5]; rfl
  · rw [h6]; rfl
  · rw [mergeConfig_fold_dialer overlays (fun c hc => hkeys c (by simp [hc])) config k,
      List.reverse_cons, List.findSome?_append]
    cases h1 : List.findSome? (fun c => StringMap.get c.Dialer k) overlays.reverse with
    | some v => simp
    | none =>
      cases h2 : StringMap.get config.Dialer k with
      | some v => simp [h2]
      | none => simp [h2]

/-- C22, witness: a base file with one HTTPS listener and an overlay with one more give
two HTTPS listeners, the one of the base first; the dialer `b`, defined in both, has the
value of the overlay, and `a` and `c` are both there. -/
theorem C22_config_merge_witness :
    ∃ merged, mergeConfigs [configBase, configOverlay] = some merged ∧
      merged.Https = [⟨[":443"], "base"⟩, ⟨[":8443"], "overlay"⟩] ∧
      StringMap.get merged.Dialer "b" = some "http://10.0.0.3:8080" ∧
      StringMap.get merged.Dialer "a" = some "socks5://10.0.0.1:1080" ∧
      StringMap.get merged.Dialer "c" = some "ssh://10.0.0.4:22" := by
  obtain ⟨merged, hm, _, hhttps, _, _, _, _, hd, _⟩ :=
    C22_config_merge configBase [configOverlay] (by decide)
  exact ⟨merged, hm, by rw [hhttps]; rfl, by rw [hd]; decide, by rw [hd]; decide,
    by rw [hd]; decide⟩

/-! ## Prefix reader `ConnWithData` -/

theorem connRead_bytes (input : List (Option Bytes)) (bufLen : Nat) :
    (connRead input bufLen).1.1 ++ pendingBytes (connRead input bufLen).2
      = pendingBytes input := by
  unfold connRead
  split
  · rfl
  · simp [pendingBytes]
  · rename_i chunk rest
    by_cases h : chunk.drop bufLen = []
    · have ht : chunk.take bufLen = chunk := by
        have := List.take_append_drop bufLen chunk
        rw [h, List.append_nil] at this
        exact this
      simp [pendingBytes, h, ht]
    · simp only [ne_eq, h, not_false_eq_true, if_true]
      simp only [pendingBytes, List.filterMap_cons, id_eq, List.flatten_cons]
      rw [← List.append_assoc, List.take_append_drop]

theorem connRead_length (input : List (Option Bytes)) (bufLen : Nat) :
    (connRead input bufLen).1.1.length ≤ bufLen := by
  unfold connRead
  split <;> simp [List.length_take]

theorem connReads_bytes (sizes : List Nat) (input : List (Option Bytes)) :
    bytesRead (connReads input sizes).1 ++ pendingBytes (connReads input sizes).2
      = pendingBytes input := by
  induction sizes generalizing input with
  | nil => simp [connReads, bytesRead]
  | cons bufLen sizes ih =>
    have h := ih (connRead input bufLen).2
    simp only [connReads, bytesRead, List.map_cons, List.flatten_cons, List.append_assoc]
      at h ⊢
    rw [h, connRead_bytes]

/-- The plain connection that delivers what a `ConnWithData` delivers: `Data`, when set,
as the first pending read. -/
theorem ConnWithData.read_plain (input : List (Option Bytes)) (data : Bytes)
    (bufLen : Nat) :
    ((ConnWithData.mk input (some data)).Read bufLen).2
        = (connRead (some data :: input) bufLen).1 ∧
    (((ConnWithData.mk input (some data)).Read bufLen).1
        = ⟨input, some (data.drop bufLen)⟩ ∧
        (connRead (some data :: input) bufLen).2 = some (data.drop bufLen) :: input ∧
        data.drop bufLen ≠ [] ∨
      ((ConnWithData.mk input (some data)).Read bufLen).1 = ⟨input, none⟩ ∧
        (connRead (some data :: input) bufLen).2 = input ∧ data.drop bufLen = []) := by
  unfold ConnWithData.Read connRead
  simp only
  by_cases h : bufLen < data.length
  · have hm : min bufLen data.length = bufLen := Nat.min_eq_left (le_of_lt h)
    have hd : data.drop bufLen ≠ [] := by
      intro e
      have := congrArg List.length e
      simp at this
      omega
    rw [hm, if_pos h]
    simp only [ne_eq, hd, not_false_eq_true, if_true]
    simp [hd]
  · have hm : min bufLen data.length = data.length := Nat.min_eq_right (by omega)
    have hd : data.drop bufLen = [] := List.drop_of_length_le (by omega)
    have ht : data.take bufLen = data := List.take_of_length_le (by omega)
    rw [hm, if_neg (lt_irrefl _)]
    simp only [hd, ne_eq, not_true_eq_false, if_false, List.take_length, ht]
    simp

theorem ConnWithData.reads_nil_data (sizes : List Nat) (input : List (Option Bytes)) :
    (ConnWithData.reads ⟨input, none⟩ sizes).1 = (connReads input sizes).1 ∧
    (ConnWithData.reads ⟨input, none⟩ sizes).2 = ⟨(connReads input sizes).2, none⟩ := by
  induction sizes generalizing input with
  | nil => exact ⟨rfl, rfl⟩
  | cons bufLen sizes ih =>
    obtain ⟨h1, h2⟩ := ih (connRead input bufLen).2
    have e : (ConnWithData.mk input none).Read bufLen
        = (⟨(connRead input bufLen).2, none⟩, (connRead input bufLen).1) := rfl
    simp only [ConnWithData.reads, connReads, e, h1, h2]
    simp

theorem ConnWithData.reads_plain (sizes : List Nat) (input : List (Option Bytes))
    (data : Bytes) :
    (ConnWithData.reads ⟨input, some data⟩ sizes).1
        = (connReads (some data :: input) sizes).1 ∧
    pendingBytes (connReads (some data :: input) sizes).2
        = (ConnWithData.reads ⟨input, some data⟩ sizes).2.Data.getD []
          ++ pendingBytes (ConnWithData.reads ⟨input, some data⟩ sizes).2.Conn ∧
    ((ConnWithData.reads ⟨input, some data⟩ sizes).2.Data ≠ none →
      (ConnWithData.reads ⟨input, some data⟩ sizes).2.Conn = input) := by
  induction sizes generalizing data with
  | nil =>
    refine ⟨rfl, ?_, fun _ => rfl⟩
    simp [connReads, ConnWithData.reads, pendingBytes]
  | cons bufLen sizes ih =>
    obtain ⟨hres, hcase⟩ := ConnWithData.read_plain input data bufLen
    rcases hcase with ⟨hw, hp, _⟩ | ⟨hw, hp, _⟩
    · obtain ⟨i1, i2, i3⟩ := ih (data.drop bufLen)
      simp only [ConnWithData.reads, connReads, hw, hp, hres, i1]
      exact ⟨trivial, i2, i3⟩
    · obtain ⟨n1, n2⟩ := ConnWithData.reads_nil_data sizes input
      simp only [ConnWithData.reads, connReads, hw, hp, hres, n1, n2]
      simp

/-! ## Response read loop of the tunnel client -/

theorem indexOfSep_spec (sep : Bytes) (s : Bytes) :
    ∀ i, indexOfSep sep s = some i →
      sep <+: s.drop i ∧ ∀ j, j < i → ¬ sep <+: s.drop j := by
  induction s with
  | nil =>
    intro i h
    unfold indexOfSep at h
    split_ifs at h with he
    · cases h
      subst he
      exact ⟨List.prefix_refl _, fun j hj => absurd hj (Nat.not_lt_zero j)⟩
  | cons x t ih =>
    intro i h
    unfold indexOfSep at h
    split_ifs at h with hp
    · cases h
      exact ⟨List.isPrefixOf_iff_prefix.mp hp, fun j hj => absurd hj (Nat.not_lt_zero j)⟩
    · cases hi : indexOfSep sep t with
      | none => rw [hi] at h; cases h
      | some i' =>
        rw [hi] at h
        cases h
        obtain ⟨h1, h2⟩ := ih i' hi
        refine ⟨h1, fun j hj => ?_⟩
        cases j with
        | zero => exact fun hpre => hp (List.isPrefixOf_iff_prefix.mpr hpre)
        | succ j' =>
          have hj2 : j' + 1 < i' + 1 := hj
          exact h2 j' (by omega)

theorem take_split (l : Bytes) (m n : Nat) (h : m ≤ n) :
    l.take n = l.take m ++ (l.drop m).take (n - m) := by
  have e : n = m + (n - m) := by omega
  conv_lhs => rw [e]
  exact List.take_add l m (n - m)

theorem readResponse_spec (fuel : Nat) :
    ∀ (input : List (Option Bytes)) (b : Bytes) (total : Nat) (r : ResponseRead),
      readResponse fuel input b total = some r → total ≤ b.length →
      r.b.take r.total ++ pendingBytes r.conn.Conn = b.take total ++ pendingBytes input ∧
      b.take total <+: r.b.take r.total ∧
      (∀ d, r.conn.Data = some d →
        ∃ pre, r.b.take r.total = pre ++ CRLFCRLF ++ d ∧ pre ≠ [] ∧ d ≠ [] ∧
          ∀ j, j < pre.length → ¬ CRLFCRLF <+: (r.b.take r.total).drop j) := by
  induction fuel with
  | zero => intro input b total r h; cases h
  | succ fuel ih =>
    intro input b total r h htotal
    have hlen := connRead_length input (b.length - total)
    have hbytes := connRead_bytes input (b.length - total)
    unfold readResponse at h
    simp only at h
    generalize hgot : (connRead input (b.length - total)).1.1 = got at h hlen hbytes
    generalize hrest : (connRead input (b.length - total)).2 = rest at h hbytes
    have hb1len : (b.take total ++ got ++ b.drop (total + got.length)).length = b.length := by
      simp only [List.length_append, List.length_take, List.length_drop]
      omega
    have htake1 : (b.take total ++ got ++ b.drop (total + got.length)).take
        (total + got.length) = b.take total ++ got := by
      have hl : (b.take total ++ got).length = total + got.length := by
        simp only [List.length_append, List.length_take]
        omega
      rw [← hl, List.take_left]
    have hstep : ∀ r' : ResponseRead,
        readResponse fuel rest (b.take total ++ got ++ b.drop (total + got.length))
          (total + got.length) = some r' →
        r'.b.take r'.total ++ pendingBytes r'.conn.Conn = b.take total ++ pendingBytes input ∧
        b.take total <+: r'.b.take r'.total ∧
        (∀ d, r'.conn.Data = some d →
          ∃ pre, r'.b.take r'.total = pre ++ CRLFCRLF ++ d ∧ pre ≠ [] ∧ d ≠ [] ∧
            ∀ j, j < pre.length → ¬ CRLFCRLF <+: (r'.b.take r'.total).drop j) := by
      intro r' hr'
      obtain ⟨i1, i2, i3⟩ := ih rest _ (total + got.length) r' hr' (by rw [hb1len]; omega)
      rw [htake1] at i1 i2
      refine ⟨?_, (List.prefix_append _ _).trans i2, i3⟩
      rw [i1, List.append_assoc, hbytes]
    split_ifs at h with herr
    · cases h
      simp only
      have hgot0 : got = [] := by
        rw [← hgot]
        unfold connRead at herr ⊢
        split <;> simp_all
      rw [hgot0] at hbytes
      refine ⟨?_, List.prefix_refl _, fun d hd => by cases hd⟩
      rw [← hbytes]
      rfl
    · cases hidx : Index (b.take total ++ got ++ b.drop (total + got.length)) CRLFCRLF with
      | none =>
        rw [hidx] at h
        exact hstep r h
      | some i =>
        rw [hidx] at h
        simp only at h
        split_ifs at h with hpos hafter
        · cases h
          simp only
          obtain ⟨hpre, hfirst⟩ := indexOfSep_spec CRLFCRLF _ i hidx
          generalize hb1 : b.take total ++ got ++ b.drop (total + got.length) = b1
            at hpre hfirst hb1len htake1
          refine ⟨?_, ?_, fun d hd => ?_⟩
          · rw [htake1, List.append_assoc, hbytes]
          · rw [htake1]; exact List.prefix_append _ _
          · cases hd
            have h4 : (b1.drop i).take 4 = CRLFCRLF := by
              obtain ⟨t, ht⟩ := hpre
              rw [← ht]
              exact List.take_left' rfl
            have e1 : b1.take (total + got.length)
                = b1.take (i + 4) ++ (b1.drop (i + 4)).take (total + got.length - (i + 4)) :=
              take_split b1 (i + 4) (total + got.length) (by omega)
            have e2 : b1.take (i + 4) = b1.take i ++ CRLFCRLF := by
              rw [List.take_add, h4]
            refine ⟨b1.take i, ?_, ?_, ?_, fun j hj => ?_⟩
            · rw [e1, e2]
            · intro e
              have := congrArg List.length e
              simp only [List.length_take, List.length_nil] at this
              omega
            · intro e
              have := congrArg List.length e
              simp only [List.length_take, List.length_drop, List.length_nil] at this
              omega
            · have hj' : j < i := by
                simp only [List.length_take] at hj
                omega
              intro hcontra
              apply hfirst j hj'
              rw [List.drop_take] at hcontra
              exact hcontra.trans (List.take_prefix _ _)
        · cases h
          simp only
          refine ⟨?_, ?_, fun d hd => by cases hd⟩
          · rw [htake1, List.append_assoc, hbytes]
          · rw [htake1]; exact List.prefix_append _ _
        · exact hstep r h

theorem readResponse_returns (fuel : Nat) :
    ∀ (input : List (Option Bytes)) (b : Bytes) (total : Nat),
      input.length < fuel → total + (pendingBytes input).length ≤ b.length →
      (readResponse fuel input b total).isSome = true := by
  induction fuel with
  | zero => intro input b total h; omega
  | succ fuel ih =>
    intro input b total hfuel hroom
    unfold readResponse
    simp only
    cases input with
    | nil => simp [connRead]
    | cons x rest =>
      cases x with
      | none => simp [connRead]
      | some chunk =>
        have hp : pendingBytes (some chunk :: rest) = chunk ++ pendingBytes rest := by
          simp [pendingBytes]
        rw [hp, List.length_append] at hroom
        have hd : chunk.drop (b.length - total) = [] := List.drop_of_length_le (by omega)
        have ht : chunk.take (b.length - total) = chunk := List.take_of_length_le (by omega)
        have hr : connRead (some chunk :: rest) (b.length - total) = ((chunk, true), rest) := by
          simp [connRead, hd, ht]
        rw [hr]
        simp only [Bool.true_eq_false, if_false]
        have hnext := ih rest (b.take total ++ chunk ++ b.drop (total + chunk.length))
          (total + chunk.length) (by simp at hfuel; omega)
          (by simp only [List.length_append, List.length_take, List.length_drop]; omega)
        cases hidx : Index (b.take total ++ chunk ++ b.drop (total + chunk.length))
            CRLFCRLF with
        | none => simpa using hnext
        | some i =>
          simp only
          split_ifs
          · rfl
          · rfl
          · exact hnext

/-- C23: over every sequence of `Read` calls, the bytes a `ConnWithData` returns, followed
by what is left of `Data` and by the bytes the embedded connection still holds, are `Data`
followed by the bytes the embedded connection held at the start; the embedded connection
is not read while `Data` is left; and call by call the results are those of a connection
that delivers `Data` first. In the response read loop of `wstunnel`, a `Data` that is set
holds the bytes received after the first `\r\n\r\n`: the bytes before it, the separator,
`Data` and the bytes not yet read make up the stream, and the separator does not occur
earlier. The loop ends when the buffer has room for the stream. -/
theorem C23_prefix_reader (input : List (Option Bytes)) (data : Bytes) (sizes : List Nat) :
    (bytesRead (ConnWithData.reads ⟨input, some data⟩ sizes).1
        ++ ((ConnWithData.reads ⟨input, some data⟩ sizes).2.Data.getD []
          ++ pendingBytes (ConnWithData.reads ⟨input, some data⟩ sizes).2.Conn)
      = data ++ pendingBytes input) ∧
    ((ConnWithData.reads ⟨input, some data⟩ sizes).2.Data ≠ none →
      (ConnWithData.reads ⟨input, some data⟩ sizes).2.Conn = input) ∧
    (ConnWithData.reads ⟨input, some data⟩ sizes).1
      = (connReads (some data :: input) sizes).1 ∧
    (∀ fuel cap r d, readResponse fuel input (List.replicate cap 0) 0 = some r →
      r.conn.Data = some d →
      ∃ pre, pre ≠ [] ∧ d ≠ [] ∧
        pre ++ CRLFCRLF ++ d ++ pendingBytes r.conn.Conn = pendingBytes input ∧
        ∀ j, j < pre.length → ¬ CRLFCRLF <+: (pre ++ CRLFCRLF ++ d).drop j) ∧
    (∀ fuel cap, input.length < fuel → (pendingBytes input).length ≤ cap →
      (readResponse fuel input (List.replicate cap 0) 0).isSome = true) ∧
    (readResponse 4 responseChunks (List.replicate 64 0) 0).map (fun r => r.conn)
      = some ⟨[some [5, 6]], some [0, 1, 2, 3, 4]⟩ := by
  obtain ⟨h1, h2, h3⟩ := ConnWithData.reads_plain sizes input data
  refine ⟨?_, h3, h1, fun fuel cap r d hr hd => ?_, fun fuel cap hf hc => ?_, by decide⟩
  · rw [h1, ← h2, connReads_bytes]
    simp [pendingBytes]
  · obtain ⟨k1, _, k3⟩ := readResponse_spec fuel input _ 0 r hr (Nat.zero_le _)
    obtain ⟨pre, e, hpre, hd', hfirst⟩ := k3 d hd
    refine ⟨pre, hpre, hd', ?_, ?_⟩
    · rw [← e, k1]
      simp
    · rw [← e]; exact hfirst
  · exact readResponse_returns fuel input _ 0 hf (by simpa using hc)

/-! ## `AppendSplitLines` -/

theorem lines_induction (P : List Char → Prop)
    (hline : ∀ a, '\n' ∉ a → P a)
    (hcut : ∀ a rest, '\n' ∉ a → P rest → P (a ++ '\n' :: rest)) :
    ∀ l, P l := by
  have key : ∀ l a, '\n' ∉ a → P (a ++ l) := by
    intro l
    induction l with
    | nil => intro a ha; rw [List.append_nil]; exact hline a ha
    | cons c cs ih =>
      intro a ha
      by_cases hc : c = '\n'
      · subst hc
        exact hcut a cs ha (ih [] (by simp))
      · have e : a ++ c :: cs = (a ++ [c]) ++ cs := by simp
        rw [e]
        exact ih (a ++ [c]) (by
          intro hmem
          rcases List.mem_append.mp hmem with h | h
          · exact ha h
          · simp at h; exact hc h.symm)
  intro l
  exact key l [] (by simp)

theorem IndexByte_none (a : List Char) (c : Char) (h : c ∉ a) : IndexByte a c = none := by
  induction a with
  | nil => rfl
  | cons x t ih =>
    have hx : x ≠ c := fun e => h (by simp [e])
    have ht : c ∉ t := fun e => h (by simp [e])
    simp only [IndexByte, if_neg hx, ih ht, Option.map_none']

theorem IndexByte_append (a rest : List Char) (c : Char) (h : c ∉ a) :
    IndexByte (a ++ c :: rest) c = some a.length := by
  induction a with
  | nil => simp [IndexByte]
  | cons x t ih =>
    have hx : x ≠ c := fun e => h (by simp [e])
    have ht : c ∉ t := fun e => h (by simp [e])
    rw [List.cons_append]
    unfold IndexByte
    rw [if_neg hx, ih ht]
    rfl

theorem splitRunes_no_sep (sep : Char) (a : List Char) (h : sep ∉ a) :
    splitRunes sep a = [a] := by
  induction a with
  | nil => rfl
  | cons c cs ih =>
    have hc : c ≠ sep := fun e => h (by simp [e])
    have hcs : sep ∉ cs := fun e => h (by simp [e])
    have e : splitRunes sep (c :: cs)
        = (match splitRunes sep cs with
          | [] => [[c]]
          | part :: parts => (c :: part) :: parts) := by
      simp only [splitRunes, if_neg hc]
    rw [e, ih hcs]

theorem splitLinesSpec_line (a : List Char) (h : '\n' ∉ a) :
    splitLinesSpec a = if a = [] then [] else [stripCR a] := by
  unfold splitLinesSpec
  rw [splitRunes_no_sep _ a h]
  by_cases ha : a = []
  · subst ha; simp
  · have : ¬ (some a = some ([] : List Char)) := fun e => ha (Option.some.inj e)
    simp [ha]

theorem splitLinesSpec_cut (a rest : List Char) (h : '\n' ∉ a) :
    splitLinesSpec (a ++ '\n' :: rest) = stripCR a :: splitLinesSpec rest := by
  unfold splitLinesSpec
  rw [splitRunes_append _ a rest h]
  have hne := splitRunes_ne_nil '\n' rest
  cases hp : splitRunes '\n' rest with
  | nil => exact absurd hp hne
  | cons p ps =>
    have hl : (a :: p :: ps).getLast? = (p :: ps).getLast? := by
      simp [List.getLast?_cons_cons]
    rw [hl]
    split_ifs
    · simp [List.dropLast]
    · simp

theorem stripCR_code (a : List Char) (t : List Char) (ha : a ≠ []) :
    stripCR a
      = if (a ++ t).getD (a.length - 1) ' ' ≠ '\r' then a else a.take (a.length - 1) := by
  rcases List.eq_nil_or_concat a with h | ⟨b, x, h⟩
  · exact absurd h ha
  · rw [List.concat_eq_append] at h
    subst h
    have hlen : (b ++ [x]).length - 1 = b.length := by simp
    have hget : ((b ++ [x]) ++ t).getD b.length ' ' = x := by
      rw [List.append_assoc, List.getD_eq_getElem?_getD,
        List.getElem?_append_right (le_refl _)]
      simp
    have htake : (b ++ [x]).take b.length = b := List.take_left _ _
    rw [hlen, hget, htake]
    unfold stripCR
    by_cases hx : x = '\r'
    · subst hx; simp
    · simp [hx]

theorem appendLastLine_spec (dst : List String) (a : List Char) (h : '\n' ∉ a) :
    appendLastLine dst a = dst ++ (splitLinesSpec a).map String.mk := by
  rw [splitLinesSpec_line a h]
  unfold appendLastLine
  by_cases ha : a = []
  · subst ha; simp
  · have hpos : a.length > 0 := List.length_pos.mpr ha
    have hs := stripCR_code a [] ha
    rw [List.append_nil] at hs
    rw [if_pos hpos, if_neg ha, hs]
    split_ifs <;> simp_all

theorem appendSplitLinesLoop_spec :
    ∀ (input : List Char) (fuel : Nat) (dst : List String), input.length < fuel →
      (appendSplitLinesLoop fuel dst input).map (fun r => appendLastLine r.1 r.2)
        = some (dst ++ (splitLinesSpec input).map String.mk) := by
  apply lines_induction
  · intro a ha fuel dst hfuel
    cases fuel with
    | zero => omega
    | succ fuel =>
      simp only [appendSplitLinesLoop, IndexByte_none a '\n' ha, Option.map_some']
      rw [appendLastLine_spec dst a ha]
  · intro a rest ha ih fuel dst hfuel
    cases fuel with
    | zero => omega
    | succ fuel =>
      have hrest : rest.length < fuel := by
        simp only [List.length_append, List.length_cons] at hfuel
        omega
      have htake : (a ++ '\n' :: rest).take a.length = a := List.take_left _ _
      have hdrop : (a ++ '\n' :: rest).drop (a.length + 1) = rest := by
        have e : a ++ '\n' :: rest = (a ++ ['\n']) ++ rest := by simp
        have hl : (a ++ ['\n']).length = a.length + 1 := by simp
        rw [e, ← hl, List.drop_left]
      simp only [appendSplitLinesLoop, IndexByte_append a rest '\n' ha]
      rw [splitLinesSpec_cut a rest ha, hdrop]
      by_cases ha0 : a = []
      · subst ha0
        simp only [List.length_nil, gt_iff_lt, lt_self_iff_false, if_false]
        rw [ih fuel _ hrest]
        simp [stripCR]
      · have hpos : a.length > 0 := List.length_pos.mpr ha0
        have hs := stripCR_code a ('\n' :: rest) ha0
        have htake1 : (a ++ '\n' :: rest).take (a.length - 1) = a.take (a.length - 1) := by
          rw [List.take_append_of_le_length (by omega)]
        rw [if_pos hpos]
        split_ifs with hcr
        · rw [ih fuel _ hrest, htake, hs, if_pos hcr]
          simp
        · rw [ih fuel _ hrest, htake1, hs, if_neg hcr]
          simp

theorem stripCR_mem (a : List Char) (x : Char) (h : x ∈ stripCR a) : x ∈ a := by
  unfold stripCR at h
  split_ifs at h
  · exact List.dropLast_subset a h
  · exact h

theorem stripCR_id (a : List Char) (h : '\r' ∉ a) : stripCR a = a := by
  unfold stripCR
  rw [if_neg]
  intro e
  exact h (List.mem_of_getLast?_eq_some e)

theorem chomp_id (a : List Char) (h : '\n' ∉ a) : chomp a = a := by
  unfold chomp
  rw [if_neg]
  intro e
  exact h (List.mem_of_getLast?_eq_some e)

theorem chomp_newline (a : List Char) : chomp (a ++ ['\n']) = a := by
  unfold chomp
  simp

theorem chomp_cut (a rest : List Char) (h : rest ≠ []) :
    chomp (a ++ '\n' :: rest) = a ++ '\n' :: chomp rest := by
  have hne : '\n' :: rest ≠ [] := by simp
  have hl : (a ++ '\n' :: rest).getLast? = rest.getLast? := by
    cases rest with
    | nil => exact absurd rfl h
    | cons r rs =>
      rw [List.getLast?_append, List.getLast?_cons_cons]
      cases hq : (r :: rs).getLast? with
      | none => simp at hq
      | some v => rfl
  have hd : (a ++ '\n' :: rest).dropLast = a ++ '\n' :: rest.dropLast := by
    rw [List.dropLast_append_of_ne_nil _ hne]
    cases rest with
    | nil => exact absurd rfl h
    | cons r rs => rfl
  unfold chomp
  rw [hl, hd]
  split_ifs <;> rfl

theorem splitLinesSpec_ne_nil : ∀ l : List Char, l ≠ [] → splitLinesSpec l ≠ [] := by
  apply lines_induction
  · intro a ha hne
    rw [splitLinesSpec_line a ha, if_neg hne]
    simp
  · intro a rest ha _ _
    rw [splitLinesSpec_cut a rest ha]
    simp

theorem splitLinesSpec_no_newline :
    ∀ l : List Char, ∀ line ∈ splitLinesSpec l, '\n' ∉ line := by
  apply lines_induction
  · intro a ha line hline
    rw [splitLinesSpec_line a ha] at hline
    split_ifs at hline
    · simp at hline
    · simp only [List.mem_singleton] at hline
      subst hline
      exact fun h => ha (stripCR_mem a _ h)
  · intro a rest ha ih line hline
    rw [splitLinesSpec_cut a rest ha, List.mem_cons] at hline
    rcases hline with e | hmem
    · subst e
      exact fun h => ha (stripCR_mem a _ h)
    · exact ih line hmem

theorem joinLines_splitLinesSpec :
    ∀ l : List Char, '\r' ∉ l → joinLines (splitLinesSpec l) = chomp l := by
  apply lines_induction
  · intro a ha hcr
    rw [splitLinesSpec_line a ha, chomp_id a ha]
    by_cases h0 : a = []
    · subst h0; rfl
    · rw [if_neg h0, stripCR_id a hcr]
      rfl
  · intro a rest ha ih hcr
    have hcra : '\r' ∉ a := fun h => hcr (by simp [h])
    have hcrr : '\r' ∉ rest := fun h => hcr (by simp [h])
    rw [splitLinesSpec_cut a rest ha, stripCR_id a hcra]
    by_cases h0 : rest = []
    · subst h0
      rw [splitLinesSpec_line [] (by simp), if_pos rfl, chomp_newline]
      rfl
    · have hne := splitLinesSpec_ne_nil rest h0
      rw [chomp_cut a rest h0, ← ih hcrr]
      cases hs : splitLinesSpec rest with
      | nil => exact absurd hs hne
      | cons p ps => rfl

/-- C26: for every `dst` and input, `AppendSplitLines` returns `dst` followed by the
lines of the input: the pieces between the newlines, without the empty piece after a
final newline, each without one final `\r`. No line contains a newline; for an input
without `\r`, joining the lines with `\n` gives the input without one final newline; the
empty input adds nothing. -/
theorem C26_append_split_lines (dst : List String) (input : String) :
    AppendSplitLines dst input
      = some (dst ++ (splitLinesSpec input.data).map String.mk) ∧
    (∀ line ∈ splitLinesSpec input.data, '\n' ∉ line) ∧
    ('\r' ∉ input.data → joinLines (splitLinesSpec input.data) = chomp input.data) ∧
    AppendSplitLines dst "" = some dst ∧
    AppendSplitLines ["x"] "a\r\nb\n\nc\r" = some ["x", "a", "b", "", "c"] ∧
    AppendSplitLines [] "a\r\r\n\r\n" = some ["a\r", ""] ∧
    AppendSplitLines [] "one\ntwo\n" = some ["one", "two"] := by
  refine ⟨?_, splitLinesSpec_no_newline input.data, joinLines_splitLinesSpec input.data,
    ?_, by decide, by decide, by decide⟩
  · exact appendSplitLinesLoop_spec input.data (input.length + 1) dst (Nat.lt_succ_self _)
  · have h := appendSplitLinesLoop_spec [] 1 dst (by decide)
    simpa [splitLinesSpec_line, AppendSplitLines] using h

/-! ## `WildcardMatch` -/

theorem wildcardLoop_fuel (pattern s : Bytes) (fuel : Nat) :
    ∀ (st : WildcardState) (r : Bool) (k : Nat), wildcardLoop pattern s fuel st = some r →
      wildcardLoop pattern s (fuel + k) st = some r := by
  induction fuel with
  | zero => intro st r k h; cases h
  | succ fuel ih =>
    intro st r k h
    have e : fuel + 1 + k = (fuel + k) + 1 := by omega
    rw [e]
    unfold wildcardLoop at h ⊢
    cases hp : wildcardPass pattern s st with
    | returned result => rw [hp] at h; exact h
    | again next => rw [hp] at h; exact ih next r k h

/-- C24: `WildcardMatch("?a", "a")` returns false although `a` matches `?a` with `?`
standing for no character (and so do `a?b` on `ab` and `*?a` on `a`); the function lets
`?` stand for no character only when a later mismatch sends it back (`a?bc` matches
`abc`) or at the end of the pattern (`a?` matches `a`), not when the text ends first. The
results on these inputs do not change with a larger bound on the passes. Where it returns
true on the inputs below, the documented semantics agree. -/
theorem C24_eroteme_before_end_of_text :
    (WildcardMatch 16 "?a" "a" = some false ∧ wildcardMatches (utf8 "?a") (utf8 "a") = true) ∧
    (WildcardMatch 16 "a?b" "ab" = some false ∧
      wildcardMatches (utf8 "a?b") (utf8 "ab") = true) ∧
    (WildcardMatch 16 "*?a" "a" = some false ∧
      wildcardMatches (utf8 "*?a") (utf8 "a") = true) ∧
    (WildcardMatch 16 "a?bc" "abc" = some true ∧
      wildcardMatches (utf8 "a?bc") (utf8 "abc") = true) ∧
    (WildcardMatch 16 "a?" "a" = some true ∧ wildcardMatches (utf8 "a?") (utf8 "a") = true) ∧
    (WildcardMatch 16 "a*c" "abbc" = some true ∧
      wildcardMatches (utf8 "a*c") (utf8 "abbc") = true) ∧
    (WildcardMatch 16 "a.c" "ac" = some false ∧
      wildcardMatches (utf8 "a.c") (utf8 "ac") = false) ∧
    (WildcardMatch 16 "" "a" = some false ∧ WildcardMatch 16 "" "" = some true) ∧
    (∀ k, WildcardMatch (16 + k) "?a" "a" = some false) := by
  refine ⟨by decide, by decide, by decide, by decide, by decide, by decide, by decide,
    by decide, fun k => ?_⟩
  have h : WildcardMatch 16 "?a" "a" = some false := by decide
  unfold WildcardMatch at h ⊢
  rw [if_neg (by decide), if_neg (by decide)] at h ⊢
  exact wildcardLoop_fuel _ _ 16 _ false k h

end FastForward
